import Mathlib

/-!
# SDCollisionVis: a shallow embedding of the tracing core

The definitions below follow `SDCollisionVisSettings.h`, `SDCollisionVisSettings.cpp`,
`SDCollisionVisRenderer.h`, `SDCollisionVisRenderer.cpp` and `SDCollisionVisModule.cpp` of the
plugin.

Conventions of the embedding.

* `uint32` values are natural numbers below `2 ^ 32`; every `uint32` operation that can leave
  that range is reduced with `wrapU32`.  Conversions between `int32` and `uint32` are the
  two's complement ones (`wrapU32`, `castInt32`).
* `int32` coordinates (`FIntPoint`) are integers.  Signed overflow is undefined behaviour in the
  source, so sums and products of `int32` values are taken in `ℤ`; the model agrees with the code
  whenever those results fit in 32 bits.
* `float` and `double` values are the rational numbers they denote.  Every arithmetic operation
  is the exact operation followed by rounding to nearest, ties to even, into the format
  (`f32` for binary32, `f64` for binary64, subnormals included).  Infinities and NaN are not
  represented: the model agrees with IEEE 754 evaluation as long as no intermediate result
  overflows and no division is by zero (in `ℚ` a quotient by zero is `0`), and it rounds every
  operation separately (no fused multiply-add).  `abs` on a `float` is the floating point
  absolute value.
* The engine is represented by what it returns: the ray through a pixel, the result of the
  line trace and the elapsed time are functions held in `FTraceEnvironment`, and the mesh
  lookup of the density mode is the `Geometry` field of `FHitResult`.
* `uint64` values are natural numbers below `2 ^ 64`, reduced with `wrapU64`.
* The conversion `(int32)` of a floating point value is defined only when the truncated value
  is an `int32` value (`truncToInt32`).
* An enumeration field that the dispatch switches over is held as its underlying integer
  (`toRaw`), so that a value outside the enumerators can be stated.
* The drivers are functions on explicit state.  Buffers and tasks are numbers, their identity;
  what a call does to tasks, buffers and files is returned as a list of events in program
  order.  The iterations of a `ParallelFor` are taken in the order of their index, and a
  dispatched trace task of the offline driver is taken to have run when the next call of the
  ticker has waited for it.
-/

namespace SDCollisionVis

/-! ## Machine integers -/

/-- Reduction of an integer to a `uint32` value (conversion to `uint32`, wrap-around). -/
def wrapU32 (n : Int) : Nat := (n % 4294967296).toNat

/-- Conversion to `int32`: the two's complement reading of the low 32 bits. -/
def castInt32 (n : Int) : Int := (n + 2147483648) % 4294967296 - 2147483648

/-! ## Binary floating point, round to nearest even -/

/-- Number of binary digits of `n`, computed by repeated halving (at most `fuel` digits). -/
def bitLenAux : Nat → Nat → Nat
  | 0, _ => 0
  | fuel + 1, n => if n = 0 then 0 else bitLenAux fuel (n / 2) + 1

/-- Number of binary digits of `n`: `0` for `0`, otherwise the `b` with
`2 ^ (b - 1) ≤ n < 2 ^ b`. -/
def bitLen (n : Nat) : Nat := bitLenAux n n

/-- Binary exponent of a non-zero rational: the integer `e` with `2 ^ e ≤ |q| < 2 ^ (e + 1)`.
It is found from the bit lengths of numerator and denominator. -/
def binExp (q : ℚ) : Int :=
  let k : Int := (bitLen q.num.natAbs : Int) - (bitLen q.den : Int)
  if (2 : ℚ) ^ k ≤ |q| then k else k - 1

/-- Nearest integer to a rational, ties going to the even neighbour. -/
def roundHalfEven (m : ℚ) : Int :=
  let f : Int := ⌊m⌋
  let r : ℚ := m - f
  if r < 1 / 2 then f
  else if 1 / 2 < r then f + 1
  else if f % 2 = 0 then f else f + 1

/-- Rounding to nearest, ties to even, into the binary format with `p` significand bits whose
least normal exponent is `emin`: the result is a multiple of `2 ^ (e - (p - 1))` where `e` is
the exponent of `q`, or `emin` in the subnormal range. -/
def roundBinary (p : Nat) (emin : Int) (q : ℚ) : ℚ :=
  if q = 0 then 0
  else
    let e : Int := max (binExp q) emin
    let quantum : ℚ := (2 : ℚ) ^ (e - ((p : Int) - 1))
    (roundHalfEven (q / quantum) : ℚ) * quantum

/-- Rounding into `float` (binary32). -/
def f32 (q : ℚ) : ℚ := roundBinary 24 (-126) q

/-- Rounding into `double` (binary64). -/
def f64 (q : ℚ) : ℚ := roundBinary 53 (-1022) q

/-- Conversion of a floating point value to an integer: truncation toward zero. -/
def truncToInt (q : ℚ) : Int := if 0 ≤ q then ⌊q⌋ else ⌈q⌉

/-- The conversion `(int32)` of a floating point value: truncation towards zero, defined when
the truncated value is an `int32` value (`none` otherwise; the source has no defined result
there). -/
def truncToInt32 (q : ℚ) : Option Int :=
  if -2147483648 ≤ truncToInt q ∧ truncToInt q ≤ 2147483647 then some (truncToInt q) else none

/-- The cast `(uint8)x` of a floating point value: truncation, then the low 8 bits. -/
def castUInt8 (q : ℚ) : Nat := (truncToInt q % 256).toNat

/-- Integer square root by bits: starting from `r`, the bits `i - 1, ..., 0` are tried from the
top and kept while the square stays at most `n`. -/
def isqrtFrom (n : Nat) : Nat → Nat → Nat
  | 0, r => r
  | i + 1, r => isqrtFrom n i (if (r + 2 ^ i) * (r + 2 ^ i) ≤ n then r + 2 ^ i else r)

/-- Integer square root: the `r` with `r * r ≤ n < (r + 1) * (r + 1)`. -/
def isqrt (n : Nat) : Nat := isqrtFrom n (bitLen n / 2 + 1) 0

/-- Correctly rounded square root into the format `(p, emin)`, for `q ≥ 0`.  The root is taken
of `q * 4 ^ s` with `s` large enough to give at least `p + 2` significant bits; when the
integer root is inexact the half-way marker is added before the final rounding. -/
def sqrtBinary (p : Nat) (emin : Int) (q : ℚ) : ℚ :=
  if q ≤ 0 then 0
  else
    let s : Nat := p + 2 + bitLen q.den
    let n : Nat := q.num.natAbs * 4 ^ s / q.den
    let m : Nat := isqrt n
    let exact : Bool := m * m * q.den == q.num.natAbs * 4 ^ s
    let surrogate : ℚ := ((m : ℚ) + (if exact then 0 else 1 / 2)) / (2 : ℚ) ^ s
    roundBinary p emin surrogate

/-- The engine function `FMath::Sqrt` on `float`: the correctly rounded square root. -/
def sqrtF32 (q : ℚ) : ℚ := sqrtBinary 24 (-126) q

/-- The engine function `FMath::Clamp(X, Min, Max)`. -/
def Clamp {α : Type} [LinearOrder α] (x lo hi : α) : α := max (min x hi) lo

/-! ## Colours, points, vectors -/

/-- The type `FColor`: four 8-bit channels. -/
structure FColor where
  R : Nat
  G : Nat
  B : Nat
  A : Nat
  deriving DecidableEq, Repr

/-- The constant `FColor::Black`, opaque black. -/
def FColor.Black : FColor := ⟨0, 0, 0, 255⟩

/-- Zero-initialised pixel, as `SetNumZeroed` leaves it. -/
def FColor.Zeroed : FColor := ⟨0, 0, 0, 0⟩

/-- The type `FIntPoint`: a pair of `int32` coordinates. -/
structure FIntPoint where
  X : Int
  Y : Int
  deriving DecidableEq, Repr

/-- The type `FUintVector`: three `uint32` components. -/
structure FUintVector where
  X : Nat
  Y : Nat
  Z : Nat
  deriving DecidableEq, Repr

/-- The type `FVector`: three `double` components. -/
structure FVector where
  X : ℚ
  Y : ℚ
  Z : ℚ
  deriving DecidableEq

/-- The method `FVector::Dot`, evaluated in `double`: `X * V.X + Y * V.Y + Z * V.Z`. -/
def FVector.Dot (a b : FVector) : ℚ :=
  f64 (f64 (f64 (a.X * b.X) + f64 (a.Y * b.Y)) + f64 (a.Z * b.Z))

/-- Unary minus of `FVector` (exact in floating point). -/
def FVector.neg (a : FVector) : FVector := ⟨-a.X, -a.Y, -a.Z⟩

/-- The visualisation modes. -/
inductive EVisualisationType where
  | Default
  | Primitive
  | Triangles
  | Material
  | RayTime
  | RayTimeEvenMiss
  | TriangleDensity
  deriving DecidableEq, Repr

/-- The sampling patterns. -/
inductive ESamplingPattern where
  | Linear
  | R2
  deriving DecidableEq, Repr

/-! ## Hashing and colour ramps (`SDCollisionVisSettings.h`) -/

/-- Value of the binary32 number with bit pattern `bits` (finite patterns). -/
def bitsToFloat (bits : Nat) : ℚ :=
  let sign : ℚ := if bits / 2147483648 % 2 = 1 then -1 else 1
  let ex : Nat := bits / 8388608 % 256
  let man : Nat := bits % 8388608
  if ex = 0 then sign * (man : ℚ) * (2 : ℚ) ^ (-149 : Int)
  else sign * ((8388608 + man : Nat) : ℚ) * (2 : ℚ) ^ ((ex : Int) - 150)

/-- The function `RandomBounded`: the low 23 bits of the seed become the mantissa of a float in `[1, 2)`,
from which `1.0f` is subtracted. -/
def RandomBounded (Seed : Nat) : ℚ :=
  let Seed1 : Nat := wrapU32 (0x3f800000 + (Seed &&& 0x7fffff : Nat))
  f32 (bitsToFloat Seed1 - 1)

/-- The function `SimpleHash32`: 32-bit mixing of three seeds. -/
def SimpleHash32 (Seed : FUintVector) : Nat :=
  let ha : Nat := 0xb543c3a6 ^^^ Seed.X
  let hb : Nat := 0x526f94e2 ^^^ Seed.Y
  let hab : Nat := wrapU32 (ha * hb : Nat)
  let hz0 : Nat := 0x53c5ca59 ^^^ (hab >>> 5)
  let hz1 : Nat := 0x74743c1b ^^^ Seed.Z
  wrapU32 (hz0 * hz1 : Nat)

/-- The hue-to-RGB ramp shared by `RandomColour` and `Heatmap`, with quantisation
`(uint8)(c * Dampening * 255.0f + 0.5f)`. -/
def HueToColour (Hue Dampening : ℚ) : FColor :=
  let R0 : ℚ := f32 (|f32 (f32 (Hue * 6) - 3)| - 1)
  let G0 : ℚ := f32 (2 - |f32 (f32 (Hue * 6) - 2)|)
  let B0 : ℚ := f32 (2 - |f32 (f32 (Hue * 6) - 4)|)
  let R : ℚ := Clamp R0 0 1
  let G : ℚ := Clamp G0 0 1
  let B : ℚ := Clamp B0 0 1
  let Cr : Nat := castUInt8 (f32 (f32 (f32 (R * Dampening) * 255) + 1 / 2))
  let Cg : Nat := castUInt8 (f32 (f32 (f32 (G * Dampening) * 255) + 1 / 2))
  let Cb : Nat := castUInt8 (f32 (f32 (f32 (B * Dampening) * 255) + 1 / 2))
  ⟨Cr, Cg, Cb, 255⟩

/-- The function `RandomColour(Seed, Dampening)`; the source default for `Dampening` is `1.0f`. -/
def RandomColour (Seed : FUintVector) (Dampening : ℚ) : FColor :=
  HueToColour (RandomBounded (SimpleHash32 Seed)) Dampening

/-- The function `Heatmap(Intensity, Dampening)`; the source default for `Dampening` is `1.0`.
`Hue = (1.0f - Intensity) * (1.0f / 3.0f)`. -/
def Heatmap (Intensity Dampening : ℚ) : FColor :=
  let Hue : ℚ := f32 (f32 (1 - Intensity) * f32 (1 / 3))
  HueToColour Hue Dampening

/-! ## Sampling patterns -/

/-- The constant `G1` of the R2 sequence, a `double` literal. -/
def R2G1 : ℚ := f64 0.7548776662466927600495088963585286918946

/-- The constant `G2` of the R2 sequence, a `double` literal. -/
def R2G2 : ℚ := f64 0.5698402909980532659113999581195686488398

/-- The engine function `FMath::Frac` on `double` (engine): `Value - FloorToDouble(Value)`. -/
def FMathFrac (v : ℚ) : ℚ := f64 (v - (⌊v⌋ : Int))

/-- Offset inside the tile chosen by the R2 pattern along one axis with constant `G`:
`(int32)(FMath::Frac(G * (double)(FrameId + H)) * (double)TileSize)`, where `FrameId + H` is a
`uint32` sum. -/
def R2Offset (G : ℚ) (H TileSize FrameId : Nat) : Int :=
  truncToInt (f64 (FMathFrac (f64 (G * (wrapU32 (FrameId + H : Nat) : ℚ))) * (TileSize : ℚ)))

/-- The function `NextTileSamplePosition<SamplingPattern>(TileStartOffset, TileSize, FrameId)`; `TileSize` and
`FrameId` are `uint32` values. -/
def NextTileSamplePosition (SamplingPattern : ESamplingPattern) (TileStartOffset : FIntPoint)
    (TileSize FrameId : Nat) : FIntPoint :=
  match SamplingPattern with
  | ESamplingPattern.Linear =>
    ⟨TileStartOffset.X + castInt32 ((FrameId % TileSize : Nat) : Int),
     TileStartOffset.Y + castInt32 ((FrameId / TileSize % TileSize : Nat) : Int)⟩
  | ESamplingPattern.R2 =>
    let H : Nat := SimpleHash32 ⟨wrapU32 TileStartOffset.X, wrapU32 TileStartOffset.Y, 0⟩
    let X : Int := R2Offset R2G1 H TileSize FrameId
    let Y : Int := R2Offset R2G2 H TileSize FrameId
    ⟨TileStartOffset.X + X, TileStartOffset.Y + Y⟩

/-! ## Timer and colour policies -/

/-- The type `FTimer` without its cycle counter: the bounds and the clipped, normalised time. -/
structure FTimer where
  MinTime : ℚ
  MaxTime : ℚ
  ClippedTime : ℚ
  deriving DecidableEq

/-- A value-initialised `FTimer`. -/
def FTimer.Zero : FTimer := ⟨0, 0, 0⟩

/-- The method `FTimer::End`, given the elapsed milliseconds `Ms` (already converted to `float`). -/
def FTimer.End (t : FTimer) (Ms : ℚ) : FTimer :=
  { t with ClippedTime := Clamp (f32 (f32 (Ms - t.MinTime) / f32 (t.MaxTime - t.MinTime))) 0 1 }

/-- The method `FTimer::Get`. -/
def FTimer.Get (t : FTimer) : ℚ := t.ClippedTime

/-- The fields of `FHitResult` that the colour policies read.  `PhysMaterial` is the unique id
of the physical material when the pointer is set.  `Geometry` stands for what the physics
interface yields in density mode: `none` when the hit has no physics object, no scene, no
geometry, or a geometry that is neither a mesh nor a union; otherwise the leaf objects visited
in order, each `some a` when the leaf is a triangle mesh whose local raycast hits a triangle
with `|pA x pB| = a`, and `none` when it is not. -/
structure FHitResult where
  Normal : FVector
  ImpactPoint : FVector
  ElementIndex : Int
  FaceIndex : Int
  PhysMaterial : Option Nat
  Geometry : Option (List (Option ℚ))

/-- A default-constructed `FHitResult`. -/
def FHitResult.Init : FHitResult := ⟨⟨0, 0, 0⟩, ⟨0, 0, 0⟩, -1, -1, none, none⟩

/-- Density branch, after the leaf visit: every leaf whose raycast hits overwrites the result
with `Heatmap(Area2, FacingRatio)`, so the last such leaf decides. -/
def VisitLeafObjects (FacingRatio MinArea2 Mul : ℚ) (Result : FColor) :
    List (Option ℚ) → FColor
  | [] => Result
  | none :: rest => VisitLeafObjects FacingRatio MinArea2 Mul Result rest
  | some a :: rest =>
    let Area2 : ℚ := f32 a
    let Heat : ℚ := f32 (Clamp (f64 (1 - f32 (f32 (Area2 - MinArea2) * Mul))) 0 1)
    VisitLeafObjects FacingRatio MinArea2 Mul (Heatmap Heat FacingRatio) rest

/-- The function `CalculateVisualisationColour<VisType>`.  The unused `Origin` parameter is left out. -/
def CalculateVisualisationColour (VisType : EVisualisationType) (bHit : Bool)
    (HitResult : FHitResult) (TraceNormal RevViewForward : FVector) (Timer : FTimer)
    (TriangleDensityMinArea2 TriangleDensityMul : ℚ) : FColor :=
  if VisType = EVisualisationType.RayTimeEvenMiss then Heatmap Timer.Get 1
  else if !bHit then FColor.Black
  else
    let FacingRatio : ℚ := Clamp (-(f32 (TraceNormal.Dot HitResult.Normal))) 0 1
    match VisType with
    | EVisualisationType.Default =>
      let Fr : ℚ := FacingRatio
      let Fg : ℚ := Clamp (f32 (RevViewForward.Dot HitResult.Normal)) 0 1
      let Fb : ℚ := min (sqrtF32 (f32 (f32 (Fr * Fr) + f32 (Fg * Fg)))) 1
      let Cr : Nat := castUInt8 (f32 (f32 (Fr * 255) + 1 / 2))
      let Cg : Nat := castUInt8 (f32 (f32 (Fg * 255) + 1 / 2))
      let Cb : Nat := castUInt8 (f32 (f32 (Fb * 255) + 1 / 2))
      ⟨Cr, Cg, Cb, 255⟩
    | EVisualisationType.Primitive =>
      RandomColour ⟨wrapU32 HitResult.ElementIndex, 0, 0⟩ FacingRatio
    | EVisualisationType.Triangles =>
      RandomColour ⟨wrapU32 HitResult.FaceIndex, wrapU32 HitResult.ElementIndex, 0⟩ 1
    | EVisualisationType.Material =>
      let MaterialId : Nat := match HitResult.PhysMaterial with
        | some id => id
        | none => 0
      RandomColour ⟨MaterialId, 0, 0⟩ FacingRatio
    | EVisualisationType.RayTime => Heatmap Timer.Get 1
    | EVisualisationType.RayTimeEvenMiss => Heatmap Timer.Get 1
    | EVisualisationType.TriangleDensity =>
      let Grey : Nat := castUInt8 (f64 (127 * FacingRatio))
      match HitResult.Geometry with
      | none => ⟨Grey, Grey, Grey, 255⟩
      | some leaves =>
        VisitLeafObjects FacingRatio TriangleDensityMinArea2 TriangleDensityMul
          ⟨0, 0, castUInt8 (f32 (f32 (FacingRatio * 255) + 1 / 2)), 255⟩ leaves

/-! ## Settings (`SDCollisionVisSettings.cpp`) -/

/-- Values of the console variables that the settings constructor reads.  The object-type
mask, the trace tag and the mobility type are passed to the query service only and are left
out. -/
structure FConsoleVariables where
  VisType : Int
  RaytraceTimeIncludeMisses : Int
  SamplingPattern : Int
  TraceComplex : Int
  IgnoreBlocks : Int
  IgnoreTouches : Int
  MinDistance : ℚ
  TileSize : Int
  Scale : ℚ
  RaytraceTimeMinTime : ℚ
  RaytraceTimeMaxTime : ℚ
  TriangleDensityMinArea : ℚ
  TriangleDensityMaxArea : ℚ

/-- The registered defaults of the console variables. -/
def FConsoleVariables.Defaults : FConsoleVariables :=
  { VisType := 0, RaytraceTimeIncludeMisses := 0, SamplingPattern := 1, TraceComplex := 1,
    IgnoreBlocks := 0, IgnoreTouches := 0, MinDistance := f32 100, TileSize := 8,
    Scale := f32 (1 / 2), RaytraceTimeMinTime := f32 (1 / 1000),
    RaytraceTimeMaxTime := f32 (2 / 100), TriangleDensityMinArea := f32 1,
    TriangleDensityMaxArea := f32 10000 }

/-- The type `FSDCollisionSettings`; of the query parameters the four flags set here are kept. -/
structure FSDCollisionSettings where
  VisType : EVisualisationType
  SamplingPattern : ESamplingPattern
  bTraceComplex : Bool
  bIgnoreBlocks : Bool
  bIgnoreTouches : Bool
  bReturnPhysicalMaterial : Bool
  bReturnFaceIndex : Bool
  TileSize : Nat
  Scale : ℚ
  MinDistance : ℚ
  FrameId : Nat
  RaytraceTimeMinTime : ℚ
  RaytraceTimeMaxTime : ℚ
  TriangleDensityMinArea2 : ℚ
  TriangleDensityMaxArea2 : ℚ
  TriangleDensityMul : ℚ

/-- The default member initialisers of `FSDCollisionSettings`. -/
def FSDCollisionSettings.Init : FSDCollisionSettings :=
  { VisType := EVisualisationType.Default, SamplingPattern := ESamplingPattern.Linear,
    bTraceComplex := false, bIgnoreBlocks := false, bIgnoreTouches := false,
    bReturnPhysicalMaterial := false, bReturnFaceIndex := false,
    TileSize := 8, Scale := 1 / 2, MinDistance := 0, FrameId := 0,
    RaytraceTimeMinTime := 0, RaytraceTimeMaxTime := 0, TriangleDensityMinArea2 := 0,
    TriangleDensityMaxArea2 := 0, TriangleDensityMul := 0 }

/-- The method `FSDCollisionSettings::UpdateSettings`, reading the global frame counter `GFrameCounter`
(a `uint64`).  The product `TileSize * TileSize * TileSize * TileSize` is a `uint32` one. -/
def FSDCollisionSettings.UpdateSettings (s : FSDCollisionSettings) (GFrameCounter : Nat) :
    FSDCollisionSettings :=
  let TileSize : Nat := Clamp s.TileSize 2 128
  { s with
    bReturnFaceIndex := decide (s.VisType = EVisualisationType.Triangles)
      || decide (s.VisType = EVisualisationType.TriangleDensity)
    TileSize := TileSize
    Scale := Clamp s.Scale 0 1
    FrameId :=
      if s.SamplingPattern = ESamplingPattern.R2 then
        wrapU32 ((GFrameCounter % wrapU32 (TileSize * TileSize * TileSize * TileSize : Nat) : Nat) : Int)
      else wrapU32 ((GFrameCounter &&& 0xffffffff : Nat) : Int)
    TriangleDensityMul := f32 (f64 (1 / f32 (s.TriangleDensityMaxArea2 - s.TriangleDensityMinArea2))) }

/-- The constructor `FSDCollisionSettings::FSDCollisionSettings()`: the console variables are
read into the fields, then `UpdateSettings` runs. -/
def FSDCollisionSettings.Construct (cv : FConsoleVariables) (GFrameCounter : Nat) :
    FSDCollisionSettings :=
  let d : FSDCollisionSettings := FSDCollisionSettings.Init
  let VisType : EVisualisationType :=
    if cv.VisType = 0 then EVisualisationType.Default
    else if cv.VisType = 1 then EVisualisationType.Primitive
    else if cv.VisType = 2 then EVisualisationType.Triangles
    else if cv.VisType = 3 then EVisualisationType.Material
    else if cv.VisType = 4 then
      (if cv.RaytraceTimeIncludeMisses ≠ 0 then EVisualisationType.RayTimeEvenMiss
       else EVisualisationType.RayTime)
    else if cv.VisType = 5 then EVisualisationType.TriangleDensity
    else d.VisType
  let SamplingPattern : ESamplingPattern :=
    if cv.SamplingPattern = 0 then ESamplingPattern.Linear
    else if cv.SamplingPattern = 1 then ESamplingPattern.R2
    else d.SamplingPattern
  FSDCollisionSettings.UpdateSettings
    { d with
      VisType := VisType
      SamplingPattern := SamplingPattern
      bTraceComplex := decide (cv.TraceComplex ≠ 0)
      bIgnoreBlocks := decide (cv.IgnoreBlocks ≠ 0)
      bIgnoreTouches := decide (cv.IgnoreTouches ≠ 0)
      bReturnPhysicalMaterial := decide (VisType = EVisualisationType.Material)
      MinDistance := cv.MinDistance
      TileSize := wrapU32 cv.TileSize
      Scale := cv.Scale
      RaytraceTimeMinTime := cv.RaytraceTimeMinTime
      RaytraceTimeMaxTime := cv.RaytraceTimeMaxTime
      TriangleDensityMinArea2 := f32 (f64 (cv.TriangleDensityMinArea * 2))
      TriangleDensityMaxArea2 := f32 (f64 (cv.TriangleDensityMaxArea * 2)) }
    GFrameCounter

/-! ## Render buffer and perspective renderer (`SDCollisionVisRenderer.h`) -/

/-- The type `FRenderBuffer`: dimensions and row-major pixel data. -/
structure FRenderBuffer where
  Dimensions : FIntPoint
  PixelData : List FColor

/-- The method `FRenderBuffer::Init`: `SetNumZeroed(Dimensions.X * Dimensions.Y)`. -/
def FRenderBuffer.Init (InDimensions : FIntPoint) : FRenderBuffer :=
  ⟨InDimensions, List.replicate (InDimensions.X * InDimensions.Y).toNat FColor.Zeroed⟩

/-- What the engine provides to the renderer: the ray through a screen point (unprojection
through the inverse view-projection matrix, perspective divide, normalisation), the result of
`World->LineTraceSingleByObjectType` along that ray, and the milliseconds the trace took. -/
structure FTraceEnvironment where
  TraceNormal : ℚ × ℚ → FVector
  LineTrace : FVector → Bool × FHitResult
  ElapsedMs : FVector → ℚ

/-- The class `FPerspectiveRenderer`: the localised buffer (`RenderTargetSize`, `PixelData`), the settings
and the view data. -/
structure FPerspectiveRenderer where
  World : FTraceEnvironment
  RenderTargetSize : FIntPoint
  PixelData : List FColor
  Settings : FSDCollisionSettings
  Origin : FVector
  PointToUV : ℚ × ℚ
  RevViewForward : FVector

/-- Normalised device coordinates of the centre of a pixel:
`UV = PointToUV * ((FVector2D)PixelPos + 0.5)`, `NDC = UV * (2, -2) + (-1, 1)`. -/
def FPerspectiveRenderer.PixelNDC (r : FPerspectiveRenderer) (PixelPos : FIntPoint) : ℚ × ℚ :=
  let UVx : ℚ := f64 (r.PointToUV.1 * f64 ((PixelPos.X : ℚ) + 1 / 2))
  let UVy : ℚ := f64 (r.PointToUV.2 * f64 ((PixelPos.Y : ℚ) + 1 / 2))
  (f64 (f64 (UVx * 2) + -1), f64 (f64 (UVy * -2) + 1))

/-- The colour `RenderPerspectivePixel<VisType>` computes for a pixel: the ray, the optional
timer, the line trace, and `CalculateVisualisationColour<VisType>`. -/
def FPerspectiveRenderer.WritebackColour (r : FPerspectiveRenderer)
    (VisType : EVisualisationType) (PixelPos : FIntPoint) : FColor :=
  let TraceNormal : FVector := r.World.TraceNormal (r.PixelNDC PixelPos)
  let bUseTimer : Bool := decide (VisType = EVisualisationType.RayTime)
    || decide (VisType = EVisualisationType.RayTimeEvenMiss)
  let Timer0 : FTimer :=
    if bUseTimer then
      { FTimer.Zero with MinTime := r.Settings.RaytraceTimeMinTime
                         MaxTime := r.Settings.RaytraceTimeMaxTime }
    else FTimer.Zero
  let Hit : Bool × FHitResult := r.World.LineTrace TraceNormal
  let Timer : FTimer := if bUseTimer then Timer0.End (f32 (r.World.ElapsedMs TraceNormal)) else Timer0
  CalculateVisualisationColour VisType Hit.1 Hit.2 TraceNormal r.RevViewForward Timer
    r.Settings.TriangleDensityMinArea2 r.Settings.TriangleDensityMul

/-- The method `RenderPerspectivePixel<VisType>(PixelPos)`, returning the pixel data afterwards.  The
guard is the one of the source, `PixelPos.X < RenderTargetSize.X && PixelPos.Y <
RenderTargetSize.Y`.  The result is `none` when the store `PixelData[Y * Width + X]` is outside
the array view (a failed range check). -/
def FPerspectiveRenderer.RenderPerspectivePixel (r : FPerspectiveRenderer)
    (VisType : EVisualisationType) (PixelPos : FIntPoint) : Option (List FColor) :=
  if PixelPos.X < r.RenderTargetSize.X ∧ PixelPos.Y < r.RenderTargetSize.Y then
    let Index : Int := PixelPos.Y * r.RenderTargetSize.X + PixelPos.X
    if 0 ≤ Index ∧ Index < r.PixelData.length then
      some (r.PixelData.set Index.toNat (r.WritebackColour VisType PixelPos))
    else none
  else some r.PixelData

/-- The method `RenderPerspectiveTilePixel<SamplingPattern, VisType>(Tile)`. -/
def FPerspectiveRenderer.RenderPerspectiveTilePixel (r : FPerspectiveRenderer)
    (SamplingPattern : ESamplingPattern) (VisType : EVisualisationType) (Tile : FIntPoint) :
    Option (List FColor) :=
  r.RenderPerspectivePixel VisType
    (NextTileSamplePosition SamplingPattern Tile r.Settings.TileSize r.Settings.FrameId)

/-- The constructor of `FPerspectiveRenderer` for a buffer; its `check` requires
`RenderTargetSize.X * RenderTargetSize.Y == PixelData.Num()`. -/
def FPerspectiveRenderer.Construct (World : FTraceEnvironment) (InRenderBuffer : FRenderBuffer)
    (InSettings : FSDCollisionSettings) (InOrigin RevViewForward : FVector) :
    FPerspectiveRenderer :=
  { World := World
    RenderTargetSize := InRenderBuffer.Dimensions
    PixelData := InRenderBuffer.PixelData
    Settings := InSettings
    Origin := InOrigin
    PointToUV := (f64 (1 / (InRenderBuffer.Dimensions.X : ℚ)), f64 (1 / (InRenderBuffer.Dimensions.Y : ℚ)))
    RevViewForward := RevViewForward }

/-! ## Example inputs -/

/-- A world in which every ray misses. -/
def MissWorld : FTraceEnvironment :=
  ⟨fun _ => ⟨1, 0, 0⟩, fun _ => (false, FHitResult.Init), fun _ => 0⟩

/-- A renderer over a freshly initialised 4 x 4 buffer, with the default settings. -/
def SmallRenderer : FPerspectiveRenderer :=
  FPerspectiveRenderer.Construct MissWorld (FRenderBuffer.Init ⟨4, 4⟩)
    (FSDCollisionSettings.Construct FConsoleVariables.Defaults 0) ⟨0, 0, 0⟩ ⟨1, 0, 0⟩

/-- Settings with the Linear pattern and the configured tile size 3. -/
def LinearSettings3 : FSDCollisionSettings :=
  { FSDCollisionSettings.Init with TileSize := 3 }

/-- The sample position of a tile at global frame counter `g`, for settings refreshed by
`UpdateSettings` at that frame (as `RenderPerspectiveTilePixel` computes it). -/
def TilePositionAtFrame (s : FSDCollisionSettings) (Tile : FIntPoint) (g : Nat) : FIntPoint :=
  NextTileSamplePosition (s.UpdateSettings g).SamplingPattern Tile (s.UpdateSettings g).TileSize
    (s.UpdateSettings g).FrameId

/-! ## Kernel dispatch (`SDCollisionVisSettings.h`) -/

/-- The underlying value of an `EVisualisationType` enumerator. -/
def EVisualisationType.toRaw : EVisualisationType → Int
  | EVisualisationType.Default => 0
  | EVisualisationType.Primitive => 1
  | EVisualisationType.Triangles => 2
  | EVisualisationType.Material => 3
  | EVisualisationType.RayTime => 4
  | EVisualisationType.RayTimeEvenMiss => 5
  | EVisualisationType.TriangleDensity => 6

/-- The underlying value of an `ESamplingPattern` enumerator. -/
def ESamplingPattern.toRaw : ESamplingPattern → Int
  | ESamplingPattern.Linear => 0
  | ESamplingPattern.R2 => 1

/-- The mask bit `EKD_VisType = (1 << 0)`. -/
def EKD_VisType : Nat := 1

/-- The mask bit `EKD_SamplingPattern = (1 << 1)`. -/
def EKD_SamplingPattern : Nat := 2

/-- The static parameters `TKernelDispatchParameters<InVisType, InSamplingPattern>` that a
kernel is instantiated with. -/
structure TKernelDispatchParameters where
  VisType : EVisualisationType
  SamplingPattern : ESamplingPattern
  deriving DecidableEq, Repr

/-- The default instantiation `TKernelDispatchParameters<>`. -/
def TKernelDispatchParameters.Base : TKernelDispatchParameters :=
  ⟨EVisualisationType.Default, ESamplingPattern.Linear⟩

/-- The executor `FKernelExecutor`.  Its two fields are kept as the underlying integers of the
enumerations, so that a value outside the declared enumerators can be represented. -/
structure FKernelExecutor where
  VisType : Int
  SamplingPattern : Int
  deriving DecidableEq, Repr

/-- How a call of `Dispatch` ends: it returns after the listed kernel invocations, or it stops
in a fatal assertion. -/
inductive FDispatchResult where
  | Returned (Invocations : List TKernelDispatchParameters)
  | Fatal
  deriving DecidableEq, Repr

/-- The lambda `DispatchKernelVisType`: without the `EKD_VisType` bit the settings are passed
on unchanged, otherwise the `switch` over `VisType` sets the static mode.  The `switch` has no
`default` label: for a value that matches no `case` nothing is called. -/
def DispatchKernelVisType (e : FKernelExecutor) (DispatchTypes : Nat)
    (Settings : TKernelDispatchParameters)
    (Next : TKernelDispatchParameters → List TKernelDispatchParameters) :
    List TKernelDispatchParameters :=
  if DispatchTypes &&& EKD_VisType ≠ EKD_VisType then Next Settings
  else if e.VisType = 0 then Next { Settings with VisType := EVisualisationType.Default }
  else if e.VisType = 1 then Next { Settings with VisType := EVisualisationType.Primitive }
  else if e.VisType = 2 then Next { Settings with VisType := EVisualisationType.Triangles }
  else if e.VisType = 3 then Next { Settings with VisType := EVisualisationType.Material }
  else if e.VisType = 4 then Next { Settings with VisType := EVisualisationType.RayTime }
  else if e.VisType = 5 then
    Next { Settings with VisType := EVisualisationType.RayTimeEvenMiss }
  else if e.VisType = 6 then
    Next { Settings with VisType := EVisualisationType.TriangleDensity }
  else []

/-- The lambda `DispatchSamplingPattern`, built like `DispatchKernelVisType`. -/
def DispatchSamplingPattern (e : FKernelExecutor) (DispatchTypes : Nat)
    (Settings : TKernelDispatchParameters)
    (Next : TKernelDispatchParameters → List TKernelDispatchParameters) :
    List TKernelDispatchParameters :=
  if DispatchTypes &&& EKD_SamplingPattern ≠ EKD_SamplingPattern then Next Settings
  else if e.SamplingPattern = 0 then
    Next { Settings with SamplingPattern := ESamplingPattern.Linear }
  else if e.SamplingPattern = 1 then
    Next { Settings with SamplingPattern := ESamplingPattern.R2 }
  else []

/-- The method `FKernelExecutor::Dispatch<BaseDispatcher, DispatchTypes>(Kernel)`: the chain
`DispatchSamplingPattern`, `DispatchKernelVisType`, `Kernel`, started on `BaseDispatcher()`.
The kernel is represented by the record of its invocations.  The body contains no assertion, so
the call always returns. -/
def FKernelExecutor.Dispatch (e : FKernelExecutor) (BaseDispatcher : TKernelDispatchParameters)
    (DispatchTypes : Nat) : FDispatchResult :=
  FDispatchResult.Returned
    (DispatchSamplingPattern e DispatchTypes BaseDispatcher
      (fun s1 => DispatchKernelVisType e DispatchTypes s1 (fun s2 => [s2])))

/-! ## The tile loop of the realtime driver (`SDCollisionVisRenderer.cpp`) -/

/-- The index of the store of `RenderPerspectivePixel`, when its guard lets the position pass:
`PixelPos.Y * RenderTargetSize.X + PixelPos.X`. -/
def FPerspectiveRenderer.StoreIndex (r : FPerspectiveRenderer) (PixelPos : FIntPoint) :
    Option Int :=
  if PixelPos.X < r.RenderTargetSize.X ∧ PixelPos.Y < r.RenderTargetSize.Y then
    some (PixelPos.Y * r.RenderTargetSize.X + PixelPos.X)
  else none

/-- The index that `RenderPerspectiveTilePixel` stores to for a tile, if any. -/
def FPerspectiveRenderer.TileStoreIndex (r : FPerspectiveRenderer)
    (SamplingPattern : ESamplingPattern) (Tile : FIntPoint) : Option Int :=
  r.StoreIndex (NextTileSamplePosition SamplingPattern Tile r.Settings.TileSize r.Settings.FrameId)

/-! ## The offline driver (`SDCollisionVisRenderer.cpp`) -/

/-- Reduction of an integer to a `uint64` value. -/
def wrapU64 (n : Int) : Nat := (n % 18446744073709551616).toNat

/-- The engine function `FMath::DivideAndRoundUp` on `uint64`:
`(Dividend + Divisor - 1) / Divisor`. -/
def DivideAndRoundUp (Dividend Divisor : Nat) : Nat :=
  wrapU64 ((Dividend : Int) + (Divisor : Int) - 1) / Divisor

/-- The type `FSDOfflineCollisionSettings`: the base settings and the fields of the offline
render that the driver computes with. -/
structure FSDOfflineCollisionSettings where
  Settings : FSDCollisionSettings
  Resolution : Int
  MaxRaysPerFrame : Int
  bCubeMap : Bool

/-- What the engine derives from the view matrices of one view of the offline render: the
rays and traces of that view, and `-ViewMatrix.GetColumn(2)`. -/
structure FOfflineView where
  World : FTraceEnvironment
  RevViewForward : FVector

/-- The settings after the first statement of the cubemap branch:
`MaxRaysPerFrame = FMath::Max(1, MaxRaysPerFrame / 6)`. -/
def OfflineBudget (s : FSDOfflineCollisionSettings) : FSDOfflineCollisionSettings :=
  if s.bCubeMap then { s with MaxRaysPerFrame := max 1 (Int.tdiv s.MaxRaysPerFrame 6) } else s

/-- One (renderer, buffer) pair of the offline render. -/
def OfflinePair (s : FSDOfflineCollisionSettings) (Origin : FVector) (v : FOfflineView) :
    FPerspectiveRenderer × FRenderBuffer :=
  (FPerspectiveRenderer.Construct v.World (FRenderBuffer.Init ⟨s.Resolution, s.Resolution⟩)
      s.Settings Origin v.RevViewForward,
    FRenderBuffer.Init ⟨s.Resolution, s.Resolution⟩)

/-- The (renderer, buffer) pairs that `RenderOfflineCollision` builds: six pairs in cubemap
mode, after which the renderers 1 to 5 take `RevViewForward` of renderer 0, and one pair
otherwise. -/
def OfflinePairs (s : FSDOfflineCollisionSettings) (Origin : FVector)
    (Views : Nat → FOfflineView) : List (FPerspectiveRenderer × FRenderBuffer) :=
  if s.bCubeMap then
    match (List.range 6).map (fun i => OfflinePair (OfflineBudget s) Origin (Views i)) with
    | [] => []
    | p0 :: rest =>
      p0 :: rest.map (fun p => ({ p.1 with RevViewForward := p0.1.RevViewForward }, p.2))
  else [OfflinePair s Origin (Views 0)]

/-- The value `MaxIterations` of `RenderOfflineCollision`:
`DivideAndRoundUp(uint64(Resolution) * uint64(Resolution), uint64(MaxRaysPerFrame))` on the
settings after the cubemap adjustment. -/
def OfflineMaxIterations (s : FSDOfflineCollisionSettings) : Nat :=
  DivideAndRoundUp
    (wrapU64 ((wrapU64 (OfflineBudget s).Resolution * wrapU64 (OfflineBudget s).Resolution : Nat) : Int))
    (wrapU64 (OfflineBudget s).MaxRaysPerFrame)

/-- The body of the innermost loop of the trace task: every renderer renders the pixel. -/
def RenderAllFaces (VisType : EVisualisationType) (PixelPos : FIntPoint) :
    List FPerspectiveRenderer → Option (List FPerspectiveRenderer)
  | [] => some []
  | r :: rest =>
    match r.RenderPerspectivePixel VisType PixelPos, RenderAllFaces VisType PixelPos rest with
    | some d, some rest2 => some ({ r with PixelData := d } :: rest2)
    | _, _ => none

/-- The pixel position of the trace task for a ray: `PixelOffset = MaxRaysPerFrame * Iteration
+ Offset` in `uint64`, `PixelPos = (PixelOffset % Resolution, PixelOffset / Resolution)`. -/
def OfflinePixelPos (MaxRaysPerFrame Resolution : Int) (Iteration Offset : Nat) : FIntPoint :=
  let PixelOffset : Nat :=
    wrapU64 ((wrapU64 ((wrapU64 MaxRaysPerFrame * Iteration : Nat) : Int) + Offset : Nat) : Int)
  ⟨castInt32 ((PixelOffset % wrapU64 Resolution : Nat) : Int),
   castInt32 ((PixelOffset / wrapU64 Resolution : Nat) : Int)⟩

/-- The rays `Offset = 0 .. n - 1` of one trace task, in order (the `ParallelFor` iterations
store to different pixels). -/
def OfflineRays (VisType : EVisualisationType) (MaxRaysPerFrame Resolution : Int)
    (Iteration : Nat) : Nat → List FPerspectiveRenderer → Option (List FPerspectiveRenderer)
  | 0, rs => some rs
  | n + 1, rs =>
    match OfflineRays VisType MaxRaysPerFrame Resolution Iteration n rs with
    | some rs2 =>
      RenderAllFaces VisType (OfflinePixelPos MaxRaysPerFrame Resolution Iteration n) rs2
    | none => none

/-- The kernel of the trace task for one set of dispatch parameters:
`ParallelFor(MaxRaysPerFrame, ...)`. -/
def OfflineKernel (MaxRaysPerFrame Resolution : Int) (Iteration : Nat)
    (rs : Option (List FPerspectiveRenderer)) (p : TKernelDispatchParameters) :
    Option (List FPerspectiveRenderer) :=
  match rs with
  | some rs1 => OfflineRays p.VisType MaxRaysPerFrame Resolution Iteration MaxRaysPerFrame.toNat rs1
  | none => none

/-- The trace task `TraceFunc` of one iteration: the executor dispatches on the mode only.
The result is `none` when a store fails its range check. -/
def OfflineTraceTask (Executor : FKernelExecutor) (MaxRaysPerFrame Resolution : Int)
    (Iteration : Nat) (rs : List FPerspectiveRenderer) : Option (List FPerspectiveRenderer) :=
  match Executor.Dispatch TKernelDispatchParameters.Base EKD_VisType with
  | FDispatchResult.Returned calls =>
    calls.foldl (OfflineKernel MaxRaysPerFrame Resolution Iteration) (some rs)
  | FDispatchResult.Fatal => none

/-- What a tick of the offline driver does besides updating its state. -/
inductive FOfflineEvent where
  | WaitUntilTaskCompletes (Iteration : Nat)
  | WorldGone
  | Progress (Iteration MaxIterations : Nat)
  | WriteOutput (bCubeMap : Bool)
  | DispatchTraceTask (Iteration : Nat)
  deriving DecidableEq, Repr

/-- The captured state of the ticker lambda of `RenderOfflineCollision`.  `TraceTask` holds the
iteration of the task dispatched last, if any. -/
structure FOfflineTicker where
  Executor : FKernelExecutor
  Renderers : List FPerspectiveRenderer
  Iteration : Nat
  MaxIterations : Nat
  Settings : FSDOfflineCollisionSettings
  TraceTask : Option Nat

/-- The outcome of one call of the ticker lambda: its return value (`true` keeps the ticker
scheduled), the state afterwards and what was done. -/
structure FOfflineTickResult where
  Continue : Bool
  Ticker : FOfflineTicker
  Events : List FOfflineEvent

/-- The ticker as `RenderOfflineCollision` registers it. -/
def OfflineStart (s : FSDOfflineCollisionSettings) (Origin : FVector)
    (Views : Nat → FOfflineView) : FOfflineTicker :=
  { Executor := ⟨s.Settings.VisType.toRaw, ESamplingPattern.Linear.toRaw⟩
    Renderers := (OfflinePairs s Origin Views).map (fun p => p.1)
    Iteration := 0
    MaxIterations := OfflineMaxIterations s
    Settings := OfflineBudget s
    TraceTask := none }

/-- One call of the ticker lambda; `bWorldValid` is `IsValid(Settings.World)` at that call.
The dispatched task is taken to have run when the call returns (the next call waits for it
before anything else).  The result is `none` when a store of the task fails its range
check. -/
def FOfflineTicker.Tick (t : FOfflineTicker) (bWorldValid : Bool) : Option FOfflineTickResult :=
  let Waited : List FOfflineEvent :=
    match t.TraceTask with
    | some i => [FOfflineEvent.WaitUntilTaskCompletes i]
    | none => []
  if !bWorldValid then
    some ⟨false, t, Waited ++ [FOfflineEvent.WorldGone]⟩
  else if t.Iteration = t.MaxIterations then
    some ⟨false, t, Waited ++ [FOfflineEvent.Progress t.Iteration t.MaxIterations,
      FOfflineEvent.WriteOutput t.Settings.bCubeMap]⟩
  else
    match OfflineTraceTask t.Executor t.Settings.MaxRaysPerFrame t.Settings.Resolution
        t.Iteration t.Renderers with
    | some rs =>
      some ⟨true,
        { t with Renderers := rs
                 Iteration := wrapU64 ((t.Iteration : Int) + 1)
                 TraceTask := some t.Iteration },
        Waited ++ [FOfflineEvent.Progress t.Iteration t.MaxIterations,
          FOfflineEvent.DispatchTraceTask t.Iteration]⟩
    | none => none

/-- The ticker run on a world that stays valid, for at most `fuel` ticks: the outcomes of the
ticks up to and including the first one that returns `false`. -/
def RunOfflineTicker : Nat → FOfflineTicker → Option (List FOfflineTickResult)
  | 0, _ => some []
  | fuel + 1, t =>
    match t.Tick true with
    | none => none
    | some res =>
      if res.Continue then
        match RunOfflineTicker fuel res.Ticker with
        | some rest => some (res :: rest)
        | none => none
      else some [res]

/-! ## The consumer phase of the realtime driver (`SDCollisionVisRenderer.cpp`) -/

/-- The type `FRenderState` of the view extension: the trace task and the queued frame buffer,
both by identity. -/
structure FRenderState where
  TraceTask : Option Nat
  FramebufferRenderThreadQueued : Nat
  deriving DecidableEq, Repr

/-- The steps of `PostRenderViewFamily_RenderThread` that touch the task or the buffer. -/
inductive FRenderThreadEvent where
  | SetFramebufferRenderThread (Buffer : Nat)
  | WaitUntilTaskCompletes (Task : Nat)
  | UploadPixelData (Buffer : Nat)
  | AddFullscreenPass
  deriving DecidableEq, Repr

/-- The method `PostRenderViewFamily_RenderThread`: `RenderStatePtr` is the extension data of
the view family, `bViewFamilyTexture` tells whether `TryCreateViewFamilyTexture` succeeds. -/
def PostRenderViewFamily_RenderThread (RenderStatePtr : Option FRenderState)
    (bViewFamilyTexture : Bool) : List FRenderThreadEvent :=
  match RenderStatePtr with
  | none => []
  | some RenderState =>
    let Waited : List FRenderThreadEvent :=
      match RenderState.TraceTask with
      | some t => [FRenderThreadEvent.WaitUntilTaskCompletes t]
      | none => []
    if !bViewFamilyTexture then
      FRenderThreadEvent.SetFramebufferRenderThread RenderState.FramebufferRenderThreadQueued
        :: Waited
    else
      FRenderThreadEvent.SetFramebufferRenderThread RenderState.FramebufferRenderThreadQueued
        :: Waited
        ++ [FRenderThreadEvent.UploadPixelData RenderState.FramebufferRenderThreadQueued,
            FRenderThreadEvent.AddFullscreenPass]

/-! ## States of the offline driver in closed form -/

/-- The trace tasks of the iterations `0 .. n - 1`, one after the other. -/
def OfflineIterations (Executor : FKernelExecutor) (MaxRaysPerFrame Resolution : Int) :
    Nat → List FPerspectiveRenderer → Option (List FPerspectiveRenderer)
  | 0, rs => some rs
  | n + 1, rs =>
    match OfflineIterations Executor MaxRaysPerFrame Resolution n rs with
    | some rs2 => OfflineTraceTask Executor MaxRaysPerFrame Resolution n rs2
    | none => none

/-- The iteration of the trace task that an event dispatches, if it is a dispatch. -/
def FOfflineEvent.Dispatched : FOfflineEvent → Option Nat
  | FOfflineEvent.DispatchTraceTask i => some i
  | _ => none

/-- A renderer of the offline driver for the resolution `R`: its target is `R x R` and its
pixel data has `R * R` entries. -/
def OfflineReady (R : Nat) (r : FPerspectiveRenderer) : Prop :=
  r.RenderTargetSize = ⟨(R : Int), (R : Int)⟩ ∧ r.PixelData.length = R * R

/-- The renderer `r` after the pixels with the row-major indices below `n` have been rendered:
such a pixel `k` holds the colour computed for the position `(k % R, k / R)`, the others are
as in `r`. -/
def OfflinePainted (VisType : EVisualisationType) (R n : Nat) (r : FPerspectiveRenderer) :
    FPerspectiveRenderer :=
  { r with
    PixelData := r.PixelData.mapIdx (fun k c =>
      if k < n then r.WritebackColour VisType ⟨((k % R : Nat) : Int), ((k / R : Nat) : Int)⟩
      else c) }

/-- The wait at the start of a tick of the offline driver when `k` tasks have been dispatched. -/
def OfflineWaited : Nat → List FOfflineEvent
  | 0 => []
  | k + 1 => [FOfflineEvent.WaitUntilTaskCompletes k]

/-- The ticker `t` of the offline driver after `k` tracing ticks, in closed form: the first
`B * k` pixels are rendered, the iteration counter is `k`, and the task dispatched last is the
one of iteration `k - 1`. -/
def OfflineTickerAfter (VisType : EVisualisationType) (R B : Nat) (t : FOfflineTicker) (k : Nat) :
    FOfflineTicker :=
  { t with
    Renderers := t.Renderers.map (OfflinePainted VisType R (B * k))
    Iteration := k
    TraceTask := match k with
      | 0 => none
      | j + 1 => some j }

/-- The outcome of the tracing tick of iteration `k`, in closed form. -/
def OfflineTracingTick (VisType : EVisualisationType) (R B : Nat) (t : FOfflineTicker) (k : Nat) :
    FOfflineTickResult :=
  ⟨true, OfflineTickerAfter VisType R B t (k + 1),
    OfflineWaited k ++ [FOfflineEvent.Progress k t.MaxIterations,
      FOfflineEvent.DispatchTraceTask k]⟩

/-- The outcome of the tick that finds `Iteration == MaxIterations`, in closed form. -/
def OfflineWritingTick (VisType : EVisualisationType) (R B : Nat) (t : FOfflineTicker) :
    FOfflineTickResult :=
  ⟨false, OfflineTickerAfter VisType R B t t.MaxIterations,
    OfflineWaited t.MaxIterations ++ [FOfflineEvent.Progress t.MaxIterations t.MaxIterations,
      FOfflineEvent.WriteOutput t.Settings.bCubeMap]⟩

/-! ## The producer phase of the realtime driver (`SDCollisionVisRenderer.cpp`) -/

/-- The type `FSDCollisionVisRealtimeViewData`: the frame of the last access (a `uint64`) and
the shared pointers to the frame buffers.  A buffer is a number (the identity of the object
that `MakeShared` created); `FramebufferGameThread` carries the `Dimensions` of its buffer as
well. -/
structure FSDCollisionVisRealtimeViewData where
  LastAccessed : Nat
  FramebufferGameThread : Option (Nat × FIntPoint)
  FramebufferRenderThread : Option Nat
  deriving DecidableEq, Repr

/-- What the game thread has done so far for one view family: its view data, the number of
buffers made, and every trace task dispatched with the buffer that its renderer writes to, in
the order of dispatch.  `BeginRenderViewFamily` waits for none of these tasks and removes
none. -/
structure FGameThreadState where
  RenderData : FSDCollisionVisRealtimeViewData
  BuffersMade : Nat
  TasksDispatched : List (Nat × Nat)
  deriving DecidableEq, Repr

/-- The state before the first frame. -/
def FGameThreadState.Init : FGameThreadState := ⟨⟨0, none, none⟩, 0, []⟩

/-- The method `BeginRenderViewFamily` on its enabled path (a main view family with a world,
the show flag set, view data present), for the render target size that it computed: the frame
buffer is kept when it is valid and has that size and is made anew otherwise, then the trace
task over that buffer is dispatched and recorded in the render state of the frame. -/
def BeginRenderViewFamily (st : FGameThreadState) (RenderTargetSize : FIntPoint) :
    FGameThreadState × FRenderState :=
  let Kept : Option Nat :=
    match st.RenderData.FramebufferGameThread with
    | some (b, d) => if d = RenderTargetSize then some b else none
    | none => none
  let Buffer : Nat :=
    match Kept with
    | some b => b
    | none => st.BuffersMade
  let Task : Nat := st.TasksDispatched.length
  ({ RenderData := { st.RenderData with FramebufferGameThread := some (Buffer, RenderTargetSize) }
     BuffersMade :=
       match Kept with
       | some _ => st.BuffersMade
       | none => st.BuffersMade + 1
     TasksDispatched := st.TasksDispatched ++ [(Task, Buffer)] },
   ⟨some Task, Buffer⟩)

/-! ## The per-view data of the module (`SDCollisionVisModule.cpp`) -/

/-- A default-constructed `FSDCollisionVisRealtimeViewData`. -/
def FSDCollisionVisRealtimeViewData.Init : FSDCollisionVisRealtimeViewData := ⟨0, none, none⟩

/-- The body of the ticker `PruneUnusedViewFamilies` on the map `ViewFamilyData` (a list of
entries with different keys) at the global frame counter `GFrameCounter`: an entry is removed
when `(GFrameCounter - LastAccessed) > KeepAliveFrames` in `uint64`, with
`KeepAliveFrames = 30`.  The ticker returns `true`. -/
def PruneUnusedViewFamilies (GFrameCounter : Nat)
    (ViewFamilyData : List (Nat × FSDCollisionVisRealtimeViewData)) :
    List (Nat × FSDCollisionVisRealtimeViewData) :=
  ViewFamilyData.filter
    (fun e => !decide (30 < wrapU64 ((GFrameCounter : Int) - (e.2.LastAccessed : Int))))

/-- The method `GetRealtimeViewFamilyData`: `ViewKey` is the key of the first view, `none` for
a family without views.  The entry found, or a new one added to the map, gets
`LastAccessed = GFrameCounter`; since the map and the caller share the object, the map holds the
updated entry.  The result is the returned data and the map afterwards. -/
def GetRealtimeViewFamilyData (ViewKey : Option Nat) (GFrameCounter : Nat)
    (ViewFamilyData : List (Nat × FSDCollisionVisRealtimeViewData)) :
    Option FSDCollisionVisRealtimeViewData × List (Nat × FSDCollisionVisRealtimeViewData) :=
  match ViewKey with
  | none => (none, ViewFamilyData)
  | some k =>
    match ViewFamilyData.find? (fun e => e.1 = k) with
    | some Found =>
      (some { Found.2 with LastAccessed := GFrameCounter },
        ViewFamilyData.map (fun e =>
          if e.1 = k then (e.1, { e.2 with LastAccessed := GFrameCounter }) else e))
    | none =>
      (some { FSDCollisionVisRealtimeViewData.Init with LastAccessed := GFrameCounter },
        ViewFamilyData ++
          [(k, { FSDCollisionVisRealtimeViewData.Init with LastAccessed := GFrameCounter })])

/-! ## The heat of the density mode -/

/-- The heat that the density mode passes to `Heatmap` for the `float` value `Area2` of the
doubled area: `FMath::Clamp(1.0 - (Area2 - TriangleDensityMinArea2) * TriangleDensityMul, 0.0,
1.0)`, the difference and the product in `float`, the rest in `double`, stored in a `float`. -/
def DensityHeat (Area2 MinArea2 Mul : ℚ) : ℚ :=
  f32 (Clamp (f64 (1 - f32 (f32 (Area2 - MinArea2) * Mul))) 0 1)

/-! ## The render target and the trace task of the realtime driver -/

/-- The render target size that `BeginRenderViewFamily` computes from the size of the view
rectangle: `Scale = FMath::Max(Settings.Scale, 1.0f / float(FMath::Min(X, Y)))`, then
`(int32)(X * Scale + 0.5f)` and `(int32)(Y * Scale + 0.5f)` in `float`.  The result is `none`
when one of the two conversions to `int32` is out of range. -/
def RealtimeRenderTargetSize (SettingsScale : ℚ) (ViewRectSize : FIntPoint) : Option FIntPoint :=
  let Scale : ℚ := max SettingsScale (f32 (1 / f32 ((min ViewRectSize.X ViewRectSize.Y : Int) : ℚ)))
  match truncToInt32 (f32 (f32 (f32 (ViewRectSize.X : ℚ) * Scale) + 1 / 2)),
      truncToInt32 (f32 (f32 (f32 (ViewRectSize.Y : ℚ) * Scale) + 1 / 2)) with
  | some X, some Y => some ⟨X, Y⟩
  | _, _ => none

/-- The inner loop of the kernel for one row of tiles:
`for (int32 TileX = 0; TileX < RenderTargetSize.X; TileX += Settings.TileSize)`, the sum being
a `uint32` one; `fuel` bounds the number of rounds. -/
def TileRow (r : FPerspectiveRenderer) (SamplingPattern : ESamplingPattern)
    (VisType : EVisualisationType) (TileY : Int) :
    Nat → Int → List FColor → Option (List FColor)
  | 0, _, PixelData => some PixelData
  | fuel + 1, TileX, PixelData =>
    if TileX < r.RenderTargetSize.X then
      match FPerspectiveRenderer.RenderPerspectiveTilePixel { r with PixelData := PixelData }
          SamplingPattern VisType ⟨TileX, TileY⟩ with
      | some d =>
        TileRow r SamplingPattern VisType TileY fuel
          (castInt32 ((wrapU32 (TileX + (r.Settings.TileSize : Int)) : Nat) : Int)) d
      | none => none
    else some PixelData

/-- The kernel of the realtime trace task: `ParallelFor(NumTileY, ...)` over the rows of tiles,
taken in the order of `TileIdY`, with `TileY = Settings.TileSize * TileIdY` as a `uint32`
product. -/
def TileRows (r : FPerspectiveRenderer) (SamplingPattern : ESamplingPattern)
    (VisType : EVisualisationType) : Nat → List FColor → Option (List FColor)
  | 0, PixelData => some PixelData
  | n + 1, PixelData =>
    match TileRows r SamplingPattern VisType n PixelData with
    | some d =>
      TileRow r SamplingPattern VisType
        (castInt32 ((wrapU32 ((r.Settings.TileSize * n : Nat) : Int) : Nat) : Int))
        r.RenderTargetSize.X.toNat 0 d
    | none => none

/-- The trace task `TraceFunc` of `BeginRenderViewFamily`:
`NumTileY = (RenderTargetSize.Y + Settings.TileSize - 1) / Settings.TileSize` in `uint32`, and
the kernel dispatched on the mode and the pattern of the settings.  The result is the pixel
data afterwards, `none` when a store fails its range check. -/
def RealtimeTraceTask (r : FPerspectiveRenderer) : Option (List FColor) :=
  let NumTileY : Int :=
    castInt32 ((wrapU32 (r.RenderTargetSize.Y + (r.Settings.TileSize : Int) - 1)
      / r.Settings.TileSize : Nat) : Int)
  match FKernelExecutor.Dispatch ⟨r.Settings.VisType.toRaw, r.Settings.SamplingPattern.toRaw⟩
      TKernelDispatchParameters.Base (EKD_VisType ||| EKD_SamplingPattern) with
  | FDispatchResult.Returned calls =>
    calls.foldl
      (fun (d : Option (List FColor)) (p : TKernelDispatchParameters) =>
        match d with
        | some PixelData => TileRows r p.SamplingPattern p.VisType NumTileY.toNat PixelData
        | none => none)
      (some r.PixelData)
  | FDispatchResult.Fatal => none

/-- The frames `g0, g0 + 1, ..., g0 + n - 1` of the realtime driver on one frame buffer that is
kept: in every frame the settings are constructed from the console variables at the frame
counter and the trace task runs over the pixel data that the frame before left. -/
def RealtimeFrames (cv : FConsoleVariables) (r : FPerspectiveRenderer) (g0 : Nat) :
    Nat → Option (List FColor)
  | 0 => some r.PixelData
  | n + 1 =>
    match RealtimeFrames cv r g0 n with
    | some d =>
      RealtimeTraceTask
        { r with Settings := FSDCollisionSettings.Construct cv (g0 + n), PixelData := d }
    | none => none

/-! ## States of the realtime frame buffer in closed form -/

/-- The raster offset of the pixel with the row-major index `k` inside its tile, for a target
`W` pixels wide and the tile size `T`. -/
def TileOffset (W T k : Nat) : Nat := k / W % T * T + k % W % T

/-- The pixel data of `r` after the pixels selected by `P` have been rendered: such a pixel `k`
holds the colour computed for the position `(k % W, k / W)`, the others are as in `r`. -/
def PaintedBy (VisType : EVisualisationType) (W : Nat) (P : Nat → Bool)
    (r : FPerspectiveRenderer) : List FColor :=
  r.PixelData.mapIdx (fun k c =>
    if P k then r.WritebackColour VisType ⟨((k % W : Nat) : Int), ((k / W : Nat) : Int)⟩
    else c)

/-! ## Machine integer lemmas -/

theorem castInt32_of_small (n : Int) (h0 : 0 ≤ n) (h1 : n < 2147483648) : castInt32 n = n := by
  unfold castInt32
  omega

theorem wrapU32_of_lt (n : Nat) (h : n < 4294967296) : wrapU32 (n : Int) = n := by
  unfold wrapU32
  omega

/-! ## Bit length and binary exponent -/

theorem bitLenAux_zero (fuel : Nat) : bitLenAux fuel 0 = 0 := by
  cases fuel <;> simp [bitLenAux]

theorem bitLenAux_spec (fuel : Nat) :
    ∀ n : Nat, n ≤ fuel → n ≠ 0 →
      2 ^ (bitLenAux fuel n - 1) ≤ n ∧ n < 2 ^ bitLenAux fuel n := by
  induction fuel with
  | zero => intro n h hn; omega
  | succ fuel ih =>
    intro n h hn
    simp only [bitLenAux, if_neg hn]
    by_cases h2 : n / 2 = 0
    · rw [h2, bitLenAux_zero]
      have : n = 1 := by omega
      subst this
      norm_num
    · obtain ⟨ih1, ih2⟩ := ih (n / 2) (by omega) h2
      have hpos : 1 ≤ bitLenAux fuel (n / 2) := by
        by_contra hc
        have h0 : bitLenAux fuel (n / 2) = 0 := by omega
        rw [h0] at ih2
        omega
      have e : bitLenAux fuel (n / 2) + 1 - 1 = (bitLenAux fuel (n / 2) - 1) + 1 := by omega
      rw [e, pow_succ, pow_succ]
      constructor <;> omega

theorem bitLen_spec (n : Nat) (hn : n ≠ 0) : 2 ^ (bitLen n - 1) ≤ n ∧ n < 2 ^ bitLen n :=
  bitLenAux_spec n n le_rfl hn

theorem bitLen_pos (n : Nat) (hn : n ≠ 0) : 1 ≤ bitLen n := by
  by_contra hc
  have h0 : bitLen n = 0 := by omega
  have := (bitLen_spec n hn).2
  rw [h0] at this
  omega

theorem two_zpow_pos (k : Int) : (0 : ℚ) < (2 : ℚ) ^ k := zpow_pos (by norm_num) k

/-- The binary exponent brackets the magnitude. -/
theorem binExp_spec (q : ℚ) (hq : q ≠ 0) :
    (2 : ℚ) ^ binExp q ≤ |q| ∧ |q| < (2 : ℚ) ^ (binExp q + 1) := by
  have hn : q.num.natAbs ≠ 0 := by
    simpa [Int.natAbs_eq_zero] using hq
  have hd : q.den ≠ 0 := q.den_nz
  obtain ⟨n1, n2⟩ := bitLen_spec _ hn
  obtain ⟨d1, d2⟩ := bitLen_spec _ hd
  have hnp := bitLen_pos _ hn
  have hdp := bitLen_pos _ hd
  have habs : |q| = (q.num.natAbs : ℚ) / (q.den : ℚ) := by
    conv_lhs => rw [← Rat.num_div_den q]
    rw [abs_div, Nat.abs_cast]
    congr 1
    rw [Nat.cast_natAbs, Int.cast_abs]
  have hdpos : (0 : ℚ) < (q.den : ℚ) := by exact_mod_cast q.den_pos
  set a := bitLen q.num.natAbs with ha
  set b := bitLen q.den with hb
  have n1q : (2 : ℚ) ^ ((a : Int) - 1) ≤ (q.num.natAbs : ℚ) := by
    have : ((2 : ℚ) ^ (a - 1) : ℚ) ≤ (q.num.natAbs : ℚ) := by exact_mod_cast n1
    have e : ((a : Int) - 1) = ((a - 1 : Nat) : Int) := by omega
    rw [e, zpow_natCast]
    exact this
  have n2q : (q.num.natAbs : ℚ) < (2 : ℚ) ^ (a : Int) := by
    rw [zpow_natCast]
    exact_mod_cast n2
  have d1q : (2 : ℚ) ^ ((b : Int) - 1) ≤ (q.den : ℚ) := by
    have : ((2 : ℚ) ^ (b - 1) : ℚ) ≤ (q.den : ℚ) := by exact_mod_cast d1
    have e : ((b : Int) - 1) = ((b - 1 : Nat) : Int) := by omega
    rw [e, zpow_natCast]
    exact this
  have d2q : (q.den : ℚ) < (2 : ℚ) ^ (b : Int) := by
    rw [zpow_natCast]
    exact_mod_cast d2
  -- the magnitude lies strictly between 2 ^ (k - 1) and 2 ^ (k + 1)
  have lo : (2 : ℚ) ^ ((a : Int) - (b : Int) - 1) < |q| := by
    rw [habs, lt_div_iff₀ hdpos]
    calc (2 : ℚ) ^ ((a : Int) - (b : Int) - 1) * (q.den : ℚ)
        < (2 : ℚ) ^ ((a : Int) - (b : Int) - 1) * (2 : ℚ) ^ (b : Int) :=
          mul_lt_mul_of_pos_left d2q (two_zpow_pos _)
      _ = (2 : ℚ) ^ ((a : Int) - 1) := by
          rw [← zpow_add₀ (by norm_num : (2 : ℚ) ≠ 0)]
          congr 1
          ring
      _ ≤ _ := n1q
  have hi : |q| < (2 : ℚ) ^ ((a : Int) - (b : Int) + 1) := by
    rw [habs, div_lt_iff₀ hdpos]
    calc (q.num.natAbs : ℚ) < (2 : ℚ) ^ (a : Int) := n2q
      _ = (2 : ℚ) ^ ((a : Int) - (b : Int) + 1) * (2 : ℚ) ^ ((b : Int) - 1) := by
          rw [← zpow_add₀ (by norm_num : (2 : ℚ) ≠ 0)]
          congr 1
          ring
      _ ≤ _ := mul_le_mul_of_nonneg_left d1q (two_zpow_pos _).le
  unfold binExp
  simp only []
  rw [← ha, ← hb]
  split_ifs with h
  · exact ⟨h, hi⟩
  · refine ⟨lo.le, ?_⟩
    have e : (a : Int) - (b : Int) - 1 + 1 = (a : Int) - (b : Int) := by ring
    rw [e]
    exact lt_of_not_le h

/-- The binary exponent is determined by the bracket. -/
theorem binExp_unique (q : ℚ) (e : Int) (h1 : (2 : ℚ) ^ e ≤ |q|) (h2 : |q| < (2 : ℚ) ^ (e + 1)) :
    binExp q = e := by
  have hq : q ≠ 0 := by
    intro h
    rw [h, abs_zero] at h1
    exact absurd h1 (not_le.mpr (two_zpow_pos e))
  obtain ⟨s1, s2⟩ := binExp_spec q hq
  have a1 : (2 : ℚ) ^ e < (2 : ℚ) ^ (binExp q + 1) := lt_of_le_of_lt h1 s2
  have a2 : (2 : ℚ) ^ binExp q < (2 : ℚ) ^ (e + 1) := lt_of_le_of_lt s1 h2
  have b1 := (zpow_lt_zpow_iff_right₀ (by norm_num : (1 : ℚ) < 2)).mp a1
  have b2 := (zpow_lt_zpow_iff_right₀ (by norm_num : (1 : ℚ) < 2)).mp a2
  omega

/-- The binary exponent is monotone in the magnitude. -/
theorem binExp_mono (q r : ℚ) (hq : q ≠ 0) (h : |q| ≤ |r|) : binExp q ≤ binExp r := by
  have hr : r ≠ 0 := by
    intro h0
    rw [h0, abs_zero] at h
    exact hq (abs_eq_zero.mp (le_antisymm h (abs_nonneg q)))
  have a1 : (2 : ℚ) ^ binExp q < (2 : ℚ) ^ (binExp r + 1) :=
    lt_of_le_of_lt ((binExp_spec q hq).1) (lt_of_le_of_lt h (binExp_spec r hr).2)
  have b1 := (zpow_lt_zpow_iff_right₀ (by norm_num : (1 : ℚ) < 2)).mp a1
  omega

/-! ## Rounding to the nearest integer -/

theorem roundHalfEven_cases (m : ℚ) : roundHalfEven m = ⌊m⌋ ∨ roundHalfEven m = ⌊m⌋ + 1 := by
  unfold roundHalfEven
  simp only []
  split_ifs <;> simp

theorem roundHalfEven_intCast (n : Int) : roundHalfEven (n : ℚ) = n := by
  unfold roundHalfEven
  simp

/-- An integer lower bound of the argument is a lower bound of the rounded value. -/
theorem le_roundHalfEven (a : Int) (m : ℚ) (h : (a : ℚ) ≤ m) : a ≤ roundHalfEven m := by
  have hf : a ≤ ⌊m⌋ := Int.le_floor.mpr h
  rcases roundHalfEven_cases m with e | e <;> rw [e] <;> omega

/-- An integer upper bound of the argument is an upper bound of the rounded value. -/
theorem roundHalfEven_le (b : Int) (m : ℚ) (h : m ≤ (b : ℚ)) : roundHalfEven m ≤ b := by
  by_cases hm : m = (b : ℚ)
  · rw [hm, roundHalfEven_intCast]
  · have hlt : m < (b : ℚ) := lt_of_le_of_ne h hm
    have hf : ⌊m⌋ < b := Int.floor_lt.mpr hlt
    rcases roundHalfEven_cases m with e | e <;> rw [e] <;> omega

theorem roundHalfEven_mono (m n : ℚ) (h : m ≤ n) : roundHalfEven m ≤ roundHalfEven n := by
  have hf : ⌊m⌋ ≤ ⌊n⌋ := Int.floor_le_floor h
  rcases lt_or_eq_of_le hf with hlt | heq
  · have h1 : roundHalfEven m ≤ ⌊m⌋ + 1 := by
      rcases roundHalfEven_cases m with e | e <;> omega
    have h2 : ⌊n⌋ ≤ roundHalfEven n := by
      rcases roundHalfEven_cases n with e | e <;> omega
    omega
  · have hr : m - (⌊m⌋ : ℚ) ≤ n - (⌊n⌋ : ℚ) := by
      rw [heq]
      linarith
    unfold roundHalfEven
    simp only []
    rw [← heq]
    rw [← heq] at hr
    split_ifs with c1 c2 c3 c4 c5 c6 c7 c8 c9 <;> first | omega | (exfalso; linarith)

/-- The rounded value is within one half of the argument. -/
theorem roundHalfEven_error (m : ℚ) : |(roundHalfEven m : ℚ) - m| ≤ 1 / 2 := by
  have h1 : (⌊m⌋ : ℚ) ≤ m := Int.floor_le m
  have h2 : m < (⌊m⌋ : ℚ) + 1 := Int.lt_floor_add_one m
  unfold roundHalfEven
  simp only []
  rw [abs_le]
  split_ifs with c1 c2 c3
  · constructor <;> linarith
  · push_cast
    constructor <;> linarith
  · constructor <;> linarith
  · push_cast
    constructor <;> linarith

theorem roundHalfEven_neg (m : ℚ) : roundHalfEven (-m) = -roundHalfEven m := by
  by_cases hint : (⌊m⌋ : ℚ) = m
  · rw [← hint, ← Int.cast_neg, roundHalfEven_intCast, roundHalfEven_intCast]
  · have h1 : (⌊m⌋ : ℚ) < m := lt_of_le_of_ne (Int.floor_le m) hint
    have h2 : m < (⌊m⌋ : ℚ) + 1 := Int.lt_floor_add_one m
    have hfl : ⌊-m⌋ = -⌊m⌋ - 1 := by
      rw [Int.floor_eq_iff]
      push_cast
      constructor <;> linarith
    unfold roundHalfEven
    simp only []
    rw [hfl]
    push_cast
    split_ifs <;> first | omega | (exfalso; linarith)

/-! ## Rounding into a binary format -/

theorem roundBinary_zero (p : Nat) (emin : Int) : roundBinary p emin 0 = 0 := by
  simp [roundBinary]

theorem roundBinary_eq (p : Nat) (emin : Int) (q : ℚ) (hq : q ≠ 0) :
    roundBinary p emin q
      = (roundHalfEven (q / (2 : ℚ) ^ (max (binExp q) emin - ((p : Int) - 1))) : ℚ)
          * (2 : ℚ) ^ (max (binExp q) emin - ((p : Int) - 1)) := by
  simp [roundBinary, hq]

theorem binExp_neg (q : ℚ) : binExp (-q) = binExp q := by
  simp [binExp]

theorem roundBinary_neg (p : Nat) (emin : Int) (q : ℚ) :
    roundBinary p emin (-q) = -roundBinary p emin q := by
  by_cases hq : q = 0
  · simp [hq, roundBinary_zero]
  · rw [roundBinary_eq p emin (-q) (neg_ne_zero.mpr hq), roundBinary_eq p emin q hq, binExp_neg,
      neg_div, roundHalfEven_neg]
    push_cast
    ring

theorem roundBinary_nonneg (p : Nat) (emin : Int) (q : ℚ) (h : 0 ≤ q) :
    0 ≤ roundBinary p emin q := by
  by_cases hq : q = 0
  · simp [hq, roundBinary_zero]
  · rw [roundBinary_eq p emin q hq]
    apply mul_nonneg _ (two_zpow_pos _).le
    have : (0 : Int) ≤ roundHalfEven (q / (2 : ℚ) ^ (max (binExp q) emin - ((p : Int) - 1))) :=
      le_roundHalfEven 0 _ (by
        push_cast
        exact div_nonneg h (two_zpow_pos _).le)
    exact_mod_cast this

/-- A positive value rounds to at most the next power of two above it. -/
theorem roundBinary_le_pow (p : Nat) (emin : Int) (q : ℚ) (hq : 0 < q) :
    roundBinary p emin q ≤ (2 : ℚ) ^ (max (binExp q) emin + 1) := by
  rw [roundBinary_eq p emin q hq.ne']
  set e := max (binExp q) emin with he
  have hlt : q < (2 : ℚ) ^ (e + 1) := by
    have h2 := (binExp_spec q hq.ne').2
    rw [abs_of_pos hq] at h2
    exact lt_of_lt_of_le h2 (zpow_le_zpow_right₀ (by norm_num) (by omega))
  have hdiv : q / (2 : ℚ) ^ (e - ((p : Int) - 1)) ≤ (((2 : Int) ^ p : Int) : ℚ) := by
    rw [div_le_iff₀ (two_zpow_pos _)]
    push_cast
    rw [← zpow_natCast, ← zpow_add₀ (by norm_num : (2 : ℚ) ≠ 0)]
    have e1 : (p : Int) + (e - ((p : Int) - 1)) = e + 1 := by ring
    rw [e1]
    exact hlt.le
  have hr := roundHalfEven_le _ _ hdiv
  have hr2 : (roundHalfEven (q / (2 : ℚ) ^ (e - ((p : Int) - 1))) : ℚ) ≤ (2 : ℚ) ^ (p : Int) := by
    have : (roundHalfEven (q / (2 : ℚ) ^ (e - ((p : Int) - 1))) : ℚ) ≤ (((2 : Int) ^ p : Int) : ℚ) := by
      exact_mod_cast hr
    rw [zpow_natCast]
    simpa using this
  calc (roundHalfEven (q / (2 : ℚ) ^ (e - ((p : Int) - 1))) : ℚ) * (2 : ℚ) ^ (e - ((p : Int) - 1))
      ≤ (2 : ℚ) ^ (p : Int) * (2 : ℚ) ^ (e - ((p : Int) - 1)) :=
        mul_le_mul_of_nonneg_right hr2 (two_zpow_pos _).le
    _ = (2 : ℚ) ^ (e + 1) := by
        rw [← zpow_add₀ (by norm_num : (2 : ℚ) ≠ 0)]
        congr 1
        ring

/-- A positive value in the normal range rounds to at least the power of two below it. -/
theorem pow_le_roundBinary (p : Nat) (emin : Int) (q : ℚ) (hp : 1 ≤ p) (hq : 0 < q)
    (hn : emin ≤ binExp q) : (2 : ℚ) ^ binExp q ≤ roundBinary p emin q := by
  rw [roundBinary_eq p emin q hq.ne', max_eq_left hn]
  have hge : (2 : ℚ) ^ binExp q ≤ q := by
    have h1 := (binExp_spec q hq.ne').1
    rwa [abs_of_pos hq] at h1
  have hdiv : (((2 : Int) ^ (p - 1) : Int) : ℚ) ≤ q / (2 : ℚ) ^ (binExp q - ((p : Int) - 1)) := by
    rw [le_div_iff₀ (two_zpow_pos _)]
    push_cast
    rw [← zpow_natCast, ← zpow_add₀ (by norm_num : (2 : ℚ) ≠ 0)]
    have e1 : ((p - 1 : Nat) : Int) + (binExp q - ((p : Int) - 1)) = binExp q := by omega
    rw [e1]
    exact hge
  have hr := le_roundHalfEven _ _ hdiv
  have hr2 : (2 : ℚ) ^ ((p : Int) - 1)
      ≤ (roundHalfEven (q / (2 : ℚ) ^ (binExp q - ((p : Int) - 1))) : ℚ) := by
    have : (((2 : Int) ^ (p - 1) : Int) : ℚ)
        ≤ (roundHalfEven (q / (2 : ℚ) ^ (binExp q - ((p : Int) - 1))) : ℚ) := by
      exact_mod_cast hr
    have e2 : ((p : Int) - 1) = ((p - 1 : Nat) : Int) := by omega
    have e3 : (2 : ℚ) ^ ((p : Int) - 1) = (2 : ℚ) ^ (p - 1) := by rw [e2, zpow_natCast]
    rw [e3]
    simpa using this
  calc (2 : ℚ) ^ binExp q
      = (2 : ℚ) ^ ((p : Int) - 1) * (2 : ℚ) ^ (binExp q - ((p : Int) - 1)) := by
        rw [← zpow_add₀ (by norm_num : (2 : ℚ) ≠ 0)]
        congr 1
        ring
    _ ≤ _ := mul_le_mul_of_nonneg_right hr2 (two_zpow_pos _).le

theorem roundBinary_mono_nonneg (p : Nat) (emin : Int) (hp : 1 ≤ p) (q r : ℚ) (h0 : 0 ≤ q)
    (h : q ≤ r) : roundBinary p emin q ≤ roundBinary p emin r := by
  rcases eq_or_lt_of_le h0 with hq0 | hqpos
  · rw [← hq0, roundBinary_zero]
    exact roundBinary_nonneg p emin r (le_trans h0 h)
  · have hrpos : 0 < r := lt_of_lt_of_le hqpos h
    have hexp : binExp q ≤ binExp r :=
      binExp_mono q r hqpos.ne' (by rw [abs_of_pos hqpos, abs_of_pos hrpos]; exact h)
    rcases lt_or_eq_of_le (max_le_max hexp (le_refl emin)) with hlt | heq
    · have hr : emin ≤ binExp r := by
        by_contra hc
        rw [max_eq_right (le_of_lt (not_le.mp hc))] at hlt
        have := le_max_right (binExp q) emin
        omega
      have hre : max (binExp r) emin = binExp r := max_eq_left hr
      calc roundBinary p emin q ≤ (2 : ℚ) ^ (max (binExp q) emin + 1) :=
            roundBinary_le_pow p emin q hqpos
        _ ≤ (2 : ℚ) ^ binExp r := zpow_le_zpow_right₀ (by norm_num) (by omega)
        _ ≤ roundBinary p emin r := pow_le_roundBinary p emin r hp hrpos hr
    · rw [roundBinary_eq p emin q hqpos.ne', roundBinary_eq p emin r hrpos.ne', heq]
      apply mul_le_mul_of_nonneg_right _ (two_zpow_pos _).le
      have := roundHalfEven_mono _ _ (div_le_div_of_nonneg_right h
        (two_zpow_pos (max (binExp r) emin - ((p : Int) - 1))).le)
      exact_mod_cast this

theorem roundBinary_mono (p : Nat) (emin : Int) (hp : 1 ≤ p) (q r : ℚ) (h : q ≤ r) :
    roundBinary p emin q ≤ roundBinary p emin r := by
  rcases le_or_lt 0 q with h0 | h0
  · exact roundBinary_mono_nonneg p emin hp q r h0 h
  · rcases le_or_lt r 0 with h1 | h1
    · have := roundBinary_mono_nonneg p emin hp (-r) (-q) (by linarith) (by linarith)
      rw [roundBinary_neg, roundBinary_neg] at this
      linarith
    · have a := roundBinary_nonneg p emin (-q) (by linarith)
      rw [roundBinary_neg] at a
      have b := roundBinary_nonneg p emin r h1.le
      linarith

/-- The rounding error is at most half a unit in the last place. -/
theorem roundBinary_error (p : Nat) (emin : Int) (q : ℚ) (k : Int) (hk : emin ≤ k)
    (hq : |q| < (2 : ℚ) ^ (k + 1)) : |roundBinary p emin q - q| ≤ (2 : ℚ) ^ (k - (p : Int)) := by
  by_cases hq0 : q = 0
  · rw [hq0, roundBinary_zero]
    simpa using (two_zpow_pos _).le
  · rw [roundBinary_eq p emin q hq0]
    set e := max (binExp q) emin with he
    have hek : e ≤ k := by
      have a1 : (2 : ℚ) ^ binExp q < (2 : ℚ) ^ (k + 1) :=
        lt_of_le_of_lt (binExp_spec q hq0).1 hq
      have b1 := (zpow_lt_zpow_iff_right₀ (by norm_num : (1 : ℚ) < 2)).mp a1
      exact max_le (by omega) hk
    have hu : (0 : ℚ) < (2 : ℚ) ^ (e - ((p : Int) - 1)) := two_zpow_pos _
    have herr := roundHalfEven_error (q / (2 : ℚ) ^ (e - ((p : Int) - 1)))
    have key : (roundHalfEven (q / (2 : ℚ) ^ (e - ((p : Int) - 1))) : ℚ)
          * (2 : ℚ) ^ (e - ((p : Int) - 1)) - q
        = ((roundHalfEven (q / (2 : ℚ) ^ (e - ((p : Int) - 1))) : ℚ)
            - q / (2 : ℚ) ^ (e - ((p : Int) - 1))) * (2 : ℚ) ^ (e - ((p : Int) - 1)) := by
      field_simp
    rw [key, abs_mul, abs_of_pos hu]
    calc _ ≤ 1 / 2 * (2 : ℚ) ^ (e - ((p : Int) - 1)) :=
          mul_le_mul_of_nonneg_right herr hu.le
      _ = (2 : ℚ) ^ (e - (p : Int)) := by
          have e1 : e - ((p : Int) - 1) = (e - (p : Int)) + 1 := by ring
          rw [e1, zpow_add_one₀ (by norm_num : (2 : ℚ) ≠ 0)]
          ring
      _ ≤ (2 : ℚ) ^ (k - (p : Int)) := zpow_le_zpow_right₀ (by norm_num) (by omega)

/-- Rounded values lie on the grid of every exponent below their own. -/
theorem roundBinary_grid (p : Nat) (emin : Int) (q : ℚ) (hq : q ≠ 0) (j : Int)
    (hj : j ≤ max (binExp q) emin) :
    ∃ K : Int, roundBinary p emin q = (K : ℚ) * (2 : ℚ) ^ (j - ((p : Int) - 1)) := by
  rw [roundBinary_eq p emin q hq]
  set e := max (binExp q) emin with he
  obtain ⟨d, hd⟩ : ∃ d : Nat, e - j = (d : Int) := ⟨(e - j).toNat, by omega⟩
  refine ⟨roundHalfEven (q / (2 : ℚ) ^ (e - ((p : Int) - 1))) * 2 ^ d, ?_⟩
  have e1 : e - ((p : Int) - 1) = (d : Int) + (j - ((p : Int) - 1)) := by omega
  rw [e1, zpow_add₀ (by norm_num : (2 : ℚ) ≠ 0), zpow_natCast]
  push_cast
  ring

/-! ## Integer and floating point square roots -/

theorem isqrtFrom_spec (n : Nat) :
    ∀ i r : Nat, r * r ≤ n → n < (r + 2 ^ i) * (r + 2 ^ i) →
      isqrtFrom n i r * isqrtFrom n i r ≤ n
      ∧ n < (isqrtFrom n i r + 1) * (isqrtFrom n i r + 1) := by
  intro i
  induction i with
  | zero =>
    intro r h1 h2
    simpa [isqrtFrom] using ⟨h1, h2⟩
  | succ i ih =>
    intro r h1 h2
    simp only [isqrtFrom]
    split_ifs with hc
    · apply ih _ hc
      have e : r + 2 ^ i + 2 ^ i = r + 2 ^ (i + 1) := by rw [pow_succ]; ring
      rw [e]
      exact h2
    · exact ih _ h1 (not_le.mp hc)

theorem isqrt_spec (n : Nat) : isqrt n * isqrt n ≤ n ∧ n < (isqrt n + 1) * (isqrt n + 1) := by
  unfold isqrt
  apply isqrtFrom_spec n _ 0 (by simp)
  rw [Nat.zero_add, ← pow_add]
  rcases Nat.eq_zero_or_pos n with h0 | hpos
  · rw [h0]
    exact Nat.pos_of_ne_zero (by positivity)
  · calc n < 2 ^ bitLen n := (bitLen_spec n (by omega)).2
      _ ≤ 2 ^ (bitLen n / 2 + 1 + (bitLen n / 2 + 1)) :=
        Nat.pow_le_pow_right (by norm_num) (by omega)

/-- A representable value whose square is at most `z`, with at most `p + 2` fractional bits, is
a lower bound of the rounded square root of `z`. -/
theorem le_sqrtBinary (p : Nat) (emin : Int) (hp : 1 ≤ p) (c z : ℚ) (C j : Nat)
    (hc : c = (C : ℚ) / (2 : ℚ) ^ j) (hj : j ≤ p + 2) (hfix : roundBinary p emin c = c)
    (hc0 : 0 < c) (hz : c * c ≤ z) : c ≤ sqrtBinary p emin z := by
  have hzpos : 0 < z := lt_of_lt_of_le (mul_pos hc0 hc0) hz
  unfold sqrtBinary
  rw [if_neg (not_le.mpr hzpos)]
  simp only []
  set s := p + 2 + bitLen z.den with hs
  set n := z.num.natAbs * 4 ^ s / z.den with hn
  have hdpos : 0 < z.den := z.den_pos
  have hdq : (0 : ℚ) < (z.den : ℚ) := by exact_mod_cast hdpos
  -- the scaled numerator of `c`
  obtain ⟨d, hd⟩ : ∃ d : Nat, s = j + d := ⟨s - j, by omega⟩
  have hcs : c = ((C * 2 ^ d : Nat) : ℚ) / (2 : ℚ) ^ s := by
    rw [hc, hd, pow_add]
    push_cast
    field_simp
    ring
  have hznum : z = (z.num.natAbs : ℚ) / (z.den : ℚ) := by
    conv_lhs => rw [← Rat.num_div_den z]
    congr 1
    have : 0 ≤ z.num := Rat.num_nonneg.mpr hzpos.le
    rw [Nat.cast_natAbs, Int.cast_abs, abs_of_nonneg (by exact_mod_cast this)]
  have hsq : (C * 2 ^ d) * (C * 2 ^ d) ≤ n := by
    rw [hn, Nat.le_div_iff_mul_le hdpos]
    have h1 : (((C * 2 ^ d : Nat) : ℚ) / (2 : ℚ) ^ s) * (((C * 2 ^ d : Nat) : ℚ) / (2 : ℚ) ^ s)
        ≤ (z.num.natAbs : ℚ) / (z.den : ℚ) := by
      rw [← hcs, ← hznum]
      exact hz
    have h4 : ((4 : ℚ) ^ s) = (2 : ℚ) ^ s * (2 : ℚ) ^ s := by
      rw [← mul_pow]
      norm_num
    have h2 : (((C * 2 ^ d) * (C * 2 ^ d) * z.den : Nat) : ℚ)
        ≤ ((z.num.natAbs * 4 ^ s : Nat) : ℚ) := by
      push_cast
      rw [h4]
      have hpow : (0 : ℚ) < (2 : ℚ) ^ s := by positivity
      rw [div_mul_div_comm, div_le_div_iff₀ (by positivity) hdq] at h1
      push_cast at h1
      linarith
    exact_mod_cast h2
  obtain ⟨m1, m2⟩ := isqrt_spec n
  have hCm : C * 2 ^ d ≤ isqrt n := by
    by_contra hcon
    have hlt : isqrt n + 1 ≤ C * 2 ^ d := by omega
    have := Nat.mul_le_mul hlt hlt
    omega
  have hsur : c ≤ ((isqrt n : ℚ)
      + (if (isqrt n * isqrt n * z.den == z.num.natAbs * 4 ^ s) = true then 0 else 1 / 2))
        / (2 : ℚ) ^ s := by
    rw [hcs]
    apply div_le_div_of_nonneg_right _ (by positivity)
    have h1 : ((C * 2 ^ d : Nat) : ℚ) ≤ (isqrt n : ℚ) := by exact_mod_cast hCm
    split_ifs <;> linarith
  calc c = roundBinary p emin c := hfix.symm
    _ ≤ _ := roundBinary_mono p emin hp _ _ hsur

/-! ## The perspective renderer -/

/-- A position beyond the right or bottom edge is skipped: the pixel data is returned as it
was. -/
theorem RenderPerspectivePixel_overhang (r : FPerspectiveRenderer) (VisType : EVisualisationType)
    (PixelPos : FIntPoint)
    (h : r.RenderTargetSize.X ≤ PixelPos.X ∨ r.RenderTargetSize.Y ≤ PixelPos.Y) :
    r.RenderPerspectivePixel VisType PixelPos = some r.PixelData := by
  unfold FPerspectiveRenderer.RenderPerspectivePixel
  rw [if_neg]
  omega

/-- C1 (counterexample): on the 4 x 4 buffer the position (-1, 1) lies outside the buffer,
passes the guard, and the pixel with index 3, that is pixel (3, 0), is overwritten; the
position (-1, 0) passes the guard as well and its store fails the range check. -/
theorem RenderPerspectivePixel_negative_x_writes :
    SmallRenderer.RenderPerspectivePixel EVisualisationType.Default ⟨-1, 1⟩
        = some (SmallRenderer.PixelData.set 3 FColor.Black)
      ∧ SmallRenderer.PixelData.set 3 FColor.Black ≠ SmallRenderer.PixelData
      ∧ SmallRenderer.RenderPerspectivePixel EVisualisationType.Default ⟨-1, 0⟩ = none := by
  decide!

/-- C2: for a position inside the buffer the call succeeds, the colour of the visualisation
policy is stored at the row-major index `Y * Width + X`, every other pixel is unchanged and the
length of the pixel data is unchanged.  The colour stored is the result of
`CalculateVisualisationColour<VisType>` on the line trace along the ray through the centre of
the pixel, with the timer of the two timing modes and the density bounds of the settings. -/
theorem RenderPerspectivePixel_in_bounds (r : FPerspectiveRenderer)
    (VisType : EVisualisationType) (PixelPos : FIntPoint)
    (hInv : r.RenderTargetSize.X * r.RenderTargetSize.Y = (r.PixelData.length : Int))
    (hx0 : 0 ≤ PixelPos.X) (hx1 : PixelPos.X < r.RenderTargetSize.X)
    (hy0 : 0 ≤ PixelPos.Y) (hy1 : PixelPos.Y < r.RenderTargetSize.Y) :
    ∃ out : List FColor,
      r.RenderPerspectivePixel VisType PixelPos = some out
      ∧ out.length = r.PixelData.length
      ∧ (PixelPos.Y * r.RenderTargetSize.X + PixelPos.X).toNat < out.length
      ∧ out[(PixelPos.Y * r.RenderTargetSize.X + PixelPos.X).toNat]?
          = some (r.WritebackColour VisType PixelPos)
      ∧ out[(PixelPos.Y * r.RenderTargetSize.X + PixelPos.X).toNat]?
          = some (CalculateVisualisationColour VisType
              (r.World.LineTrace (r.World.TraceNormal (r.PixelNDC PixelPos))).1
              (r.World.LineTrace (r.World.TraceNormal (r.PixelNDC PixelPos))).2
              (r.World.TraceNormal (r.PixelNDC PixelPos)) r.RevViewForward
              (if VisType = EVisualisationType.RayTime
                  ∨ VisType = EVisualisationType.RayTimeEvenMiss then
                FTimer.End
                  { FTimer.Zero with MinTime := r.Settings.RaytraceTimeMinTime
                                     MaxTime := r.Settings.RaytraceTimeMaxTime }
                  (f32 (r.World.ElapsedMs (r.World.TraceNormal (r.PixelNDC PixelPos))))
              else FTimer.Zero)
              r.Settings.TriangleDensityMinArea2 r.Settings.TriangleDensityMul)
      ∧ ∀ i : Nat, i ≠ (PixelPos.Y * r.RenderTargetSize.X + PixelPos.X).toNat →
          out[i]? = r.PixelData[i]? := by
  have hW : 0 ≤ r.RenderTargetSize.X := by omega
  have hidx0 : 0 ≤ PixelPos.Y * r.RenderTargetSize.X + PixelPos.X := by
    have := mul_nonneg hy0 hW
    omega
  have hidx1 : PixelPos.Y * r.RenderTargetSize.X + PixelPos.X < (r.PixelData.length : Int) := by
    rw [← hInv]
    nlinarith
  have hlt : (PixelPos.Y * r.RenderTargetSize.X + PixelPos.X).toNat < r.PixelData.length := by
    omega
  refine ⟨r.PixelData.set (PixelPos.Y * r.RenderTargetSize.X + PixelPos.X).toNat
    (r.WritebackColour VisType PixelPos), ?_, ?_, ?_, ?_, ?_, ?_⟩
  · unfold FPerspectiveRenderer.RenderPerspectivePixel
    rw [if_pos ⟨hx1, hy1⟩]
    simp only []
    rw [if_pos ⟨hidx0, hidx1⟩]
  · simp
  · simp only [List.length_set]
    omega
  · rw [List.getElem?_set_self hlt]
  · rw [List.getElem?_set_self hlt]
    refine congrArg some ?_
    unfold FPerspectiveRenderer.WritebackColour
    cases VisType <;> simp
  · intro i hi
    exact List.getElem?_set_ne (Ne.symm hi)

/-- C2 (instance): the pixel (1, 2) of the 4 x 4 buffer in the mode RayTimeEvenMiss, in a world
in which every ray misses: the colour stored at the index 9 is the heat map colour of the
clipped time 0. -/
theorem RenderPerspectivePixel_in_bounds_witness :
    ∃ out : List FColor,
      SmallRenderer.RenderPerspectivePixel EVisualisationType.RayTimeEvenMiss ⟨1, 2⟩ = some out
      ∧ out.length = SmallRenderer.PixelData.length
      ∧ out[9]? = some (CalculateVisualisationColour EVisualisationType.RayTimeEvenMiss
              false FHitResult.Init ⟨1, 0, 0⟩ ⟨1, 0, 0⟩
              (FTimer.End
                { FTimer.Zero with
                  MinTime := (FSDCollisionSettings.Construct
                    FConsoleVariables.Defaults 0).RaytraceTimeMinTime
                  MaxTime := (FSDCollisionSettings.Construct
                    FConsoleVariables.Defaults 0).RaytraceTimeMaxTime }
                (f32 0))
              (FSDCollisionSettings.Construct FConsoleVariables.Defaults 0).TriangleDensityMinArea2
              (FSDCollisionSettings.Construct FConsoleVariables.Defaults 0).TriangleDensityMul)
      ∧ ∀ i : Nat, i ≠ 9 → out[i]? = SmallRenderer.PixelData[i]? := by
  obtain ⟨out, h1, h2, -, -, h4, h5⟩ := RenderPerspectivePixel_in_bounds SmallRenderer
    EVisualisationType.RayTimeEvenMiss ⟨1, 2⟩ (by decide) (by decide) (by decide) (by decide)
    (by decide)
  exact ⟨out, h1, h2, h4, h5⟩

/-! ## The Linear sampling pattern -/

/-- The Linear position in terms of the raster offsets, for tile sizes up to `2 ^ 31`. -/
theorem NextTileSamplePosition_Linear_eq (o : FIntPoint) (T f : Nat) (hT0 : 1 ≤ T)
    (hT : T ≤ 2147483648) :
    NextTileSamplePosition ESamplingPattern.Linear o T f
      = ⟨o.X + ((f % T : Nat) : Int), o.Y + ((f / T % T : Nat) : Int)⟩ := by
  have h1 : f % T < T := Nat.mod_lt _ (by omega)
  have h2 : f / T % T < T := Nat.mod_lt _ (by omega)
  simp only [NextTileSamplePosition]
  rw [castInt32_of_small _ (by omega) (by omega), castInt32_of_small _ (by omega) (by omega)]

/-- C3 (counterexample): with the tile size `2 ^ 31 + 1` the frame `2 ^ 31`, one of the first
`T * T` frames, has the X offset `-2 ^ 31`, which is not in `[0, T)`: the `(int32)` cast of the
offset wraps.  And with the tile size `65537` the frames `0` and `2 ^ 32`, both below `T * T`,
are the same `uint32` frame id, so they have the same position. -/
theorem Linear_offset_negative_for_huge_tile :
    ((1 ≤ 2147483649 ∧ 2147483648 < 2147483649 * 2147483649)
      ∧ (NextTileSamplePosition ESamplingPattern.Linear ⟨0, 0⟩ 2147483649 2147483648).X - 0
          = -2147483648)
    ∧ ((1 ≤ 65537 ∧ 4294967296 < 65537 * 65537)
      ∧ NextTileSamplePosition ESamplingPattern.Linear ⟨0, 0⟩ 65537 (wrapU32 4294967296)
          = NextTileSamplePosition ESamplingPattern.Linear ⟨0, 0⟩ 65537 (wrapU32 0)) := by
  decide

/-- C3 (amended): for every tile origin and every tile size `1 ≤ T ≤ 65536`, so that the frames
`0 .. T * T - 1` are all `uint32` values, the Linear offsets are the raster offsets
`(frame % T, frame / T % T)`, they lie in `[0, T) x [0, T)`, distinct frames below `T * T` have
distinct positions, and every offset of the tile is the offset of some frame below `T * T`. -/
theorem Linear_offsets_bijection (o : FIntPoint) (T : Nat) (hT0 : 1 ≤ T) (hT : T ≤ 65536) :
    (∀ f : Nat, f < T * T →
        f < 4294967296
        ∧ (NextTileSamplePosition ESamplingPattern.Linear o T f).X - o.X = ((f % T : Nat) : Int)
        ∧ (NextTileSamplePosition ESamplingPattern.Linear o T f).Y - o.Y
            = ((f / T % T : Nat) : Int)
        ∧ f % T < T ∧ f / T % T < T)
    ∧ (∀ f g : Nat, f < T * T → g < T * T →
        NextTileSamplePosition ESamplingPattern.Linear o T f
          = NextTileSamplePosition ESamplingPattern.Linear o T g → f = g)
    ∧ (∀ a b : Nat, a < T → b < T → ∃ f : Nat, f < T * T
        ∧ NextTileSamplePosition ESamplingPattern.Linear o T f
            = ⟨o.X + (a : Int), o.Y + (b : Int)⟩) := by
  have hT31 : T ≤ 2147483648 := by omega
  have hTT : T * T ≤ 4294967296 := by
    calc T * T ≤ 65536 * 65536 := Nat.mul_le_mul hT hT
      _ = 4294967296 := by norm_num
  refine ⟨?_, ?_, ?_⟩
  · intro f hf
    rw [NextTileSamplePosition_Linear_eq o T f hT0 hT31]
    refine ⟨by omega, by simp, by simp, Nat.mod_lt _ (by omega), Nat.mod_lt _ (by omega)⟩
  · intro f g hf hg h
    rw [NextTileSamplePosition_Linear_eq o T f hT0 hT31,
      NextTileSamplePosition_Linear_eq o T g hT0 hT31] at h
    simp only [FIntPoint.mk.injEq, add_right_inj, Nat.cast_inj] at h
    obtain ⟨hx, hy⟩ := h
    have hfd : f / T < T := Nat.div_lt_of_lt_mul hf
    have hgd : g / T < T := Nat.div_lt_of_lt_mul hg
    rw [Nat.mod_eq_of_lt hfd, Nat.mod_eq_of_lt hgd] at hy
    calc f = T * (f / T) + f % T := (Nat.div_add_mod f T).symm
      _ = T * (g / T) + g % T := by rw [hx, hy]
      _ = g := Nat.div_add_mod g T
  · intro a b ha hb
    refine ⟨b * T + a, ?_, ?_⟩
    · calc b * T + a < b * T + T := by omega
        _ = (b + 1) * T := by ring
        _ ≤ T * T := Nat.mul_le_mul_right T (by omega)
    · rw [NextTileSamplePosition_Linear_eq o T _ hT0 hT31]
      have e1 : (b * T + a) % T = a := by
        rw [Nat.add_comm, Nat.add_mul_mod_self_right, Nat.mod_eq_of_lt ha]
      have e2 : (b * T + a) / T = b := by
        rw [Nat.add_comm, Nat.add_mul_div_right _ _ (by omega : 0 < T), Nat.div_eq_of_lt ha]
        simp
      rw [e1, e2, Nat.mod_eq_of_lt hb]

theorem Linear_offsets_bijection_witness :
    (1 ≤ 8 ∧ 8 ≤ 65536)
      ∧ (∀ f g : Nat, f < 8 * 8 → g < 8 * 8 →
        NextTileSamplePosition ESamplingPattern.Linear ⟨16, 24⟩ 8 f
          = NextTileSamplePosition ESamplingPattern.Linear ⟨16, 24⟩ 8 g → f = g) :=
  ⟨by decide, (Linear_offsets_bijection ⟨16, 24⟩ 8 (by decide) (by decide)).2.1⟩

/-! ## The R2 sampling pattern -/

theorem f64_mono (q r : ℚ) (h : q ≤ r) : f64 q ≤ f64 r :=
  roundBinary_mono 53 (-1022) (by norm_num) q r h

theorem f64_nonneg (q : ℚ) (h : 0 ≤ q) : 0 ≤ f64 q := roundBinary_nonneg 53 (-1022) q h

theorem f64_pred_one : f64 (9007199254740991 / 9007199254740992) = 9007199254740991 / 9007199254740992 := by
  decide!

/-- Just below a tile size in `[2, 128]` the product with the largest double below one still
rounds below the tile size. -/
theorem f64_pred_one_mul_lt :
    ∀ T : Fin 129, 2 ≤ T.val →
      f64 (9007199254740991 / 9007199254740992 * (T.val : ℚ)) < (T.val : ℚ) := by
  decide!

theorem R2G1_ge_half : 1 / 2 ≤ R2G1 := by decide!

theorem R2G2_ge_half : 1 / 2 ≤ R2G2 := by decide!

/-- The fractional part of a rounded product `G * n` with `G ≥ 1 / 2` and `n` a natural number
is at most the largest double below one. -/
theorem frac_f64_le (G : ℚ) (hG : 1 / 2 ≤ G) (n : Nat) :
    0 ≤ f64 (G * (n : ℚ)) - ((⌊f64 (G * (n : ℚ))⌋ : Int) : ℚ)
    ∧ f64 (G * (n : ℚ)) - ((⌊f64 (G * (n : ℚ))⌋ : Int) : ℚ)
        ≤ 9007199254740991 / 9007199254740992 := by
  set v := f64 (G * (n : ℚ)) with hv
  have hfl : ((⌊v⌋ : Int) : ℚ) ≤ v := Int.floor_le v
  have hlt : v < ((⌊v⌋ : Int) : ℚ) + 1 := Int.lt_floor_add_one v
  refine ⟨by linarith, ?_⟩
  rcases Nat.eq_zero_or_pos n with hn | hn
  · have hv0 : v = 0 := by
      rw [hv, hn]
      simp [f64, roundBinary_zero]
    rw [hv0]
    norm_num
  · have hn1 : (1 : ℚ) ≤ (n : ℚ) := by exact_mod_cast hn
    have hw : 1 / 2 ≤ G * (n : ℚ) := by nlinarith
    have hw0 : G * (n : ℚ) ≠ 0 := by linarith
    have hexp : (-1 : Int) ≤ binExp (G * (n : ℚ)) := by
      have h2 := (binExp_spec _ hw0).2
      rw [abs_of_pos (by linarith)] at h2
      have a1 : (2 : ℚ) ^ (-1 : Int) < (2 : ℚ) ^ (binExp (G * (n : ℚ)) + 1) := by
        have e : (2 : ℚ) ^ (-1 : Int) = 1 / 2 := by norm_num
        rw [e]
        linarith
      have b1 := (zpow_lt_zpow_iff_right₀ (by norm_num : (1 : ℚ) < 2)).mp a1
      omega
    obtain ⟨K, hK⟩ := roundBinary_grid 53 (-1022) (G * (n : ℚ)) hw0 (-1)
      (le_trans hexp (le_max_left _ _))
    have hK2 : v = (K : ℚ) / 9007199254740992 := by
      rw [hv]
      unfold f64
      rw [hK]
      norm_num
      ring
    have hM : (((K - ⌊v⌋ * 9007199254740992 : Int)) : ℚ) < ((9007199254740992 : Int) : ℚ) := by
      push_cast
      rw [hK2] at hlt
      have := (div_lt_iff₀ (by norm_num : (0 : ℚ) < 9007199254740992)).mp hlt
      rw [← hK2] at this
      linarith
    have hM2 : K - ⌊v⌋ * 9007199254740992 ≤ 9007199254740991 := by
      have := Int.cast_lt.mp hM
      omega
    have hM3 : (((K - ⌊v⌋ * 9007199254740992 : Int)) : ℚ) ≤ ((9007199254740991 : Int) : ℚ) :=
      Int.cast_le.mpr hM2
    push_cast at hM3
    rw [le_div_iff₀ (by norm_num : (0 : ℚ) < 9007199254740992)]
    have e : (v - ((⌊v⌋ : Int) : ℚ)) * 9007199254740992
        = (K : ℚ) - ((⌊v⌋ : Int) : ℚ) * 9007199254740992 := by
      rw [hK2]
      have e0 : ⌊(K : ℚ) / 9007199254740992⌋ = ⌊v⌋ := by rw [hK2]
      rw [e0]
      ring
    rw [e]
    exact hM3

theorem wrapU32_natCast (k : Nat) : wrapU32 (k : Int) = k % 4294967296 := by
  unfold wrapU32
  omega

/-- The R2 offset along one axis is the floor of the scaled fractional part and lies in
`[0, T)`. -/
theorem R2Offset_bounds (G : ℚ) (hG : 1 / 2 ≤ G) (H T FrameId : Nat) (hT0 : 2 ≤ T)
    (hT1 : T ≤ 128) :
    R2Offset G H T FrameId
        = ⌊f64 (FMathFrac (f64 (G * (((FrameId + H) % 4294967296 : Nat) : ℚ))) * (T : ℚ))⌋
    ∧ 0 ≤ R2Offset G H T FrameId ∧ R2Offset G H T FrameId < (T : Int) := by
  unfold R2Offset FMathFrac
  rw [wrapU32_natCast]
  obtain ⟨x0, x1⟩ := frac_f64_le G hG ((FrameId + H) % 4294967296)
  set x := f64 (G * (((FrameId + H) % 4294967296 : Nat) : ℚ))
    - ((⌊f64 (G * (((FrameId + H) % 4294967296 : Nat) : ℚ))⌋ : Int) : ℚ) with hx
  have fr0 : 0 ≤ f64 x := f64_nonneg x x0
  have fr1 : f64 x ≤ 9007199254740991 / 9007199254740992 := by
    have := f64_mono _ _ x1
    rwa [f64_pred_one] at this
  have hTq : (0 : ℚ) ≤ (T : ℚ) := Nat.cast_nonneg T
  have y0 : 0 ≤ f64 (f64 x * (T : ℚ)) := f64_nonneg _ (mul_nonneg fr0 hTq)
  have y1 : f64 (f64 x * (T : ℚ)) < (T : ℚ) := by
    have h1 := f64_mono _ _ (mul_le_mul_of_nonneg_right fr1 hTq)
    have h2 := f64_pred_one_mul_lt ⟨T, by omega⟩ hT0
    simp only [] at h2
    exact lt_of_le_of_lt h1 h2
  unfold truncToInt
  rw [if_pos y0]
  exact ⟨rfl, Int.floor_nonneg.mpr y0, Int.floor_lt.mpr (by exact_mod_cast y1)⟩

/-- C4: for every tile origin, every tile size `T` in `[2, 128]` and every frame id, the R2
pattern returns the tile origin plus the offsets
`X = floor(frac(G1 * n) * T)`, `Y = floor(frac(G2 * n) * T)`, evaluated in `double`, where `n`
is `FrameId + H` modulo `2 ^ 32` and `H` the 32-bit hash of the tile origin, and both offsets
lie in `[0, T)`. -/
theorem R2_offsets_in_tile (o : FIntPoint) (T FrameId : Nat) (hT0 : 2 ≤ T) (hT1 : T ≤ 128) :
    ∃ X Y : Int,
      NextTileSamplePosition ESamplingPattern.R2 o T FrameId = ⟨o.X + X, o.Y + Y⟩
      ∧ X = ⌊f64 (FMathFrac (f64 (R2G1 * (((FrameId
              + SimpleHash32 ⟨wrapU32 o.X, wrapU32 o.Y, 0⟩) % 4294967296 : Nat) : ℚ))) * (T : ℚ))⌋
      ∧ Y = ⌊f64 (FMathFrac (f64 (R2G2 * (((FrameId
              + SimpleHash32 ⟨wrapU32 o.X, wrapU32 o.Y, 0⟩) % 4294967296 : Nat) : ℚ))) * (T : ℚ))⌋
      ∧ 0 ≤ X ∧ X < (T : Int) ∧ 0 ≤ Y ∧ Y < (T : Int) := by
  obtain ⟨x1, x2, x3⟩ := R2Offset_bounds R2G1 R2G1_ge_half
    (SimpleHash32 ⟨wrapU32 o.X, wrapU32 o.Y, 0⟩) T FrameId hT0 hT1
  obtain ⟨y1, y2, y3⟩ := R2Offset_bounds R2G2 R2G2_ge_half
    (SimpleHash32 ⟨wrapU32 o.X, wrapU32 o.Y, 0⟩) T FrameId hT0 hT1
  exact ⟨_, _, rfl, x1, y1, x2, x3, y2, y3⟩

theorem R2_offsets_in_tile_witness :
    ∃ X Y : Int,
      NextTileSamplePosition ESamplingPattern.R2 ⟨8, 0⟩ 8 1 = ⟨8 + X, 0 + Y⟩
      ∧ 0 ≤ X ∧ X < 8 ∧ 0 ≤ Y ∧ Y < 8 := by
  obtain ⟨X, Y, h, -, -, hx0, hx1, hy0, hy1⟩ :=
    R2_offsets_in_tile ⟨8, 0⟩ 8 1 (by decide) (by decide)
  exact ⟨X, Y, h, hx0, hx1, hy0, hy1⟩

/-! ## Periodicity of the Linear pattern -/

/-- The Linear position depends on the frame id modulo `T * T` only. -/
theorem Linear_position_mod (o : FIntPoint) (T f : Nat) :
    NextTileSamplePosition ESamplingPattern.Linear o T (f % (T * T))
      = NextTileSamplePosition ESamplingPattern.Linear o T f := by
  simp only [NextTileSamplePosition]
  rw [Nat.mod_mul_right_mod, Nat.mod_mul_right_div_self, Nat.mod_mod]

theorem UpdateSettings_TileSize (s : FSDCollisionSettings) (g : Nat) :
    (s.UpdateSettings g).TileSize = Clamp s.TileSize 2 128 := rfl

theorem UpdateSettings_SamplingPattern (s : FSDCollisionSettings) (g : Nat) :
    (s.UpdateSettings g).SamplingPattern = s.SamplingPattern := rfl

theorem UpdateSettings_FrameId_Linear (s : FSDCollisionSettings) (g : Nat)
    (hs : s.SamplingPattern = ESamplingPattern.Linear) :
    (s.UpdateSettings g).FrameId = g % 4294967296 := by
  have hmask : g &&& 4294967295 = g % 4294967296 := Nat.and_pow_two_sub_one_eq_mod g 32
  have hlt : g % 4294967296 < 4294967296 := Nat.mod_lt _ (by norm_num)
  simp only [FSDCollisionSettings.UpdateSettings, hs]
  rw [if_neg (by decide), hmask, wrapU32_of_lt _ hlt]

theorem Clamp_tile_bounds (n : Nat) : 2 ≤ Clamp n 2 128 ∧ Clamp n 2 128 ≤ 128 := by
  unfold Clamp
  omega

/-- C5 (counterexample): with the Linear pattern and the tile size 3 the position at frame
counter `2 ^ 32 - 1` is `(0, 1)` while the position nine frames later is `(2, 2)`: the 32-bit
frame id wraps in between. -/
theorem Linear_period_broken_at_wrap :
    (LinearSettings3.UpdateSettings 4294967295).TileSize = 3
      ∧ TilePositionAtFrame LinearSettings3 ⟨0, 0⟩ 4294967295 = ⟨0, 1⟩
      ∧ TilePositionAtFrame LinearSettings3 ⟨0, 0⟩ (4294967295 + 3 * 3) = ⟨2, 2⟩ := by
  decide

/-- C5 (amended): with the Linear pattern, for every tile origin, every configured tile size
(the effective size `T` is in `[2, 128]`) and every frame counter `g`, the position at frame
`g + T * T` equals the position at frame `g`, provided the 32-bit frame id does not wrap between
the two frames or `T * T` divides `2 ^ 32`. -/
theorem Linear_period_without_wrap (s : FSDCollisionSettings) (Tile : FIntPoint) (g : Nat)
    (hs : s.SamplingPattern = ESamplingPattern.Linear)
    (hw : g % 4294967296 + Clamp s.TileSize 2 128 * Clamp s.TileSize 2 128 < 4294967296
      ∨ Clamp s.TileSize 2 128 * Clamp s.TileSize 2 128 ∣ 4294967296) :
    (2 ≤ (s.UpdateSettings g).TileSize ∧ (s.UpdateSettings g).TileSize ≤ 128)
    ∧ TilePositionAtFrame s Tile
          (g + (s.UpdateSettings g).TileSize * (s.UpdateSettings g).TileSize)
        = TilePositionAtFrame s Tile g := by
  refine ⟨Clamp_tile_bounds s.TileSize, ?_⟩
  unfold TilePositionAtFrame
  simp only [UpdateSettings_TileSize, UpdateSettings_SamplingPattern, hs,
    UpdateSettings_FrameId_Linear s _ hs]
  generalize Clamp s.TileSize 2 128 = T at hw
  rw [← Linear_position_mod Tile T ((g + T * T) % 4294967296),
    ← Linear_position_mod Tile T (g % 4294967296)]
  congr 1
  rcases hw with hw | hw
  · have e : (g + T * T) % 4294967296 = g % 4294967296 + T * T := by omega
    rw [e, Nat.add_mod_right]
  · rw [Nat.mod_mod_of_dvd _ hw, Nat.mod_mod_of_dvd _ hw, Nat.add_mod_right]

theorem Linear_period_without_wrap_witness :
    (2 ≤ (LinearSettings3.UpdateSettings 100).TileSize
      ∧ (LinearSettings3.UpdateSettings 100).TileSize ≤ 128)
    ∧ TilePositionAtFrame LinearSettings3 ⟨8, 8⟩
          (100 + (LinearSettings3.UpdateSettings 100).TileSize
            * (LinearSettings3.UpdateSettings 100).TileSize)
        = TilePositionAtFrame LinearSettings3 ⟨8, 8⟩ 100 :=
  Linear_period_without_wrap LinearSettings3 ⟨8, 8⟩ 100 (by decide) (Or.inl (by decide))

/-! ## Colour policies -/

/-- C6: in every mode other than RayTimeEvenMiss a miss is opaque black, whatever the other
arguments are. -/
theorem CalculateVisualisationColour_miss (VisType : EVisualisationType)
    (hv : VisType ≠ EVisualisationType.RayTimeEvenMiss) (HitResult : FHitResult)
    (TraceNormal RevViewForward : FVector) (Timer : FTimer)
    (TriangleDensityMinArea2 TriangleDensityMul : ℚ) :
    CalculateVisualisationColour VisType false HitResult TraceNormal RevViewForward Timer
        TriangleDensityMinArea2 TriangleDensityMul = ⟨0, 0, 0, 255⟩ := by
  unfold CalculateVisualisationColour
  rw [if_neg hv]
  rfl

theorem CalculateVisualisationColour_miss_witness :
    CalculateVisualisationColour EVisualisationType.TriangleDensity false FHitResult.Init
        ⟨1, 0, 0⟩ ⟨1, 0, 0⟩ FTimer.Zero 2 (1 / 2) = ⟨0, 0, 0, 255⟩ :=
  CalculateVisualisationColour_miss EVisualisationType.TriangleDensity (by decide)
    FHitResult.Init ⟨1, 0, 0⟩ ⟨1, 0, 0⟩ FTimer.Zero 2 (1 / 2)

/-- C7: in RayTimeEvenMiss mode the colour is `Heatmap` of the timer value, for either value of
the hit flag and every hit result, so two calls that differ in those only agree. -/
theorem CalculateVisualisationColour_RayTimeEvenMiss (bHit bHit2 : Bool)
    (HitResult HitResult2 : FHitResult) (TraceNormal RevViewForward : FVector) (Timer : FTimer)
    (TriangleDensityMinArea2 TriangleDensityMul : ℚ) :
    CalculateVisualisationColour EVisualisationType.RayTimeEvenMiss bHit HitResult TraceNormal
        RevViewForward Timer TriangleDensityMinArea2 TriangleDensityMul = Heatmap Timer.Get 1
    ∧ CalculateVisualisationColour EVisualisationType.RayTimeEvenMiss bHit HitResult TraceNormal
        RevViewForward Timer TriangleDensityMinArea2 TriangleDensityMul
      = CalculateVisualisationColour EVisualisationType.RayTimeEvenMiss bHit2 HitResult2
        TraceNormal RevViewForward Timer TriangleDensityMinArea2 TriangleDensityMul := by
  constructor <;> simp [CalculateVisualisationColour]

/-! ## The Default colour policy on a face-on hit -/

theorem f32_mono (q r : ℚ) (h : q ≤ r) : f32 q ≤ f32 r :=
  roundBinary_mono 24 (-126) (by norm_num) q r h

theorem f32_nonneg (q : ℚ) (h : 0 ≤ q) : 0 ≤ f32 q := roundBinary_nonneg 24 (-126) q h

theorem f32_neg (q : ℚ) : f32 (-q) = -f32 q := roundBinary_neg 24 (-126) q

theorem f64_neg (q : ℚ) : f64 (-q) = -f64 q := roundBinary_neg 53 (-1022) q

/-- A `double` operation on a result of magnitude below 4 errs by at most `2 ^ -52`. -/
theorem f64_error_small (q : ℚ) (h : |q| < 4) : |f64 q - q| ≤ 1 / 4503599627370496 := by
  have := roundBinary_error 53 (-1022) q 1 (by norm_num) (by norm_num; exact h)
  have e : (2 : ℚ) ^ ((1 : Int) - ((53 : Nat) : Int)) = 1 / 4503599627370496 := by norm_num
  rw [e] at this
  exact this

/-- The quantisation `(uint8)(c * 255.0f + 0.5f)` of a value within `1 / 512` of one is 255. -/
theorem quantise_near_one (c : ℚ) (h1 : 511 / 512 ≤ c) (h2 : c ≤ 1) :
    castUInt8 (f32 (f32 (c * 255) + 1 / 2)) = 255 := by
  have a1 : (509 / 2 : ℚ) ≤ f32 (c * 255) := by
    have := f32_mono (509 / 2) (c * 255) (by linarith)
    have e : f32 (509 / 2) = 509 / 2 := by decide!
    rwa [e] at this
  have a2 : f32 (c * 255) ≤ 255 := by
    have := f32_mono (c * 255) 255 (by linarith)
    have e : f32 255 = 255 := by decide!
    rwa [e] at this
  have b1 : (255 : ℚ) ≤ f32 (f32 (c * 255) + 1 / 2) := by
    have := f32_mono 255 (f32 (c * 255) + 1 / 2) (by linarith)
    have e : f32 255 = 255 := by decide!
    rwa [e] at this
  have b2 : f32 (f32 (c * 255) + 1 / 2) ≤ 511 / 2 := by
    have := f32_mono (f32 (c * 255) + 1 / 2) (511 / 2) (by linarith)
    have e : f32 (511 / 2) = 511 / 2 := by decide!
    rwa [e] at this
  have hfl : ⌊f32 (f32 (c * 255) + 1 / 2)⌋ = 255 := by
    rw [Int.floor_eq_iff]
    push_cast
    constructor <;> linarith
  unfold castUInt8 truncToInt
  rw [if_pos (by linarith), hfl]
  rfl

/-- A `float` operation on a result of magnitude below 256 errs by at most `2 ^ -17`. -/
theorem f32_error_small (q : ℚ) (h : |q| < 256) : |f32 q - q| ≤ 1 / 131072 := by
  have := roundBinary_error 24 (-126) q 7 (by norm_num) (by norm_num; exact h)
  have e : (2 : ℚ) ^ ((7 : Int) - ((24 : Nat) : Int)) = 1 / 131072 := by norm_num
  rw [e] at this
  exact this

/-- The quantisation `(uint8)(c * 255.0f + 0.5f)` of a value in `[0, 1]` is at most 255 and is
a nearest integer to `255 * c` up to the rounding error of the two `float` operations. -/
theorem quantise_bounds (c : ℚ) (h0 : 0 ≤ c) (h1 : c ≤ 1) :
    castUInt8 (f32 (f32 (c * 255) + 1 / 2)) ≤ 255
    ∧ |((castUInt8 (f32 (f32 (c * 255) + 1 / 2)) : Nat) : ℚ) - 255 * c| ≤ 1 / 2 + 1 / 65536 := by
  have t0 : 0 ≤ f32 (c * 255) := f32_nonneg _ (by linarith)
  have t1 : f32 (c * 255) ≤ 255 := by
    have := f32_mono (c * 255) 255 (by linarith)
    have e : f32 255 = 255 := by decide!
    rwa [e] at this
  have te := abs_le.mp (f32_error_small (c * 255) (by rw [abs_of_nonneg (by linarith)]; linarith))
  have s0 : 0 ≤ f32 (f32 (c * 255) + 1 / 2) := f32_nonneg _ (by linarith)
  have s1 : f32 (f32 (c * 255) + 1 / 2) ≤ 511 / 2 := by
    have := f32_mono (f32 (c * 255) + 1 / 2) (511 / 2) (by linarith)
    have e : f32 (511 / 2) = 511 / 2 := by decide!
    rwa [e] at this
  have se := abs_le.mp (f32_error_small (f32 (c * 255) + 1 / 2)
    (by rw [abs_of_nonneg (by linarith)]; linarith))
  have f0 : 0 ≤ ⌊f32 (f32 (c * 255) + 1 / 2)⌋ := Int.floor_nonneg.mpr s0
  have f1 : ⌊f32 (f32 (c * 255) + 1 / 2)⌋ < 256 :=
    Int.floor_lt.mpr (by push_cast; linarith)
  have fl1 : ((⌊f32 (f32 (c * 255) + 1 / 2)⌋ : Int) : ℚ) ≤ f32 (f32 (c * 255) + 1 / 2) :=
    Int.floor_le _
  have fl2 : f32 (f32 (c * 255) + 1 / 2) < ((⌊f32 (f32 (c * 255) + 1 / 2)⌋ : Int) : ℚ) + 1 :=
    Int.lt_floor_add_one _
  have hg : ((castUInt8 (f32 (f32 (c * 255) + 1 / 2)) : Nat) : Int)
      = ⌊f32 (f32 (c * 255) + 1 / 2)⌋ := by
    unfold castUInt8 truncToInt
    rw [if_pos s0]
    omega
  have hgq : ((castUInt8 (f32 (f32 (c * 255) + 1 / 2)) : Nat) : ℚ)
      = ((⌊f32 (f32 (c * 255) + 1 / 2)⌋ : Int) : ℚ) := by
    rw [← hg]
    simp
  constructor
  · omega
  · rw [hgq, abs_le]
    constructor <;> linarith

/-- The `double` dot product of a vector with its negation, for a vector of squared length
within `1 / 4096` of one, is at most `-(1 - 1 / 2048)`. -/
theorem Dot_neg_self (N : FVector)
    (hunit : |N.X * N.X + N.Y * N.Y + N.Z * N.Z - 1| ≤ 1 / 4096) :
    ∃ D : ℚ, N.neg.Dot N = -D ∧ 2047 / 2048 ≤ D := by
  obtain ⟨u1, u2⟩ := abs_le.mp hunit
  have sx : 0 ≤ N.X * N.X := mul_self_nonneg _
  have sy : 0 ≤ N.Y * N.Y := mul_self_nonneg _
  have sz : 0 ≤ N.Z * N.Z := mul_self_nonneg _
  refine ⟨f64 (f64 (f64 (N.X * N.X) + f64 (N.Y * N.Y)) + f64 (N.Z * N.Z)), ?_, ?_⟩
  · unfold FVector.Dot FVector.neg
    simp only [neg_mul, f64_neg, ← neg_add]
  · have ex := abs_le.mp (f64_error_small (N.X * N.X) (by rw [abs_of_nonneg sx]; linarith))
    have ey := abs_le.mp (f64_error_small (N.Y * N.Y) (by rw [abs_of_nonneg sy]; linarith))
    have ez := abs_le.mp (f64_error_small (N.Z * N.Z) (by rw [abs_of_nonneg sz]; linarith))
    have ax := f64_nonneg _ sx
    have ay := f64_nonneg _ sy
    have az := f64_nonneg _ sz
    have exy := abs_le.mp (f64_error_small (f64 (N.X * N.X) + f64 (N.Y * N.Y))
      (by rw [abs_of_nonneg (by linarith)]; linarith))
    have axy := f64_nonneg _ (add_nonneg ax ay)
    have eall := abs_le.mp (f64_error_small
      (f64 (f64 (N.X * N.X) + f64 (N.Y * N.Y)) + f64 (N.Z * N.Z))
      (by rw [abs_of_nonneg (by linarith)]; linarith))
    linarith

/-- C8: in Default mode, for a hit whose ray direction is the exact negation of the hit normal
and whose normal has unit length (squared length within `1 / 4096` of one, which covers the
exactly normalised vectors and their floating point approximations), the colour is
`(255, g, 255, 255)` where `g` is the round-half-up quantisation `(uint8)(Fg * 255.0f + 0.5f)` of
`Fg = clamp(dot(RevViewForward, Normal), 0, 1)`: `g` is at most 255 and within `1 / 2` of
`255 * Fg` up to the `float` rounding error. -/
theorem Default_face_on_hit (HitResult : FHitResult) (RevViewForward : FVector) (Timer : FTimer)
    (TriangleDensityMinArea2 TriangleDensityMul : ℚ)
    (hunit : |HitResult.Normal.X * HitResult.Normal.X + HitResult.Normal.Y * HitResult.Normal.Y
        + HitResult.Normal.Z * HitResult.Normal.Z - 1| ≤ 1 / 4096) :
    ∃ g : Nat,
      CalculateVisualisationColour EVisualisationType.Default true HitResult
          HitResult.Normal.neg RevViewForward Timer TriangleDensityMinArea2 TriangleDensityMul
        = ⟨255, g, 255, 255⟩
      ∧ g = castUInt8
          (f32 (f32 (Clamp (f32 (RevViewForward.Dot HitResult.Normal)) 0 1 * 255) + 1 / 2))
      ∧ g ≤ 255
      ∧ |(g : ℚ) - 255 * Clamp (f32 (RevViewForward.Dot HitResult.Normal)) 0 1|
          ≤ 1 / 2 + 1 / 65536 := by
  obtain ⟨D, hD, hD1⟩ := Dot_neg_self HitResult.Normal hunit
  -- the facing ratio
  have hFr : ∃ Fr : ℚ, Clamp (-(f32 (HitResult.Normal.neg.Dot HitResult.Normal))) 0 1 = Fr
      ∧ 2047 / 2048 ≤ Fr ∧ Fr ≤ 1 := by
    refine ⟨_, rfl, ?_, ?_⟩
    · rw [hD, f32_neg, neg_neg]
      have := f32_mono _ _ hD1
      have e : f32 (2047 / 2048) = 2047 / 2048 := by decide!
      rw [e] at this
      unfold Clamp
      exact le_max_of_le_left (le_min this (by norm_num))
    · unfold Clamp
      exact max_le (min_le_right _ _) (by norm_num)
  obtain ⟨Fr, hFrdef, hFr1, hFr2⟩ := hFr
  have hFg0 : 0 ≤ Clamp (f32 (RevViewForward.Dot HitResult.Normal)) 0 1 := by
    unfold Clamp
    exact le_max_right _ _
  have hFg1 : Clamp (f32 (RevViewForward.Dot HitResult.Normal)) 0 1 ≤ 1 := by
    unfold Clamp
    exact max_le (min_le_right _ _) (by norm_num)
  set Fg := Clamp (f32 (RevViewForward.Dot HitResult.Normal)) 0 1 with hFg
  -- the blue channel
  have e1023 : f32 (1023 / 1024) = 1023 / 1024 := by decide!
  have hz : (1023 / 1024 : ℚ) ≤ f32 (f32 (Fr * Fr) + f32 (Fg * Fg)) := by
    have h1 : (1023 / 1024 : ℚ) ≤ f32 (Fr * Fr) := by
      have := f32_mono (1023 / 1024) (Fr * Fr) (by nlinarith)
      rwa [e1023] at this
    have h2 : 0 ≤ f32 (Fg * Fg) := f32_nonneg _ (mul_self_nonneg _)
    have := f32_mono (1023 / 1024) (f32 (Fr * Fr) + f32 (Fg * Fg)) (by linarith)
    rwa [e1023] at this
  have hsq : (1023 / 1024 : ℚ) ≤ sqrtF32 (f32 (f32 (Fr * Fr) + f32 (Fg * Fg))) := by
    unfold sqrtF32
    apply le_sqrtBinary 24 (-126) (by norm_num) (1023 / 1024) _ 1023 10 (by norm_num)
      (by norm_num) e1023 (by norm_num)
    have : (1023 / 1024 : ℚ) * (1023 / 1024) ≤ 1023 / 1024 := by norm_num
    linarith
  have hFb1 : (511 / 512 : ℚ) ≤ min (sqrtF32 (f32 (f32 (Fr * Fr) + f32 (Fg * Fg)))) 1 :=
    le_min (by linarith) (by norm_num)
  have hFb2 : min (sqrtF32 (f32 (f32 (Fr * Fr) + f32 (Fg * Fg)))) 1 ≤ 1 := min_le_right _ _
  have hCr := quantise_near_one Fr (by linarith) hFr2
  have hCb := quantise_near_one _ hFb1 hFb2
  obtain ⟨hg1, hg2⟩ := quantise_bounds Fg hFg0 hFg1
  refine ⟨castUInt8 (f32 (f32 (Fg * 255) + 1 / 2)), ?_, rfl, hg1, hg2⟩
  unfold CalculateVisualisationColour
  rw [if_neg (by decide)]
  simp only [Bool.not_true, Bool.false_eq_true, if_false]
  rw [hFrdef, hCr, ← hFg, hCb]

theorem Default_face_on_hit_witness :
    ∃ g : Nat,
      CalculateVisualisationColour EVisualisationType.Default true
          { FHitResult.Init with Normal := ⟨1, 0, 0⟩ } (FVector.neg ⟨1, 0, 0⟩) ⟨0, 1, 0⟩
          FTimer.Zero 0 0
        = ⟨255, g, 255, 255⟩ ∧ g ≤ 255 := by
  obtain ⟨g, h1, -, h3, -⟩ := Default_face_on_hit { FHitResult.Init with Normal := ⟨1, 0, 0⟩ }
    ⟨0, 1, 0⟩ FTimer.Zero 0 0 (by norm_num)
  exact ⟨g, h1, h3⟩

/-! ## The heat map -/

/-- C9: with dampening 1, `Heatmap(0)` is pure green, `Heatmap(0.5)` pure yellow and
`Heatmap(1)` pure red. -/
theorem Heatmap_green_yellow_red :
    Heatmap 0 1 = ⟨0, 255, 0, 255⟩ ∧ Heatmap (1 / 2) 1 = ⟨255, 255, 0, 255⟩
      ∧ Heatmap 1 1 = ⟨255, 0, 0, 255⟩ := by
  decide!

/-! ## Settings -/

/-- The effective tile size after construction, for a non-negative configured value. -/
theorem Construct_TileSize_of_nonneg (cv : FConsoleVariables) (g : Nat) (h0 : 0 ≤ cv.TileSize)
    (h1 : cv.TileSize < 4294967296) :
    ((FSDCollisionSettings.Construct cv g).TileSize : Int) = min (max cv.TileSize 2) 128 := by
  simp only [FSDCollisionSettings.Construct, UpdateSettings_TileSize, Clamp, wrapU32]
  omega

/-- C10 (evaluation at the failing input): the configured tile size -1 becomes the `uint32`
value `4294967295` and is clamped to 128, not to 2. -/
theorem Construct_TileSize_negative :
    (FSDCollisionSettings.Construct { FConsoleVariables.Defaults with TileSize := -1 } 0).TileSize
      = 128 := by
  decide

/-! ## The scale setting -/

theorem UpdateSettings_Scale (s : FSDCollisionSettings) (g : Nat) :
    (s.UpdateSettings g).Scale = Clamp s.Scale 0 1 := rfl

theorem Clamp_unit_eq (x : ℚ) : Clamp x 0 1 = min (max x 0) 1 := by
  unfold Clamp
  rcases le_total x 0 with h | h <;> rcases le_total x 1 with h1 | h1 <;>
    simp [h, h1, min_eq_left, min_eq_right, max_eq_left, max_eq_right]
  linarith

/-- C11: for every configured scale `s` the constructor yields the effective scale
`min(max(s, 0), 1)`, every `UpdateSettings` call yields that value of the scale it finds, a
later `UpdateSettings` call on constructed settings leaves the scale as it is, and the
configured values -1 and 5 yield 0 and 1. -/
theorem Construct_Scale (cv : FConsoleVariables) (s : FSDCollisionSettings) (g g2 : Nat) :
    (FSDCollisionSettings.Construct cv g).Scale = min (max cv.Scale 0) 1
    ∧ (s.UpdateSettings g).Scale = min (max s.Scale 0) 1
    ∧ ((FSDCollisionSettings.Construct cv g).UpdateSettings g2).Scale
        = min (max cv.Scale 0) 1
    ∧ (FSDCollisionSettings.Construct { cv with Scale := -1 } g).Scale = 0
    ∧ (FSDCollisionSettings.Construct { cv with Scale := 5 } g).Scale = 1 := by
  have hc : ∀ c : FConsoleVariables,
      (FSDCollisionSettings.Construct c g).Scale = min (max c.Scale 0) 1 := by
    intro c
    simp only [FSDCollisionSettings.Construct, UpdateSettings_Scale]
    exact Clamp_unit_eq _
  refine ⟨hc cv, ?_, ?_, ?_, ?_⟩
  · rw [UpdateSettings_Scale]
    exact Clamp_unit_eq _
  · rw [UpdateSettings_Scale, hc cv, Clamp_unit_eq]
    rcases le_total cv.Scale 0 with h | h <;> rcases le_total cv.Scale 1 with h1 | h1 <;>
      simp [h, h1, min_eq_left, min_eq_right, max_eq_left, max_eq_right]
  · rw [hc]
    norm_num
  · rw [hc]
    norm_num

/-! ## Kernel dispatch -/

/-- C16: for an executor holding the enumerators `v` and `s`, `Dispatch` with both mask bits
invokes the kernel exactly once, with the parameters `(v, s)`, and `Dispatch` with the
`EKD_VisType` bit only invokes it exactly once with `v` and the sampling pattern of the base
dispatcher, Linear, whatever `s` is. -/
theorem Dispatch_valid (v : EVisualisationType) (s : ESamplingPattern) :
    FKernelExecutor.Dispatch ⟨v.toRaw, s.toRaw⟩ TKernelDispatchParameters.Base
        (EKD_VisType ||| EKD_SamplingPattern) = FDispatchResult.Returned [⟨v, s⟩]
    ∧ FKernelExecutor.Dispatch ⟨v.toRaw, s.toRaw⟩ TKernelDispatchParameters.Base EKD_VisType
        = FDispatchResult.Returned [⟨v, ESamplingPattern.Linear⟩] := by
  cases v <;> cases s <;> exact ⟨rfl, rfl⟩

/-- A value of `VisType` outside the enumerators, dispatched dynamically, makes `Dispatch`
return without any kernel invocation. -/
theorem Dispatch_unknown_VisType (e : FKernelExecutor) (Base : TKernelDispatchParameters)
    (h : e.VisType < 0 ∨ 6 < e.VisType) :
    e.Dispatch Base (EKD_VisType ||| EKD_SamplingPattern) = FDispatchResult.Returned [] := by
  have h0 : ¬ e.VisType = 0 := by omega
  have h1 : ¬ e.VisType = 1 := by omega
  have h2 : ¬ e.VisType = 2 := by omega
  have h3 : ¬ e.VisType = 3 := by omega
  have h4 : ¬ e.VisType = 4 := by omega
  have h5 : ¬ e.VisType = 5 := by omega
  have h6 : ¬ e.VisType = 6 := by omega
  have hm : ¬ ((EKD_VisType ||| EKD_SamplingPattern) &&& EKD_VisType ≠ EKD_VisType) := by decide
  have hv : ∀ s1 : TKernelDispatchParameters,
      DispatchKernelVisType e (EKD_VisType ||| EKD_SamplingPattern) s1 (fun s2 => [s2]) = [] := by
    intro s1
    simp only [DispatchKernelVisType, if_neg hm, if_neg h0, if_neg h1, if_neg h2, if_neg h3,
      if_neg h4, if_neg h5, if_neg h6]
  unfold FKernelExecutor.Dispatch DispatchSamplingPattern
  simp only [hv]
  split_ifs <;> rfl

/-- C17 (counterexample): with the value 7 in `VisType`, or the value 2 in `SamplingPattern`,
and both dimensions dispatched dynamically, `Dispatch` returns normally and the kernel has not
been invoked. -/
theorem Dispatch_unknown_returns :
    FKernelExecutor.Dispatch ⟨7, 0⟩ TKernelDispatchParameters.Base
        (EKD_VisType ||| EKD_SamplingPattern) = FDispatchResult.Returned []
    ∧ FKernelExecutor.Dispatch ⟨0, 2⟩ TKernelDispatchParameters.Base
        (EKD_VisType ||| EKD_SamplingPattern) = FDispatchResult.Returned [] := by
  decide

theorem DispatchKernelVisType_length (e : FKernelExecutor) (DispatchTypes : Nat)
    (Settings : TKernelDispatchParameters) :
    (DispatchKernelVisType e DispatchTypes Settings (fun s2 => [s2])).length ≤ 1 := by
  unfold DispatchKernelVisType
  split_ifs <;> simp

theorem DispatchSamplingPattern_length (e : FKernelExecutor) (DispatchTypes : Nat)
    (Settings : TKernelDispatchParameters)
    (Next : TKernelDispatchParameters → List TKernelDispatchParameters)
    (h : ∀ s : TKernelDispatchParameters, (Next s).length ≤ 1) :
    (DispatchSamplingPattern e DispatchTypes Settings Next).length ≤ 1 := by
  unfold DispatchSamplingPattern
  split_ifs
  · exact h _
  · exact h _
  · exact h _
  · simp

/-- C17 (amended): `Dispatch` contains no assertion.  Whatever the executor holds and whatever
the mask, it returns after at most one kernel invocation; when `VisType` or `SamplingPattern`
holds a value that is not a declared enumerator and that dimension is dispatched dynamically,
it returns without having invoked the kernel.  The executors of the two drivers take their
fields from a settings object, which holds declared enumerators; for those `Dispatch` invokes
the kernel exactly once, with both mask bits and with the `EKD_VisType` bit alone. -/
theorem Dispatch_without_assertion (e : FKernelExecutor) (Base : TKernelDispatchParameters)
    (DispatchTypes : Nat) :
    (∃ calls : List TKernelDispatchParameters,
        e.Dispatch Base DispatchTypes = FDispatchResult.Returned calls ∧ calls.length ≤ 1)
    ∧ e.Dispatch Base DispatchTypes ≠ FDispatchResult.Fatal
    ∧ (DispatchTypes &&& EKD_VisType = EKD_VisType → (e.VisType < 0 ∨ 6 < e.VisType) →
        e.Dispatch Base DispatchTypes = FDispatchResult.Returned [])
    ∧ (DispatchTypes &&& EKD_SamplingPattern = EKD_SamplingPattern →
        (e.SamplingPattern < 0 ∨ 1 < e.SamplingPattern) →
        e.Dispatch Base DispatchTypes = FDispatchResult.Returned [])
    ∧ (∀ s : FSDCollisionSettings,
        0 ≤ s.VisType.toRaw ∧ s.VisType.toRaw ≤ 6
        ∧ 0 ≤ s.SamplingPattern.toRaw ∧ s.SamplingPattern.toRaw ≤ 1
        ∧ FKernelExecutor.Dispatch ⟨s.VisType.toRaw, s.SamplingPattern.toRaw⟩
            TKernelDispatchParameters.Base (EKD_VisType ||| EKD_SamplingPattern)
          = FDispatchResult.Returned [⟨s.VisType, s.SamplingPattern⟩]
        ∧ FKernelExecutor.Dispatch ⟨s.VisType.toRaw, s.SamplingPattern.toRaw⟩
            TKernelDispatchParameters.Base EKD_VisType
          = FDispatchResult.Returned [⟨s.VisType, ESamplingPattern.Linear⟩]) := by
  refine ⟨⟨_, rfl, ?_⟩, ?_, ?_, ?_, ?_⟩
  · exact DispatchSamplingPattern_length e DispatchTypes Base _
      (fun s1 => DispatchKernelVisType_length e DispatchTypes s1)
  · intro h
    cases h
  · intro hm hv
    have h0 : ¬ e.VisType = 0 := by omega
    have h1 : ¬ e.VisType = 1 := by omega
    have h2 : ¬ e.VisType = 2 := by omega
    have h3 : ¬ e.VisType = 3 := by omega
    have h4 : ¬ e.VisType = 4 := by omega
    have h5 : ¬ e.VisType = 5 := by omega
    have h6 : ¬ e.VisType = 6 := by omega
    have hv : ∀ s1 : TKernelDispatchParameters,
        DispatchKernelVisType e DispatchTypes s1 (fun s2 => [s2]) = [] := by
      intro s1
      simp only [DispatchKernelVisType, if_neg (not_not.mpr hm), if_neg h0, if_neg h1, if_neg h2,
        if_neg h3, if_neg h4, if_neg h5, if_neg h6]
    unfold FKernelExecutor.Dispatch DispatchSamplingPattern
    simp only [hv]
    split_ifs <;> rfl
  · intro hm hs
    have h0 : ¬ e.SamplingPattern = 0 := by omega
    have h1 : ¬ e.SamplingPattern = 1 := by omega
    unfold FKernelExecutor.Dispatch DispatchSamplingPattern
    rw [if_neg (not_not.mpr hm), if_neg h0, if_neg h1]
  · intro s
    cases hv : s.VisType <;> cases hs : s.SamplingPattern <;>
      exact ⟨by decide, by decide, by decide, by decide, rfl, rfl⟩

/-! ## The consumer phase of the realtime driver -/

/-- C19: without a render state the consumer phase does nothing, so it neither waits nor reads;
the render state that the producer phase of a frame leaves always holds the trace task of that
frame; and with a render state that holds a task every upload of the pixel data comes after the
wait for that task, and the buffer read is the queued one. -/
theorem PostRender_waits_before_upload :
    (∀ b : Bool, PostRenderViewFamily_RenderThread none b = [])
    ∧ (∀ (st : FGameThreadState) (Size : FIntPoint),
        (BeginRenderViewFamily st Size).2.TraceTask = some st.TasksDispatched.length)
    ∧ ∀ (RenderState : FRenderState) (b : Bool) (Task Buffer : Nat)
        (Before After : List FRenderThreadEvent),
        RenderState.TraceTask = some Task →
        PostRenderViewFamily_RenderThread (some RenderState) b
          = Before ++ FRenderThreadEvent.UploadPixelData Buffer :: After →
        FRenderThreadEvent.WaitUntilTaskCompletes Task ∈ Before
          ∧ Buffer = RenderState.FramebufferRenderThreadQueued := by
  refine ⟨fun b => rfl, fun st Size => rfl, ?_⟩
  intro RenderState b Task Buffer Before After hT hE
  simp only [PostRenderViewFamily_RenderThread, hT] at hE
  cases b with
  | false =>
    simp only [Bool.not_false, if_true] at hE
    have hmem : FRenderThreadEvent.UploadPixelData Buffer
        ∈ [FRenderThreadEvent.SetFramebufferRenderThread
            RenderState.FramebufferRenderThreadQueued,
           FRenderThreadEvent.WaitUntilTaskCompletes Task] := by
      rw [hE]
      simp
    simp at hmem
  | true =>
    simp only [Bool.not_true, Bool.false_eq_true, if_false] at hE
    rcases Before with _ | ⟨b0, _ | ⟨b1, _ | ⟨b2, rest⟩⟩⟩
    · simp at hE
    · simp at hE
    · simp only [List.cons_append, List.nil_append, List.cons.injEq] at hE
      obtain ⟨-, h1, h2, -⟩ := hE
      simp only [FRenderThreadEvent.UploadPixelData.injEq] at h2
      exact ⟨by rw [← h1]; simp, h2.symm⟩
    · simp only [List.cons_append, List.nil_append, List.cons.injEq] at hE
      obtain ⟨-, -, h2, h3⟩ := hE
      rcases rest with _ | ⟨b3, rest2⟩
      · simp at h3
      · simp at h3

/-- C19 (instance): a render state with the task 7 and the buffer 3, with a view family
texture. -/
theorem PostRender_waits_before_upload_witness :
    FRenderThreadEvent.WaitUntilTaskCompletes 7
        ∈ [FRenderThreadEvent.SetFramebufferRenderThread 3,
            FRenderThreadEvent.WaitUntilTaskCompletes 7]
      ∧ 3 = (FRenderState.mk (some 7) 3).FramebufferRenderThreadQueued :=
  PostRender_waits_before_upload.2.2 ⟨some 7, 3⟩ true 7 3
    [FRenderThreadEvent.SetFramebufferRenderThread 3,
      FRenderThreadEvent.WaitUntilTaskCompletes 7]
    [FRenderThreadEvent.AddFullscreenPass] rfl rfl

/-! ## Initialisation of the offline driver -/

theorem wrapU64_of_lt (n : Int) (h0 : 0 ≤ n) (h1 : n < 18446744073709551616) :
    wrapU64 n = n.toNat := by
  unfold wrapU64
  congr 1
  omega

/-- Rounded-up division of naturals is the ceiling of the quotient. -/
theorem add_pred_div_eq_ceil (a m : Nat) (hm : 0 < m) :
    (((a + m - 1) / m : Nat) : Int) = ⌈(a : ℚ) / (m : ℚ)⌉ := by
  symm
  rw [Int.ceil_eq_iff]
  have hmq : (0 : ℚ) < (m : ℚ) := by exact_mod_cast hm
  have h1 : m * ((a + m - 1) / m) ≤ a + m - 1 := Nat.mul_div_le _ _
  have h2 : a + m - 1 < m * ((a + m - 1) / m) + m := by
    have := Nat.lt_div_mul_add (a := a + m - 1) hm
    rw [Nat.mul_comm] at this
    exact this
  set z := (a + m - 1) / m with hz
  constructor
  · rw [lt_div_iff₀ hmq]
    have : ((m * z : Nat) : ℚ) < (a : ℚ) + (m : ℚ) := by
      have : m * z < a + m := by omega
      exact_mod_cast this
    push_cast at this ⊢
    linarith
  · rw [div_le_iff₀ hmq]
    have : ((a : Nat) : ℚ) ≤ ((m * z : Nat) : ℚ) := by
      have : a ≤ m * z := by omega
      exact_mod_cast this
    push_cast at this ⊢
    linarith

/-- The number of iterations in terms of the resolution and the budget after the cubemap
adjustment, for `int32` values in their non-negative range. -/
theorem OfflineMaxIterations_eq (s : FSDOfflineCollisionSettings) (hR0 : 0 ≤ s.Resolution)
    (hR1 : s.Resolution < 2147483648) (hB0 : 1 ≤ (OfflineBudget s).MaxRaysPerFrame)
    (hB1 : (OfflineBudget s).MaxRaysPerFrame < 2147483648) :
    OfflineMaxIterations s
      = (s.Resolution.toNat * s.Resolution.toNat + (OfflineBudget s).MaxRaysPerFrame.toNat - 1)
          / (OfflineBudget s).MaxRaysPerFrame.toNat := by
  have hRes : (OfflineBudget s).Resolution = s.Resolution := by
    unfold OfflineBudget
    split_ifs <;> rfl
  unfold OfflineMaxIterations DivideAndRoundUp
  rw [hRes]
  have e1 : wrapU64 s.Resolution = s.Resolution.toNat := wrapU64_of_lt _ hR0 (by omega)
  have e2 : wrapU64 (OfflineBudget s).MaxRaysPerFrame = (OfflineBudget s).MaxRaysPerFrame.toNat :=
    wrapU64_of_lt _ (by omega) (by omega)
  have hRR : s.Resolution.toNat * s.Resolution.toNat ≤ 2147483647 * 2147483647 :=
    Nat.mul_le_mul (by omega) (by omega)
  rw [e1, e2]
  have e3 : wrapU64 ((s.Resolution.toNat * s.Resolution.toNat : Nat) : Int)
      = s.Resolution.toNat * s.Resolution.toNat := by
    unfold wrapU64
    omega
  rw [e3]
  have e4 : wrapU64 (((s.Resolution.toNat * s.Resolution.toNat : Nat) : Int)
      + (((OfflineBudget s).MaxRaysPerFrame.toNat : Nat) : Int) - 1)
      = s.Resolution.toNat * s.Resolution.toNat + (OfflineBudget s).MaxRaysPerFrame.toNat - 1 := by
    unfold wrapU64
    omega
  rw [e4]

/-- C13 (counterexample): in cubemap mode with resolution 32 and the budget 4 the driver runs
1024 iterations, while `ceil(R * R / (B / 6))` is 1536 with an exact quotient `B / 6` and has
the divisor 0 with an integer one. -/
theorem Cubemap_iterations_small_budget :
    OfflineMaxIterations ⟨FSDCollisionSettings.Init, 32, 4, true⟩ = 1024
    ∧ ⌈((32 * 32 : Int) : ℚ) / ((4 : ℚ) / 6)⌉ = 1536
    ∧ (4 : Int) / 6 = 0 := by
  refine ⟨by decide, ?_, by decide⟩
  rw [Int.ceil_eq_iff]
  norm_num

/-- C13 (amended): in cubemap mode with a resolution `R` and a budget `B ≥ 1` (both `int32`),
the number of iterations is `ceil(R * R / max(1, floor(B / 6)))`. -/
theorem Cubemap_iterations (Settings : FSDCollisionSettings) (R B : Int) (hR0 : 0 ≤ R)
    (hR1 : R < 2147483648) (hB0 : 1 ≤ B) (hB1 : B < 2147483648) :
    (OfflineMaxIterations ⟨Settings, R, B, true⟩ : Int)
      = ⌈((R * R : Int) : ℚ) / ((max 1 (B / 6) : Int) : ℚ)⌉ := by
  have hbud : (OfflineBudget ⟨Settings, R, B, true⟩).MaxRaysPerFrame = max 1 (B / 6) := by
    simp only [OfflineBudget, if_true]
    congr 1
    exact Int.tdiv_eq_ediv (le_trans (by norm_num) hB0) (by norm_num)
  have hm1 : (1 : Int) ≤ max 1 (B / 6) := le_max_left _ _
  have hm2 : max 1 (B / 6) < 2147483648 := by
    apply max_lt (by norm_num)
    omega
  rw [OfflineMaxIterations_eq _ hR0 hR1 (by rw [hbud]; exact hm1) (by rw [hbud]; exact hm2), hbud]
  rw [add_pred_div_eq_ceil _ _ (by omega)]
  congr 2
  · have hRn : ((R.toNat : Nat) : ℚ) = (R : ℚ) := by
      exact_mod_cast congrArg (fun z : Int => (z : ℚ)) (Int.toNat_of_nonneg hR0)
    push_cast
    rw [hRn]
  · have : ((max 1 (B / 6)).toNat : Int) = max 1 (B / 6) := Int.toNat_of_nonneg (by omega)
    exact_mod_cast congrArg (fun z : Int => (z : ℚ)) this

theorem Cubemap_iterations_witness :
    (OfflineMaxIterations ⟨FSDCollisionSettings.Init, 32, 13, true⟩ : Int)
      = ⌈((32 * 32 : Int) : ℚ) / ((max 1 (13 / 6) : Int) : ℚ)⌉ :=
  Cubemap_iterations FSDCollisionSettings.Init 32 13 (by decide) (by decide) (by decide)
    (by decide)

/-- C14: in cubemap mode six (renderer, buffer) pairs are built, in single-view mode one; every
buffer has the dimensions `R x R` and `R * R` zeroed pixels, every renderer views the pixels of
its buffer, and in cubemap mode every renderer holds `RevViewForward` of the renderer of
face 0, which is the one computed for the view of face 0. -/
theorem OfflinePairs_built (Settings : FSDCollisionSettings) (R B : Int) (Origin : FVector)
    (Views : Nat → FOfflineView) :
    (OfflinePairs ⟨Settings, R, B, true⟩ Origin Views).length = 6
    ∧ (∀ p ∈ OfflinePairs ⟨Settings, R, B, true⟩ Origin Views,
        p.2.Dimensions = ⟨R, R⟩
        ∧ p.2.PixelData = List.replicate (R * R).toNat FColor.Zeroed
        ∧ p.1.RenderTargetSize = ⟨R, R⟩
        ∧ p.1.PixelData = p.2.PixelData
        ∧ p.1.RevViewForward = (Views 0).RevViewForward)
    ∧ ((OfflinePairs ⟨Settings, R, B, true⟩ Origin Views).head?.map
        (fun p => p.1.RevViewForward) = some (Views 0).RevViewForward)
    ∧ (OfflinePairs ⟨Settings, R, B, false⟩ Origin Views).length = 1
    ∧ (∀ p ∈ OfflinePairs ⟨Settings, R, B, false⟩ Origin Views,
        p.2.Dimensions = ⟨R, R⟩
        ∧ p.2.PixelData = List.replicate (R * R).toNat FColor.Zeroed
        ∧ p.1.RenderTargetSize = ⟨R, R⟩
        ∧ p.1.PixelData = p.2.PixelData) := by
  refine ⟨rfl, ?_, rfl, rfl, ?_⟩
  · intro p hp
    simp only [OfflinePairs, if_true, List.range, List.range.loop, List.map, List.mem_cons,
      List.mem_singleton, List.not_mem_nil, or_false] at hp
    rcases hp with h | h | h | h | h | h <;> subst h <;> exact ⟨rfl, rfl, rfl, rfl, rfl⟩
  · intro p hp
    simp only [OfflinePairs, Bool.false_eq_true, if_false, List.mem_singleton] at hp
    subst hp
    exact ⟨rfl, rfl, rfl, rfl⟩

/-! ## The tile loop of the realtime driver -/

theorem StoreIndex_eq_some (r : FPerspectiveRenderer) (PixelPos : FIntPoint) (a : Int) :
    r.StoreIndex PixelPos = some a ↔
      (PixelPos.X < r.RenderTargetSize.X ∧ PixelPos.Y < r.RenderTargetSize.Y)
        ∧ a = PixelPos.Y * r.RenderTargetSize.X + PixelPos.X := by
  unfold FPerspectiveRenderer.StoreIndex
  split_ifs with h
  · simp only [Option.some.injEq, h, true_and]
    exact eq_comm
  · simp [h]

/-- The pixel data after `RenderPerspectivePixel` in terms of the index of its store. -/
theorem RenderPerspectivePixel_eq_store (r : FPerspectiveRenderer)
    (VisType : EVisualisationType) (PixelPos : FIntPoint) :
    r.RenderPerspectivePixel VisType PixelPos
      = match r.StoreIndex PixelPos with
        | none => some r.PixelData
        | some Index =>
          if 0 ≤ Index ∧ Index < r.PixelData.length then
            some (r.PixelData.set Index.toNat (r.WritebackColour VisType PixelPos))
          else none := by
  unfold FPerspectiveRenderer.RenderPerspectivePixel FPerspectiveRenderer.StoreIndex
  split_ifs <;> rfl

/-- The sample position of a tile lies in the tile, for either pattern and an effective tile
size. -/
theorem NextTileSamplePosition_in_tile (p : ESamplingPattern) (Tile : FIntPoint)
    (T FrameId : Nat) (hT0 : 2 ≤ T) (hT1 : T ≤ 128) :
    Tile.X ≤ (NextTileSamplePosition p Tile T FrameId).X
    ∧ (NextTileSamplePosition p Tile T FrameId).X < Tile.X + T
    ∧ Tile.Y ≤ (NextTileSamplePosition p Tile T FrameId).Y
    ∧ (NextTileSamplePosition p Tile T FrameId).Y < Tile.Y + T := by
  cases p with
  | Linear =>
    rw [NextTileSamplePosition_Linear_eq Tile T FrameId (by omega) (by omega)]
    have h1 : FrameId % T < T := Nat.mod_lt _ (by omega)
    have h2 : FrameId / T % T < T := Nat.mod_lt _ (by omega)
    simp only []
    omega
  | R2 =>
    obtain ⟨-, x2, x3⟩ := R2Offset_bounds R2G1 R2G1_ge_half
      (SimpleHash32 ⟨wrapU32 Tile.X, wrapU32 Tile.Y, 0⟩) T FrameId hT0 hT1
    obtain ⟨-, y2, y3⟩ := R2Offset_bounds R2G2 R2G2_ge_half
      (SimpleHash32 ⟨wrapU32 Tile.X, wrapU32 Tile.Y, 0⟩) T FrameId hT0 hT1
    simp only [NextTileSamplePosition]
    omega

/-- A coordinate lies in at most one tile of the grid. -/
theorem tile_of_coordinate (T : Int) (hT : 0 < T) (i i2 : Nat) (x : Int)
    (h1 : (i : Int) * T ≤ x) (h2 : x < (i : Int) * T + T)
    (h3 : (i2 : Int) * T ≤ x) (h4 : x < (i2 : Int) * T + T) : i = i2 := by
  by_contra hc
  rcases Nat.lt_or_gt_of_ne hc with hlt | hgt
  · have : ((i : Int) + 1) * T ≤ (i2 : Int) * T :=
      mul_le_mul_of_nonneg_right (by omega) hT.le
    linarith
  · have : ((i2 : Int) + 1) * T ≤ (i : Int) * T :=
      mul_le_mul_of_nonneg_right (by omega) hT.le
    linarith

/-- Row-major indices of pixels with columns inside the row are different for different
pixels. -/
theorem row_major_injective (W x y x2 y2 : Int) (hx0 : 0 ≤ x) (hx1 : x < W) (hx20 : 0 ≤ x2)
    (hx21 : x2 < W) (h : y * W + x = y2 * W + x2) : x = x2 ∧ y = y2 := by
  have hW : 0 < W := by omega
  have hy : y = y2 := by
    by_contra hne2
    rcases lt_or_gt_of_ne hne2 with hlt | hgt
    · have : (y + 1) * W ≤ y2 * W := mul_le_mul_of_nonneg_right (by omega) hW.le
      linarith
    · have : (y2 + 1) * W ≤ y * W := mul_le_mul_of_nonneg_right (by omega) hW.le
      linarith
  rw [hy] at h
  exact ⟨by linarith, hy⟩

/-- C15: for a renderer with an effective tile size `T` in `[2, 128]`, any frame id and either
sampling pattern, a tile of the grid stores to at most one index, that of a pixel inside the
tile's own `T x T` region and inside the target, nothing else of the pixel data changes, and two
different tiles of the grid never store to the same index. -/
theorem Tiles_store_disjoint (r : FPerspectiveRenderer) (p : ESamplingPattern)
    (VisType : EVisualisationType) (i j i2 j2 : Nat)
    (hT0 : 2 ≤ r.Settings.TileSize) (hT1 : r.Settings.TileSize ≤ 128)
    (hne : (i, j) ≠ (i2, j2)) :
    (∀ a : Int,
      r.TileStoreIndex p ⟨(i * r.Settings.TileSize : Nat), (j * r.Settings.TileSize : Nat)⟩
        = some a →
      ∃ x y : Int,
        ((i * r.Settings.TileSize : Nat) : Int) ≤ x
        ∧ x < ((i * r.Settings.TileSize + r.Settings.TileSize : Nat) : Int)
        ∧ ((j * r.Settings.TileSize : Nat) : Int) ≤ y
        ∧ y < ((j * r.Settings.TileSize + r.Settings.TileSize : Nat) : Int)
        ∧ x < r.RenderTargetSize.X ∧ y < r.RenderTargetSize.Y
        ∧ a = y * r.RenderTargetSize.X + x)
    ∧ (r.TileStoreIndex p ⟨(i * r.Settings.TileSize : Nat), (j * r.Settings.TileSize : Nat)⟩
          = none →
        r.RenderPerspectiveTilePixel p VisType
          ⟨(i * r.Settings.TileSize : Nat), (j * r.Settings.TileSize : Nat)⟩
          = some r.PixelData)
    ∧ (∀ (a : Int) (out : List FColor),
        r.TileStoreIndex p ⟨(i * r.Settings.TileSize : Nat), (j * r.Settings.TileSize : Nat)⟩
          = some a →
        r.RenderPerspectiveTilePixel p VisType
          ⟨(i * r.Settings.TileSize : Nat), (j * r.Settings.TileSize : Nat)⟩ = some out →
        ∀ k : Nat, (k : Int) ≠ a → out[k]? = r.PixelData[k]?)
    ∧ (∀ a b : Int,
        r.TileStoreIndex p ⟨(i * r.Settings.TileSize : Nat), (j * r.Settings.TileSize : Nat)⟩
          = some a →
        r.TileStoreIndex p ⟨(i2 * r.Settings.TileSize : Nat), (j2 * r.Settings.TileSize : Nat)⟩
          = some b →
        a ≠ b) := by
  set T := r.Settings.TileSize with hT
  have hpos := fun (u v : Nat) => NextTileSamplePosition_in_tile p
    ⟨((u * T : Nat) : Int), ((v * T : Nat) : Int)⟩ T r.Settings.FrameId hT0 hT1
  refine ⟨?_, ?_, ?_, ?_⟩
  · intro a ha
    unfold FPerspectiveRenderer.TileStoreIndex at ha
    rw [← hT, StoreIndex_eq_some] at ha
    obtain ⟨⟨hx, hy⟩, rfl⟩ := ha
    obtain ⟨p1, p2, p3, p4⟩ := hpos i j
    simp only [] at p1 p2 p3 p4
    refine ⟨_, _, p1, ?_, p3, ?_, hx, hy, rfl⟩
    · push_cast
      push_cast at p2
      exact p2
    · push_cast
      push_cast at p4
      exact p4
  · intro hnone
    unfold FPerspectiveRenderer.RenderPerspectiveTilePixel
    unfold FPerspectiveRenderer.TileStoreIndex at hnone
    rw [RenderPerspectivePixel_eq_store, hnone]
  · intro a out ha hout k hk
    unfold FPerspectiveRenderer.RenderPerspectiveTilePixel at hout
    unfold FPerspectiveRenderer.TileStoreIndex at ha
    rw [RenderPerspectivePixel_eq_store, ha] at hout
    simp only [] at hout
    split_ifs at hout with hr
    simp only [Option.some.injEq] at hout
    rw [← hout]
    apply List.getElem?_set_ne
    omega
  · intro a b ha hb hab
    unfold FPerspectiveRenderer.TileStoreIndex at ha hb
    rw [← hT, StoreIndex_eq_some] at ha hb
    obtain ⟨⟨hx, hy⟩, ea⟩ := ha
    obtain ⟨⟨hx2, hy2⟩, eb⟩ := hb
    obtain ⟨p1, p2, p3, p4⟩ := hpos i j
    obtain ⟨q1, q2, q3, q4⟩ := hpos i2 j2
    simp only [] at p1 p2 p3 p4 q1 q2 q3 q4
    have hi0 : (0 : Int) ≤ ((i * T : Nat) : Int) := Int.ofNat_nonneg _
    have hi20 : (0 : Int) ≤ ((i2 * T : Nat) : Int) := Int.ofNat_nonneg _
    have hTpos : (0 : Int) < (T : Int) := by omega
    generalize NextTileSamplePosition p ⟨((i * T : Nat) : Int), ((j * T : Nat) : Int)⟩ T
      r.Settings.FrameId = P at ea hx hy p1 p2 p3 p4
    generalize NextTileSamplePosition p ⟨((i2 * T : Nat) : Int), ((j2 * T : Nat) : Int)⟩ T
      r.Settings.FrameId = Q at eb hx2 hy2 q1 q2 q3 q4
    obtain ⟨hX, hY⟩ := row_major_injective r.RenderTargetSize.X P.X P.Y Q.X Q.Y
      (le_trans hi0 p1) hx (le_trans hi20 q1) hx2 (by rw [← ea, ← eb, hab])
    rw [hX] at p1 p2
    rw [hY] at p3 p4
    push_cast at p1 p2 p3 p4 q1 q2 q3 q4
    have hii := tile_of_coordinate T hTpos i i2 _ p1 p2 q1 q2
    have hjj := tile_of_coordinate T hTpos j j2 _ p3 p4 q3 q4
    exact hne (by rw [hii, hjj])

/-- C15 (instance): the 4 x 4 renderer with the tile size 3 and the Linear pattern at frame 0;
the tiles (0, 0) and (1, 0) store to the indices 0 and 3. -/
theorem Tiles_store_disjoint_witness :
    2 ≤ LinearSettings3.TileSize ∧ LinearSettings3.TileSize ≤ 128
    ∧ ((0, 0) : Nat × Nat) ≠ (1, 0)
    ∧ FPerspectiveRenderer.TileStoreIndex { SmallRenderer with Settings := LinearSettings3 }
        ESamplingPattern.Linear
        ⟨(0 * LinearSettings3.TileSize : Nat), (0 * LinearSettings3.TileSize : Nat)⟩ = some 0
    ∧ FPerspectiveRenderer.TileStoreIndex { SmallRenderer with Settings := LinearSettings3 }
        ESamplingPattern.Linear
        ⟨(1 * LinearSettings3.TileSize : Nat), (0 * LinearSettings3.TileSize : Nat)⟩ = some 3
    ∧ ∀ a b : Int,
      FPerspectiveRenderer.TileStoreIndex { SmallRenderer with Settings := LinearSettings3 }
          ESamplingPattern.Linear
          ⟨(0 * LinearSettings3.TileSize : Nat), (0 * LinearSettings3.TileSize : Nat)⟩ = some a →
      FPerspectiveRenderer.TileStoreIndex { SmallRenderer with Settings := LinearSettings3 }
          ESamplingPattern.Linear
          ⟨(1 * LinearSettings3.TileSize : Nat), (0 * LinearSettings3.TileSize : Nat)⟩ = some b →
      a ≠ b :=
  ⟨by decide, by decide, by decide, by decide, by decide,
    (Tiles_store_disjoint { SmallRenderer with Settings := LinearSettings3 }
      ESamplingPattern.Linear EVisualisationType.Default 0 0 1 0
      (by decide) (by decide) (by decide)).2.2.2⟩

/-! ## The trace tasks of the offline driver -/

theorem OfflinePainted_ready (VisType : EVisualisationType) (R n : Nat)
    (r : FPerspectiveRenderer) (h : OfflineReady R r) :
    OfflineReady R (OfflinePainted VisType R n r) := by
  obtain ⟨h1, h2⟩ := h
  exact ⟨h1, by simp [OfflinePainted, h2]⟩

theorem OfflinePainted_zero (VisType : EVisualisationType) (R : Nat) (r : FPerspectiveRenderer) :
    OfflinePainted VisType R 0 r = r := by
  unfold OfflinePainted
  have : r.PixelData.mapIdx (fun k c =>
      if k < 0 then r.WritebackColour VisType ⟨((k % R : Nat) : Int), ((k / R : Nat) : Int)⟩
      else c) = r.PixelData := by
    apply List.ext_getElem?
    intro k
    rw [List.getElem?_mapIdx]
    cases r.PixelData[k]? <;> simp
  rw [this]

/-- Rendering the pixel with the row-major index `n` takes the state after `n` pixels to the
state after `n + 1` pixels; an index beyond the target changes nothing. -/
theorem OfflinePainted_step (VisType : EVisualisationType) (R n : Nat)
    (r : FPerspectiveRenderer) (hR : 1 ≤ R) (h : OfflineReady R r) :
    (OfflinePainted VisType R n r).RenderPerspectivePixel VisType
        ⟨((n % R : Nat) : Int), ((n / R : Nat) : Int)⟩
      = some (OfflinePainted VisType R (n + 1) r).PixelData := by
  obtain ⟨h1, h2⟩ := h
  have hlen : (OfflinePainted VisType R n r).PixelData.length = R * R := by
    simp [OfflinePainted, h2]
  have hsize : (OfflinePainted VisType R n r).RenderTargetSize = ⟨(R : Int), (R : Int)⟩ := h1
  have hmod : n % R < R := Nat.mod_lt _ (by omega)
  by_cases hn : n < R * R
  · have hdiv : n / R < R := Nat.div_lt_of_lt_mul hn
    have hidx : ((n / R : Nat) : Int) * (R : Int) + ((n % R : Nat) : Int) = (n : Int) := by
      have := Nat.div_add_mod n R
      have e : (((R * (n / R) + n % R : Nat)) : Int) = (n : Int) := by rw [this]
      rw [Nat.cast_add, Nat.cast_mul] at e
      linarith
    unfold FPerspectiveRenderer.RenderPerspectivePixel
    rw [hsize]
    simp only []
    rw [if_pos ⟨by exact_mod_cast hmod, by exact_mod_cast hdiv⟩, hidx, hlen,
      if_pos ⟨by omega, by exact_mod_cast hn⟩]
    congr 1
    apply List.ext_getElem?
    intro k
    simp only [OfflinePainted, Int.toNat_ofNat, List.getElem?_mapIdx]
    by_cases hk : k = n
    · subst hk
      rw [List.getElem?_set_self (by simp [h2, hn])]
      have hlt : k < r.PixelData.length := by omega
      rw [List.getElem?_eq_getElem hlt]
      simp
      rfl
    · rw [List.getElem?_set_ne (Ne.symm hk), List.getElem?_mapIdx]
      cases r.PixelData[k]? with
      | none => rfl
      | some c =>
        simp only [Option.map_some']
        by_cases hkn : k < n
        · rw [if_pos hkn, if_pos (by omega)]
        · rw [if_neg hkn, if_neg (by omega)]
  · have hdiv : R ≤ n / R := by
      rw [Nat.le_div_iff_mul_le (by omega)]
      omega
    have hY : (OfflinePainted VisType R n r).RenderTargetSize.Y ≤ ((n / R : Nat) : Int) := by
      rw [hsize]
      exact Int.ofNat_le.mpr hdiv
    rw [RenderPerspectivePixel_overhang _ _ _ (Or.inr hY)]
    congr 1
    apply List.ext_getElem?
    intro k
    simp only [OfflinePainted, List.getElem?_mapIdx]
    by_cases hk : k < r.PixelData.length
    · rw [List.getElem?_eq_getElem hk]
      simp only [Option.map_some']
      rw [if_pos (by omega), if_pos (by omega)]
    · rw [List.getElem?_eq_none (by omega)]
      rfl

theorem RenderAllFaces_painted (VisType : EVisualisationType) (R n : Nat) (hR : 1 ≤ R)
    (rs : List FPerspectiveRenderer) (hrs : ∀ r ∈ rs, OfflineReady R r) :
    RenderAllFaces VisType ⟨((n % R : Nat) : Int), ((n / R : Nat) : Int)⟩
        (rs.map (OfflinePainted VisType R n))
      = some (rs.map (OfflinePainted VisType R (n + 1))) := by
  induction rs with
  | nil => rfl
  | cons r rest ih =>
    have h1 := OfflinePainted_step VisType R n r hR (hrs r (List.mem_cons_self _ _))
    have h2 := ih (fun x hx => hrs x (List.mem_cons_of_mem _ hx))
    simp only [List.map_cons, RenderAllFaces, h1, h2]
    rfl

theorem RenderAllFaces_overhang (VisType : EVisualisationType) (PixelPos : FIntPoint) (R : Nat)
    (rs : List FPerspectiveRenderer) (hrs : ∀ r ∈ rs, OfflineReady R r)
    (h : (R : Int) ≤ PixelPos.Y) :
    RenderAllFaces VisType PixelPos rs = some rs := by
  induction rs with
  | nil => rfl
  | cons r rest ih =>
    have hY : r.RenderTargetSize.Y ≤ PixelPos.Y := by
      rw [(hrs r (List.mem_cons_self _ _)).1]
      exact h
    have h1 := RenderPerspectivePixel_overhang r VisType PixelPos (Or.inr hY)
    have h2 := ih (fun x hx => hrs x (List.mem_cons_of_mem _ hx))
    simp only [RenderAllFaces, h1, h2]

theorem wrapU64_natCast (n : Nat) (h : n < 18446744073709551616) : wrapU64 (n : Int) = n := by
  unfold wrapU64
  omega

/-- The pixel position of a ray as long as nothing leaves the range of its type. -/
theorem OfflinePixelPos_eq (R B i off : Nat) (hR : 1 ≤ R) (hRR : R * R < 2147483648)
    (hB : B < 2147483648) (hi : B * i < R * R) (hoff : off < B) :
    OfflinePixelPos (B : Int) (R : Int) i off
      = ⟨(((B * i + off) % R : Nat) : Int), (((B * i + off) / R : Nat) : Int)⟩ := by
  have hRlt : R < 2147483648 := by nlinarith
  have e1 : wrapU64 (B : Int) = B := wrapU64_natCast B (by omega)
  have e2 : wrapU64 (R : Int) = R := wrapU64_natCast R (by omega)
  have e3 : wrapU64 ((B * i : Nat) : Int) = B * i := wrapU64_natCast _ (by omega)
  have e4 : wrapU64 ((B * i + off : Nat) : Int) = B * i + off := wrapU64_natCast _ (by omega)
  have hmod : (B * i + off) % R < R := Nat.mod_lt _ (by omega)
  have hdiv : (B * i + off) / R < 2147483648 := by
    apply Nat.div_lt_of_lt_mul
    rcases Nat.lt_or_ge R 2 with h | h
    · have : R = 1 := by omega
      subst this
      omega
    · nlinarith
  unfold OfflinePixelPos
  simp only [e1, e2, e3, e4]
  rw [castInt32_of_small _ (le_trans (by norm_num) (Int.ofNat_nonneg _))
      (by exact_mod_cast (by omega : (B * i + off) % R < 2147483648)),
    castInt32_of_small _ (le_trans (by norm_num) (Int.ofNat_nonneg _)) (by exact_mod_cast hdiv)]

/-- The rays `0 .. k - 1` of iteration `i` take the state after `B * i` pixels to the state after
`B * i + k` pixels. -/
theorem OfflineRays_painted (VisType : EVisualisationType) (R B i : Nat) (hR : 1 ≤ R)
    (hRR : R * R < 2147483648) (hB : B < 2147483648) (hi : B * i < R * R)
    (rs : List FPerspectiveRenderer) (hrs : ∀ r ∈ rs, OfflineReady R r)
    (k : Nat) (hk : k ≤ B) :
    OfflineRays VisType (B : Int) (R : Int) i k (rs.map (OfflinePainted VisType R (B * i)))
      = some (rs.map (OfflinePainted VisType R (B * i + k))) := by
  induction k with
  | zero => rfl
  | succ k ih =>
    rw [OfflineRays, ih (by omega)]
    simp only []
    rw [OfflinePixelPos_eq R B i k hR hRR hB hi (by omega)]
    exact RenderAllFaces_painted VisType R (B * i + k) hR rs hrs

theorem Dispatch_VisType_only (v : EVisualisationType) (s : Int) :
    (FKernelExecutor.mk v.toRaw s).Dispatch TKernelDispatchParameters.Base EKD_VisType
      = FDispatchResult.Returned [⟨v, ESamplingPattern.Linear⟩] := by
  cases v <;> rfl

/-- The trace task of iteration `i` takes the state after `B * i` pixels to the state after
`B * (i + 1)` pixels. -/
theorem OfflineTraceTask_painted (VisType : EVisualisationType) (s : Int) (R B i : Nat)
    (hR : 1 ≤ R) (hRR : R * R < 2147483648) (hB : B < 2147483648) (hi : B * i < R * R)
    (rs : List FPerspectiveRenderer) (hrs : ∀ r ∈ rs, OfflineReady R r) :
    OfflineTraceTask ⟨VisType.toRaw, s⟩ (B : Int) (R : Int) i
        (rs.map (OfflinePainted VisType R (B * i)))
      = some (rs.map (OfflinePainted VisType R (B * (i + 1)))) := by
  unfold OfflineTraceTask
  rw [Dispatch_VisType_only]
  simp only [List.foldl_cons, List.foldl_nil, OfflineKernel, Int.toNat_ofNat]
  rw [OfflineRays_painted VisType R B i hR hRR hB hi rs hrs B le_rfl]
  rw [Nat.mul_succ]

/-- The iterations below the iteration count start inside the buffer. -/
theorem iteration_starts_inside (R B i : Nat) (hB : 1 ≤ B) (hi : i < (R * R + B - 1) / B) :
    B * i < R * R := by
  have h1 : i + 1 ≤ (R * R + B - 1) / B := hi
  rw [Nat.le_div_iff_mul_le (by omega)] at h1
  have h2 : (i + 1) * B = B * i + B := by ring
  omega

/-- The iterations `0 .. n - 1` take the initial renderers to the state after `B * n` pixels. -/
theorem OfflineIterations_painted (VisType : EVisualisationType) (s : Int) (R B : Nat)
    (hR : 1 ≤ R) (hRR : R * R < 2147483648) (hB0 : 1 ≤ B) (hB : B < 2147483648)
    (rs : List FPerspectiveRenderer) (hrs : ∀ r ∈ rs, OfflineReady R r)
    (n : Nat) (hn : n ≤ (R * R + B - 1) / B) :
    OfflineIterations ⟨VisType.toRaw, s⟩ (B : Int) (R : Int) n rs
      = some (rs.map (OfflinePainted VisType R (B * n))) := by
  induction n with
  | zero =>
    have : rs.map (OfflinePainted VisType R (B * 0)) = rs := by
      rw [Nat.mul_zero]
      conv_rhs => rw [← List.map_id rs]
      apply List.map_congr_left
      intro r _
      exact OfflinePainted_zero VisType R r
    rw [this]
    rfl
  | succ n ih =>
    rw [OfflineIterations, ih (by omega)]
    exact OfflineTraceTask_painted VisType s R B n hR hRR hB
      (iteration_starts_inside R B n hB0 (by omega)) rs hrs

/-- The iteration count times the budget covers the buffer. -/
theorem iterations_cover (R B : Nat) (hB : 1 ≤ B) : R * R ≤ B * ((R * R + B - 1) / B) := by
  have h := Nat.div_add_mod (R * R + B - 1) B
  have h2 : (R * R + B - 1) % B < B := Nat.mod_lt _ (by omega)
  omega

theorem OfflinePainted_getElem (VisType : EVisualisationType) (R n idx : Nat)
    (r : FPerspectiveRenderer) (h : OfflineReady R r) (h1 : idx < R * R) (h2 : idx < n) :
    (OfflinePainted VisType R n r).PixelData[idx]?
      = some (r.WritebackColour VisType ⟨((idx % R : Nat) : Int), ((idx / R : Nat) : Int)⟩) := by
  simp only [OfflinePainted, List.getElem?_mapIdx]
  rw [List.getElem?_eq_getElem (by rw [h.2]; exact h1)]
  simp only [Option.map_some']
  rw [if_pos h2]

/-! ## The ticks of the offline driver -/

theorem OfflineTickerAfter_zero (VisType : EVisualisationType) (R B : Nat) (t : FOfflineTicker)
    (h1 : t.Iteration = 0) (h2 : t.TraceTask = none) :
    OfflineTickerAfter VisType R B t 0 = t := by
  have : t.Renderers.map (OfflinePainted VisType R (B * 0)) = t.Renderers := by
    rw [Nat.mul_zero]
    conv_rhs => rw [← List.map_id t.Renderers]
    apply List.map_congr_left
    intro r _
    exact OfflinePainted_zero VisType R r
  unfold OfflineTickerAfter
  rw [this]
  cases t
  simp only at h1 h2
  subst h1 h2
  rfl

/-- A tick below the iteration count dispatches the task of its iteration and keeps the ticker
scheduled. -/
theorem Tick_tracing (VisType : EVisualisationType) (sp : Int) (R B : Nat) (t : FOfflineTicker)
    (hR : 1 ≤ R) (hRR : R * R < 2147483648) (hB0 : 1 ≤ B) (hB : B < 2147483648)
    (hE : t.Executor = ⟨VisType.toRaw, sp⟩) (hSB : t.Settings.MaxRaysPerFrame = (B : Int))
    (hSR : t.Settings.Resolution = (R : Int)) (hM : t.MaxIterations = (R * R + B - 1) / B)
    (hrs : ∀ r ∈ t.Renderers, OfflineReady R r) (k : Nat) (hk : k < t.MaxIterations) :
    (OfflineTickerAfter VisType R B t k).Tick true = some (OfflineTracingTick VisType R B t k) := by
  have hstart : B * k < R * R := iteration_starts_inside R B k hB0 (hM ▸ hk)
  have hkk : k < 2147483648 := by nlinarith
  have hw : wrapU64 ((k : Int) + 1) = k + 1 := by
    unfold wrapU64
    omega
  have htask := OfflineTraceTask_painted VisType sp R B k hR hRR hB hstart t.Renderers hrs
  unfold FOfflineTicker.Tick
  simp only [OfflineTickerAfter, Bool.not_true, Bool.false_eq_true, if_false, hE, hSB, hSR,
    htask, hw, if_neg (Nat.ne_of_lt hk)]
  cases k <;> simp only [OfflineTracingTick, OfflineTickerAfter, OfflineWaited, hE]

/-- The tick at the iteration count writes the output and ends the ticker. -/
theorem Tick_writing (VisType : EVisualisationType) (R B : Nat) (t : FOfflineTicker) :
    (OfflineTickerAfter VisType R B t t.MaxIterations).Tick true
      = some (OfflineWritingTick VisType R B t) := by
  unfold FOfflineTicker.Tick OfflineWritingTick
  simp only [OfflineTickerAfter, Bool.not_true, Bool.false_eq_true, if_false, if_true]
  generalize t.MaxIterations = m
  cases m <;> simp only [OfflineWaited]

/-- The run of the ticker from the state after `k` tracing ticks. -/
theorem RunOfflineTicker_from (VisType : EVisualisationType) (sp : Int) (R B : Nat)
    (t : FOfflineTicker)
    (hR : 1 ≤ R) (hRR : R * R < 2147483648) (hB0 : 1 ≤ B) (hB : B < 2147483648)
    (hE : t.Executor = ⟨VisType.toRaw, sp⟩) (hSB : t.Settings.MaxRaysPerFrame = (B : Int))
    (hSR : t.Settings.Resolution = (R : Int)) (hM : t.MaxIterations = (R * R + B - 1) / B)
    (hrs : ∀ r ∈ t.Renderers, OfflineReady R r) (d : Nat) :
    ∀ (k fuel : Nat), k + d = t.MaxIterations → d + 1 ≤ fuel →
      RunOfflineTicker fuel (OfflineTickerAfter VisType R B t k)
        = some ((List.range' k d).map (OfflineTracingTick VisType R B t)
            ++ [OfflineWritingTick VisType R B t]) := by
  induction d with
  | zero =>
    intro k fuel hk hfuel
    obtain ⟨f, rfl⟩ : ∃ f, fuel = f + 1 := ⟨fuel - 1, by omega⟩
    have hk2 : k = t.MaxIterations := by omega
    subst hk2
    rw [RunOfflineTicker, Tick_writing]
    rfl
  | succ d ih =>
    intro k fuel hk hfuel
    obtain ⟨f, rfl⟩ : ∃ f, fuel = f + 1 := ⟨fuel - 1, by omega⟩
    rw [RunOfflineTicker, Tick_tracing VisType sp R B t hR hRR hB0 hB hE hSB hSR hM hrs k (by omega)]
    simp only [OfflineTracingTick, if_true]
    rw [ih (k + 1) f (by omega) (by omega)]
    rfl

theorem Dispatched_tracing (VisType : EVisualisationType) (R B : Nat) (t : FOfflineTicker)
    (k : Nat) :
    (OfflineTracingTick VisType R B t k).Events.filterMap FOfflineEvent.Dispatched = [k] := by
  cases k <;> rfl

theorem Dispatched_writing (VisType : EVisualisationType) (R B : Nat) (t : FOfflineTicker) :
    (OfflineWritingTick VisType R B t).Events.filterMap FOfflineEvent.Dispatched = [] := by
  unfold OfflineWritingTick
  generalize t.MaxIterations = m
  cases m <;> rfl

theorem Dispatched_run (VisType : EVisualisationType) (R B : Nat) (t : FOfflineTicker)
    (L : List Nat) :
    ((L.map (OfflineTracingTick VisType R B t) ++ [OfflineWritingTick VisType R B t]).map
        (fun res => res.Events.filterMap FOfflineEvent.Dispatched)).flatten = L := by
  induction L with
  | nil => simp [Dispatched_writing]
  | cons a L ih =>
    simp only [List.map_cons, List.cons_append, List.flatten_cons, Dispatched_tracing]
    rw [ih]
    rfl

/-! ## The offline driver as a whole -/

theorem OfflineBudget_Resolution (s : FSDOfflineCollisionSettings) :
    (OfflineBudget s).Resolution = s.Resolution := by
  unfold OfflineBudget
  split_ifs <;> rfl

theorem OfflinePair_ready (s : FSDOfflineCollisionSettings) (Origin : FVector)
    (v : FOfflineView) (R : Nat) (hRes : s.Resolution = (R : Int)) :
    OfflineReady R (OfflinePair s Origin v).1 := by
  have e : ((R : Int) * (R : Int)).toNat = R * R := by
    have : (R : Int) * (R : Int) = ((R * R : Nat) : Int) := by push_cast; ring
    rw [this, Int.toNat_ofNat]
  constructor
  · simp only [OfflinePair, FPerspectiveRenderer.Construct, FRenderBuffer.Init, hRes]
  · simp only [OfflinePair, FPerspectiveRenderer.Construct, FRenderBuffer.Init, hRes,
      List.length_replicate, e]

/-- The renderers that the offline driver starts with view `R x R` targets of `R * R` pixels. -/
theorem OfflineStart_ready (s : FSDOfflineCollisionSettings) (Origin : FVector)
    (Views : Nat → FOfflineView) (R : Nat) (hRes : s.Resolution = (R : Int)) :
    ∀ r ∈ (OfflineStart s Origin Views).Renderers, OfflineReady R r := by
  have hB : (OfflineBudget s).Resolution = (R : Int) := by rw [OfflineBudget_Resolution, hRes]
  intro r hr
  simp only [OfflineStart, OfflinePairs] at hr
  split_ifs at hr with hc
  · simp only [List.range, List.range.loop, List.map, List.mem_cons, List.not_mem_nil,
      or_false] at hr
    rcases hr with h | h | h | h | h | h <;> subst h
    · exact OfflinePair_ready _ Origin (Views 0) R hB
    · exact OfflinePair_ready _ Origin (Views 1) R hB
    · exact OfflinePair_ready _ Origin (Views 2) R hB
    · exact OfflinePair_ready _ Origin (Views 3) R hB
    · exact OfflinePair_ready _ Origin (Views 4) R hB
    · exact OfflinePair_ready _ Origin (Views 5) R hB
  · simp only [List.map, List.mem_singleton] at hr
    subst hr
    exact OfflinePair_ready s Origin _ R hRes

theorem OfflineMaxIterations_nat (s : FSDOfflineCollisionSettings) (R B : Nat)
    (hRes : s.Resolution = (R : Int)) (hBud : (OfflineBudget s).MaxRaysPerFrame = (B : Int))
    (hR : R < 2147483648) (hB0 : 1 ≤ B) (hB : B < 2147483648) :
    OfflineMaxIterations s = (R * R + B - 1) / B := by
  rw [OfflineMaxIterations_eq s (by rw [hRes]; exact Int.ofNat_nonneg _)
    (by rw [hRes]; exact_mod_cast hR) (by rw [hBud]; exact_mod_cast hB0)
    (by rw [hBud]; exact_mod_cast hB), hRes, hBud, Int.toNat_ofNat, Int.toNat_ofNat]

/-- The facts about the registered ticker that the run depends on. -/
theorem OfflineStart_facts (s : FSDOfflineCollisionSettings) (Origin : FVector)
    (Views : Nat → FOfflineView) (R B : Nat)
    (hRes : s.Resolution = (R : Int)) (hBud : (OfflineBudget s).MaxRaysPerFrame = (B : Int))
    (hR : R < 2147483648) (hB0 : 1 ≤ B) (hB : B < 2147483648) :
    (OfflineStart s Origin Views).Executor
        = ⟨s.Settings.VisType.toRaw, ESamplingPattern.Linear.toRaw⟩
    ∧ (OfflineStart s Origin Views).Settings.MaxRaysPerFrame = (B : Int)
    ∧ (OfflineStart s Origin Views).Settings.Resolution = (R : Int)
    ∧ (OfflineStart s Origin Views).MaxIterations = (R * R + B - 1) / B :=
  ⟨rfl, hBud, by rw [← hRes]; exact OfflineBudget_Resolution s,
    OfflineMaxIterations_nat s R B hRes hBud hR hB0 hB⟩

/-- C18: in the offline driver with the resolution `R` and the budget `B` of a tick (after the
cubemap adjustment), ray `off` of iteration `i` has the pixel index `idx = B * i + off` and the
position `(idx % R, idx / R)`; the task of iteration `i` takes every face from the state in
which exactly the pixels below `B * i` are rendered to the state in which exactly those below
`B * (i + 1)` are; after the iterations `0 .. MaxIterations - 1` every pixel of every face holds
the colour computed for its position; every pixel index belongs to exactly one ray of one
iteration; and a ray with an index of `R * R` or more changes no face. -/
theorem Offline_iterations_cover (s : FSDOfflineCollisionSettings) (Origin : FVector)
    (Views : Nat → FOfflineView) (R B : Nat)
    (hRes : s.Resolution = (R : Int)) (hBud : (OfflineBudget s).MaxRaysPerFrame = (B : Int))
    (hR : 1 ≤ R) (hRR : R * R < 2147483648) (hB0 : 1 ≤ B) (hB : B < 2147483648) :
    (∀ i off : Nat, i < (OfflineStart s Origin Views).MaxIterations → off < B →
        OfflinePixelPos (OfflineStart s Origin Views).Settings.MaxRaysPerFrame
            (OfflineStart s Origin Views).Settings.Resolution i off
          = ⟨(((B * i + off) % R : Nat) : Int), (((B * i + off) / R : Nat) : Int)⟩)
    ∧ (∀ i : Nat, i < (OfflineStart s Origin Views).MaxIterations →
        OfflineIterations (OfflineStart s Origin Views).Executor
            (OfflineStart s Origin Views).Settings.MaxRaysPerFrame
            (OfflineStart s Origin Views).Settings.Resolution i
            (OfflineStart s Origin Views).Renderers
          = some ((OfflineStart s Origin Views).Renderers.map
              (OfflinePainted s.Settings.VisType R (B * i)))
        ∧ OfflineTraceTask (OfflineStart s Origin Views).Executor
            (OfflineStart s Origin Views).Settings.MaxRaysPerFrame
            (OfflineStart s Origin Views).Settings.Resolution i
            ((OfflineStart s Origin Views).Renderers.map
              (OfflinePainted s.Settings.VisType R (B * i)))
          = some ((OfflineStart s Origin Views).Renderers.map
              (OfflinePainted s.Settings.VisType R (B * (i + 1)))))
    ∧ (∃ Final : List FPerspectiveRenderer,
        OfflineIterations (OfflineStart s Origin Views).Executor
            (OfflineStart s Origin Views).Settings.MaxRaysPerFrame
            (OfflineStart s Origin Views).Settings.Resolution
            (OfflineStart s Origin Views).MaxIterations
            (OfflineStart s Origin Views).Renderers = some Final
        ∧ Final.length = (OfflineStart s Origin Views).Renderers.length
        ∧ ∀ (Face idx : Nat) (r r2 : FPerspectiveRenderer),
            (OfflineStart s Origin Views).Renderers[Face]? = some r → Final[Face]? = some r2 →
            idx < R * R →
            r2.PixelData.length = R * R
            ∧ r2.PixelData[idx]? = some (r.WritebackColour s.Settings.VisType
                ⟨((idx % R : Nat) : Int), ((idx / R : Nat) : Int)⟩))
    ∧ (∀ idx : Nat, idx < R * R →
        ∃ i off : Nat, i < (OfflineStart s Origin Views).MaxIterations ∧ off < B
          ∧ B * i + off = idx
          ∧ ∀ i2 off2 : Nat, off2 < B → B * i2 + off2 = idx → i2 = i ∧ off2 = off)
    ∧ (∀ (i off : Nat) (rs : List FPerspectiveRenderer),
        i < (OfflineStart s Origin Views).MaxIterations → off < B → R * R ≤ B * i + off →
        (∀ r ∈ rs, OfflineReady R r) →
        RenderAllFaces s.Settings.VisType
            (OfflinePixelPos (OfflineStart s Origin Views).Settings.MaxRaysPerFrame
              (OfflineStart s Origin Views).Settings.Resolution i off) rs = some rs) := by
  have hRlt : R < 2147483648 := by nlinarith
  obtain ⟨hE, hSB, hSR, hM⟩ := OfflineStart_facts s Origin Views R B hRes hBud hRlt hB0 hB
  have hrs := OfflineStart_ready s Origin Views R hRes
  rw [hE, hSB, hSR, hM]
  refine ⟨?_, ?_, ?_, ?_, ?_⟩
  · intro i off hi hoff
    exact OfflinePixelPos_eq R B i off hR hRR hB (iteration_starts_inside R B i hB0 hi) hoff
  · intro i hi
    exact ⟨OfflineIterations_painted _ _ R B hR hRR hB0 hB _ hrs i (le_of_lt hi),
      OfflineTraceTask_painted _ _ R B i hR hRR hB (iteration_starts_inside R B i hB0 hi) _ hrs⟩
  · refine ⟨_, OfflineIterations_painted _ _ R B hR hRR hB0 hB _ hrs _ le_rfl, by simp, ?_⟩
    intro Face idx r r2 h1 h2 hidx
    rw [List.getElem?_map, h1] at h2
    simp only [Option.map_some', Option.some.injEq] at h2
    subst h2
    have hr : OfflineReady R r := hrs r (List.getElem?_mem h1)
    exact ⟨(OfflinePainted_ready _ R _ r hr).2,
      OfflinePainted_getElem _ R _ idx r hr hidx
        (lt_of_lt_of_le hidx (iterations_cover R B hB0))⟩
  · intro idx hidx
    refine ⟨idx / B, idx % B, ?_, Nat.mod_lt _ (by omega), Nat.div_add_mod idx B, ?_⟩
    · apply Nat.div_lt_of_lt_mul
      have := iterations_cover R B hB0
      omega
    · intro i2 off2 h1 h2
      subst h2
      have e1 : (B * i2 + off2) / B = i2 := by
        rw [Nat.mul_add_div (by omega), Nat.div_eq_of_lt h1, Nat.add_zero]
      have e2 : (B * i2 + off2) % B = off2 := by
        rw [Nat.mul_add_mod, Nat.mod_eq_of_lt h1]
      exact ⟨e1.symm, e2.symm⟩
  · intro i off rs hi hoff hbeyond hready
    rw [OfflinePixelPos_eq R B i off hR hRR hB (iteration_starts_inside R B i hB0 hi) hoff]
    apply RenderAllFaces_overhang _ _ R rs hready
    show (R : Int) ≤ (((B * i + off) / R : Nat) : Int)
    apply Int.ofNat_le.mpr
    rw [Nat.le_div_iff_mul_le (by omega)]
    exact hbeyond

/-- The run of the registered ticker: the tracing ticks of the iterations below the iteration
count, then the writing tick. -/
theorem RunOfflineTicker_start (s : FSDOfflineCollisionSettings) (Origin : FVector)
    (Views : Nat → FOfflineView) (R B fuel : Nat)
    (hRes : s.Resolution = (R : Int)) (hBud : (OfflineBudget s).MaxRaysPerFrame = (B : Int))
    (hR : 1 ≤ R) (hRR : R * R < 2147483648) (hB0 : 1 ≤ B) (hB : B < 2147483648)
    (hfuel : (OfflineStart s Origin Views).MaxIterations + 1 ≤ fuel) :
    RunOfflineTicker fuel (OfflineStart s Origin Views)
      = some ((List.range' 0 (OfflineStart s Origin Views).MaxIterations).map
            (OfflineTracingTick s.Settings.VisType R B (OfflineStart s Origin Views))
          ++ [OfflineWritingTick s.Settings.VisType R B (OfflineStart s Origin Views)]) := by
  have hRlt : R < 2147483648 := by nlinarith
  obtain ⟨hE, hSB, hSR, hM⟩ := OfflineStart_facts s Origin Views R B hRes hBud hRlt hB0 hB
  have hrs := OfflineStart_ready s Origin Views R hRes
  have h := RunOfflineTicker_from s.Settings.VisType _ R B (OfflineStart s Origin Views) hR hRR
    hB0 hB hE hSB hSR hM hrs (OfflineStart s Origin Views).MaxIterations 0 fuel (by omega) hfuel
  rw [OfflineTickerAfter_zero _ R B _ rfl rfl] at h
  exact h

/-- C12: in single-view offline mode with the resolution `R` and the budget `B` the iteration
count is `ceil(R * R / B)`, which is 256 for `R = 512` and `B = 1024`.  On a world that stays
valid the ticker is called `MaxIterations + 1` times: each of the first `MaxIterations` calls
dispatches the tracing task of its iteration, advances the iteration counter, writes nothing and
returns `true`; the call after them finds `Iteration == MaxIterations`, writes the output,
dispatches nothing and returns `false`, so that no further call follows.  The tasks dispatched
over the whole run are those of the iterations `0 .. MaxIterations - 1`, one each. -/
theorem Offline_ticker_run (Settings : FSDCollisionSettings) (Origin : FVector)
    (Views : Nat → FOfflineView) (R B : Nat)
    (hR : 1 ≤ R) (hRR : R * R < 2147483648) (hB0 : 1 ≤ B) (hB : B < 2147483648) :
    ((OfflineMaxIterations ⟨Settings, (R : Int), (B : Int), false⟩ : Nat) : Int)
        = ⌈((R * R : Nat) : ℚ) / (B : ℚ)⌉
    ∧ OfflineMaxIterations ⟨Settings, 512, 1024, false⟩ = 256
    ∧ (OfflineStart ⟨Settings, (R : Int), (B : Int), false⟩ Origin Views).MaxIterations
        = OfflineMaxIterations ⟨Settings, (R : Int), (B : Int), false⟩
    ∧ ∃ Results : List FOfflineTickResult,
        (∀ fuel : Nat, OfflineMaxIterations ⟨Settings, (R : Int), (B : Int), false⟩ + 1 ≤ fuel →
          RunOfflineTicker fuel (OfflineStart ⟨Settings, (R : Int), (B : Int), false⟩ Origin Views)
            = some Results)
        ∧ Results.length = OfflineMaxIterations ⟨Settings, (R : Int), (B : Int), false⟩ + 1
        ∧ (∀ k : Nat, k < OfflineMaxIterations ⟨Settings, (R : Int), (B : Int), false⟩ →
            ∃ res : FOfflineTickResult, Results[k]? = some res
              ∧ res.Continue = true
              ∧ res.Ticker.Iteration = k + 1
              ∧ res.Events.filterMap FOfflineEvent.Dispatched = [k]
              ∧ FOfflineEvent.WriteOutput false ∉ res.Events
              ∧ FOfflineEvent.WriteOutput true ∉ res.Events)
        ∧ (∃ res : FOfflineTickResult,
            Results[OfflineMaxIterations ⟨Settings, (R : Int), (B : Int), false⟩]? = some res
              ∧ res.Continue = false
              ∧ res.Ticker.Iteration = OfflineMaxIterations ⟨Settings, (R : Int), (B : Int), false⟩
              ∧ res.Events.filterMap FOfflineEvent.Dispatched = []
              ∧ FOfflineEvent.WriteOutput false ∈ res.Events)
        ∧ (Results.map (fun res => res.Events.filterMap FOfflineEvent.Dispatched)).flatten
            = List.range (OfflineMaxIterations ⟨Settings, (R : Int), (B : Int), false⟩) := by
  have hRlt : R < 2147483648 := by nlinarith
  have hMax : OfflineMaxIterations ⟨Settings, (R : Int), (B : Int), false⟩ = (R * R + B - 1) / B :=
    OfflineMaxIterations_nat _ R B rfl rfl hRlt hB0 hB
  have h256 : OfflineMaxIterations ⟨Settings, 512, 1024, false⟩ = 256 := by
    rw [OfflineMaxIterations_nat ⟨Settings, 512, 1024, false⟩ 512 1024 rfl rfl (by norm_num)
      (by norm_num) (by norm_num)]
  refine ⟨?_, h256, rfl, _, fun fuel hfuel =>
    RunOfflineTicker_start ⟨Settings, (R : Int), (B : Int), false⟩ Origin Views R B fuel rfl rfl
      hR hRR hB0 hB hfuel, ?_, ?_, ?_, ?_⟩
  · rw [hMax]
    exact add_pred_div_eq_ceil (R * R) B hB0
  · simp only [List.length_append, List.length_map, List.length_range', List.length_singleton]
    rfl
  · intro k hk
    refine ⟨OfflineTracingTick Settings.VisType R B
      (OfflineStart ⟨Settings, (R : Int), (B : Int), false⟩ Origin Views) k, ?_, rfl, rfl,
      Dispatched_tracing _ R B _ k, ?_, ?_⟩
    · have hk2 : k < (OfflineStart ⟨Settings, (R : Int), (B : Int), false⟩ Origin
          Views).MaxIterations := hk
      rw [List.getElem?_append_left (by simpa using hk2), List.getElem?_map,
        List.getElem?_range' _ _ hk2]
      simp
    · cases k <;> simp [OfflineTracingTick, OfflineWaited]
    · cases k <;> simp [OfflineTracingTick, OfflineWaited]
  · refine ⟨OfflineWritingTick Settings.VisType R B
      (OfflineStart ⟨Settings, (R : Int), (B : Int), false⟩ Origin Views), ?_, rfl, rfl,
      Dispatched_writing _ R B _, ?_⟩
    · rw [List.getElem?_append_right (by simp [OfflineStart])]
      simp [OfflineStart]
    · simp only [OfflineWritingTick, List.mem_append, List.mem_cons, List.mem_singleton]
      exact Or.inr (Or.inr (Or.inl rfl))
  · rw [Dispatched_run, List.range_eq_range']
    rfl

/-- C12 (instance): the resolution 3 with the budget 4 takes three tracing ticks and the writing
tick. -/
theorem Offline_ticker_run_witness :
    (3 : Nat) * 3 < 2147483648 ∧ (4 : Nat) < 2147483648
    ∧ ∃ Results : List FOfflineTickResult,
        RunOfflineTicker 4
          (OfflineStart ⟨FSDCollisionSettings.Init, ((3 : Nat) : Int), ((4 : Nat) : Int), false⟩
            ⟨0, 0, 0⟩ (fun _ => ⟨MissWorld, ⟨1, 0, 0⟩⟩)) = some Results
        ∧ Results.length = 4 := by
  obtain ⟨Results, hrun, hlen, _⟩ :=
    (Offline_ticker_run FSDCollisionSettings.Init ⟨0, 0, 0⟩ (fun _ => ⟨MissWorld, ⟨1, 0, 0⟩⟩) 3 4
      (by decide) (by decide) (by decide) (by decide)).2.2.2
  exact ⟨by decide, by decide, Results, hrun 4 (by decide), hlen.trans (by decide)⟩

/-- C18 (instance): the cubemap render with the resolution 3 and the configured budget 13 has
the budget 2 in a tick; ray 1 of iteration 4 has the index 9, beyond the buffer. -/
theorem Offline_iterations_cover_witness :
    (3 : Nat) * 3 < 2147483648 ∧ (2 : Nat) < 2147483648
    ∧ OfflinePixelPos
        (OfflineStart ⟨FSDCollisionSettings.Init, 3, 13, true⟩ ⟨0, 0, 0⟩
          (fun _ => ⟨MissWorld, ⟨1, 0, 0⟩⟩)).Settings.MaxRaysPerFrame
        (OfflineStart ⟨FSDCollisionSettings.Init, 3, 13, true⟩ ⟨0, 0, 0⟩
          (fun _ => ⟨MissWorld, ⟨1, 0, 0⟩⟩)).Settings.Resolution 4 1
      = ⟨(((2 * 4 + 1) % 3 : Nat) : Int), (((2 * 4 + 1) / 3 : Nat) : Int)⟩ :=
  ⟨by decide, by decide,
    (Offline_iterations_cover ⟨FSDCollisionSettings.Init, 3, 13, true⟩ ⟨0, 0, 0⟩
      (fun _ => ⟨MissWorld, ⟨1, 0, 0⟩⟩) 3 2 rfl (by decide) (by decide) (by decide) (by decide)
      (by decide)).1 4 1 (by decide) (by decide)⟩

/-! ## Frame buffers across frames of the realtime driver -/

/-- C20 (evaluation at the failing input): whenever the frame buffer of the game thread has the
size of the new frame, `BeginRenderViewFamily` dispatches the new trace task onto that same
buffer, whatever tasks were dispatched before, and it waits for none.  From the initial state,
two producer phases with a 4 x 4 target dispatch the tasks 0 and 1 onto the one buffer 0, and
the consumer phase of the first frame waits for task 0 alone before it uploads buffer 0. -/
theorem BeginRenderViewFamily_reuses_buffer :
    (∀ (st : FGameThreadState) (b : Nat) (Size : FIntPoint),
        st.RenderData.FramebufferGameThread = some (b, Size) →
        (BeginRenderViewFamily st Size).2 = ⟨some st.TasksDispatched.length, b⟩
        ∧ (BeginRenderViewFamily st Size).1.TasksDispatched
            = st.TasksDispatched ++ [(st.TasksDispatched.length, b)]
        ∧ (BeginRenderViewFamily st Size).1.BuffersMade = st.BuffersMade)
    ∧ (BeginRenderViewFamily FGameThreadState.Init ⟨4, 4⟩).2 = ⟨some 0, 0⟩
    ∧ (BeginRenderViewFamily (BeginRenderViewFamily FGameThreadState.Init ⟨4, 4⟩).1 ⟨4, 4⟩).2
        = ⟨some 1, 0⟩
    ∧ (BeginRenderViewFamily (BeginRenderViewFamily FGameThreadState.Init ⟨4, 4⟩).1
        ⟨4, 4⟩).1.TasksDispatched = [(0, 0), (1, 0)]
    ∧ PostRenderViewFamily_RenderThread
        (some (BeginRenderViewFamily FGameThreadState.Init ⟨4, 4⟩).2) true
        = [FRenderThreadEvent.SetFramebufferRenderThread 0,
            FRenderThreadEvent.WaitUntilTaskCompletes 0,
            FRenderThreadEvent.UploadPixelData 0,
            FRenderThreadEvent.AddFullscreenPass] := by
  refine ⟨?_, by decide, by decide, by decide, by decide⟩
  intro st b Size h
  simp only [BeginRenderViewFamily, h, if_true, and_self]

/-! ## The offline driver on a world that has gone -/

/-- C23: on a tick at which the world is not valid, whatever the state of the ticker (the
iteration count may equal `MaxIterations`), the call first waits for the task dispatched last,
if there is one, then reports the world gone and returns `false`; it writes no output,
dispatches no task and leaves the ticker, the iteration counter included, as it was. -/
theorem Tick_world_gone (t : FOfflineTicker) :
    ∃ res : FOfflineTickResult, t.Tick false = some res
      ∧ res.Continue = false
      ∧ res.Ticker = t
      ∧ res.Ticker.Iteration = t.Iteration
      ∧ (∀ b : Bool, FOfflineEvent.WriteOutput b ∉ res.Events)
      ∧ res.Events.filterMap FOfflineEvent.Dispatched = []
      ∧ (∀ i : Nat, t.TraceTask = some i →
          res.Events = [FOfflineEvent.WaitUntilTaskCompletes i, FOfflineEvent.WorldGone])
      ∧ (t.TraceTask = none → res.Events = [FOfflineEvent.WorldGone]) := by
  refine ⟨_, rfl, rfl, rfl, rfl, ?_, ?_, ?_, ?_⟩
  · intro b
    cases h : t.TraceTask <;> simp [h]
  · cases h : t.TraceTask <;> simp [h, FOfflineEvent.Dispatched]
  · intro i h
    simp [h]
  · intro h
    simp [h]

/-! ## The query flags of the settings -/

theorem UpdateSettings_bReturnFaceIndex (s : FSDCollisionSettings) (g : Nat) :
    (s.UpdateSettings g).bReturnFaceIndex
      = (decide (s.VisType = EVisualisationType.Triangles)
          || decide (s.VisType = EVisualisationType.TriangleDensity)) := rfl

theorem UpdateSettings_VisType (s : FSDCollisionSettings) (g : Nat) :
    (s.UpdateSettings g).VisType = s.VisType := rfl

theorem UpdateSettings_bReturnPhysicalMaterial (s : FSDCollisionSettings) (g : Nat) :
    (s.UpdateSettings g).bReturnPhysicalMaterial = s.bReturnPhysicalMaterial := rfl

/-- C28 (evaluation at the failing input): `UpdateSettings` recomputes the face-index flag from
the mode, and the constructor sets both flags from the mode, but `UpdateSettings` leaves the
physical-material flag as it finds it.  Settings constructed in the Default mode and then given
the mode Material request no physical material after `UpdateSettings`; settings constructed in
the mode Material and then given the mode Default still request it. -/
theorem UpdateSettings_keeps_bReturnPhysicalMaterial :
    (∀ (s : FSDCollisionSettings) (g : Nat),
        ((s.UpdateSettings g).bReturnFaceIndex = true
          ↔ (s.UpdateSettings g).VisType = EVisualisationType.Triangles
            ∨ (s.UpdateSettings g).VisType = EVisualisationType.TriangleDensity)
        ∧ (s.UpdateSettings g).bReturnPhysicalMaterial = s.bReturnPhysicalMaterial)
    ∧ (∀ (cv : FConsoleVariables) (g : Nat),
        ((FSDCollisionSettings.Construct cv g).bReturnFaceIndex = true
          ↔ (FSDCollisionSettings.Construct cv g).VisType = EVisualisationType.Triangles
            ∨ (FSDCollisionSettings.Construct cv g).VisType = EVisualisationType.TriangleDensity)
        ∧ ((FSDCollisionSettings.Construct cv g).bReturnPhysicalMaterial = true
          ↔ (FSDCollisionSettings.Construct cv g).VisType = EVisualisationType.Material))
    ∧ (FSDCollisionSettings.Construct FConsoleVariables.Defaults 0).VisType
        = EVisualisationType.Default
    ∧ (FSDCollisionSettings.UpdateSettings
        { FSDCollisionSettings.Construct FConsoleVariables.Defaults 0 with
          VisType := EVisualisationType.Material } 1).VisType = EVisualisationType.Material
    ∧ (FSDCollisionSettings.UpdateSettings
        { FSDCollisionSettings.Construct FConsoleVariables.Defaults 0 with
          VisType := EVisualisationType.Material } 1).bReturnPhysicalMaterial = false
    ∧ (FSDCollisionSettings.UpdateSettings
        { FSDCollisionSettings.Construct { FConsoleVariables.Defaults with VisType := 3 } 0 with
          VisType := EVisualisationType.Default } 1).VisType = EVisualisationType.Default
    ∧ (FSDCollisionSettings.UpdateSettings
        { FSDCollisionSettings.Construct { FConsoleVariables.Defaults with VisType := 3 } 0 with
          VisType := EVisualisationType.Default } 1).bReturnPhysicalMaterial = true := by
  refine ⟨?_, ?_, rfl, rfl, rfl, rfl, rfl⟩
  · intro s g
    refine ⟨?_, rfl⟩
    rw [UpdateSettings_bReturnFaceIndex, UpdateSettings_VisType]
    simp
  · intro cv g
    constructor
    · simp only [FSDCollisionSettings.Construct, UpdateSettings_bReturnFaceIndex,
        UpdateSettings_VisType]
      simp
    · simp only [FSDCollisionSettings.Construct, UpdateSettings_bReturnPhysicalMaterial,
        UpdateSettings_VisType]
      simp

/-! ## Pruning of the per-view data -/

theorem mem_PruneUnusedViewFamilies (GFrameCounter : Nat)
    (ViewFamilyData : List (Nat × FSDCollisionVisRealtimeViewData))
    (e : Nat × FSDCollisionVisRealtimeViewData) :
    e ∈ PruneUnusedViewFamilies GFrameCounter ViewFamilyData
      ↔ e ∈ ViewFamilyData
        ∧ wrapU64 ((GFrameCounter : Int) - (e.2.LastAccessed : Int)) ≤ 30 := by
  simp [PruneUnusedViewFamilies, List.mem_filter]

/-- C21 (counterexample): an entry last accessed at frame 0 has not been accessed for 30 frames
at frame 30, and the prune tick keeps it; it is removed at frame 31. -/
theorem Prune_keeps_at_30 :
    (30 : Nat) - 0 ≥ 30
    ∧ PruneUnusedViewFamilies 30 [(7, ⟨0, none, none⟩)] = [(7, ⟨0, none, none⟩)]
    ∧ PruneUnusedViewFamilies 31 [(7, ⟨0, none, none⟩)] = [] := by
  decide

/-- C21 (amended): a prune tick removes exactly the entries with
`GFrameCounter - LastAccessed > 30` in `uint64`, that is, when the counter has not wrapped,
those not accessed for 31 frames or more; the entries that stay are unchanged and in their
order.  `GetRealtimeViewFamilyData` returns, for a family with a view, the entry of the view key
with `LastAccessed` set to the frame counter, the map holds that entry, and the entries of the
other keys are as before; for a family without views it returns nothing and changes
nothing. -/
theorem Prune_removes_after_30 (GFrameCounter : Nat)
    (ViewFamilyData : List (Nat × FSDCollisionVisRealtimeViewData)) :
    (∀ e ∈ ViewFamilyData,
        (e ∈ PruneUnusedViewFamilies GFrameCounter ViewFamilyData
          ↔ wrapU64 ((GFrameCounter : Int) - (e.2.LastAccessed : Int)) ≤ 30))
    ∧ (∀ e ∈ ViewFamilyData, e.2.LastAccessed ≤ GFrameCounter →
        GFrameCounter < 18446744073709551616 →
        (e ∈ PruneUnusedViewFamilies GFrameCounter ViewFamilyData
          ↔ GFrameCounter - e.2.LastAccessed ≤ 30))
    ∧ (PruneUnusedViewFamilies GFrameCounter ViewFamilyData).Sublist ViewFamilyData
    ∧ (∀ k : Nat, ∃ Data : FSDCollisionVisRealtimeViewData,
        (GetRealtimeViewFamilyData (some k) GFrameCounter ViewFamilyData).1 = some Data
        ∧ Data.LastAccessed = GFrameCounter
        ∧ (k, Data) ∈ (GetRealtimeViewFamilyData (some k) GFrameCounter ViewFamilyData).2
        ∧ (∀ Found ∈ ViewFamilyData.find? (fun e => e.1 = k),
            Data = { Found.2 with LastAccessed := GFrameCounter })
        ∧ (∀ e ∈ ViewFamilyData, e.1 ≠ k →
            e ∈ (GetRealtimeViewFamilyData (some k) GFrameCounter ViewFamilyData).2)
        ∧ (∀ e ∈ (GetRealtimeViewFamilyData (some k) GFrameCounter ViewFamilyData).2,
            e.1 ≠ k → e ∈ ViewFamilyData))
    ∧ GetRealtimeViewFamilyData none GFrameCounter ViewFamilyData = (none, ViewFamilyData) := by
  refine ⟨?_, ?_, List.filter_sublist _, ?_, rfl⟩
  · intro e he
    rw [mem_PruneUnusedViewFamilies]
    exact ⟨fun h => h.2, fun h => ⟨he, h⟩⟩
  · intro e he hle hG
    rw [mem_PruneUnusedViewFamilies]
    have hw : wrapU64 ((GFrameCounter : Int) - (e.2.LastAccessed : Int))
        = GFrameCounter - e.2.LastAccessed := by
      unfold wrapU64
      omega
    rw [hw]
    exact ⟨fun h => h.2, fun h => ⟨he, h⟩⟩
  · intro k
    cases hf : ViewFamilyData.find? (fun e => decide (e.1 = k)) with
    | none =>
      have hG : GetRealtimeViewFamilyData (some k) GFrameCounter ViewFamilyData
          = (some { FSDCollisionVisRealtimeViewData.Init with LastAccessed := GFrameCounter },
              ViewFamilyData ++ [(k, { FSDCollisionVisRealtimeViewData.Init with
                LastAccessed := GFrameCounter })]) := by
        simp only [GetRealtimeViewFamilyData, hf]
      rw [hG]
      refine ⟨_, rfl, rfl, by simp, by simp, ?_, ?_⟩
      · intro e he _
        simp [he]
      · intro e he hk
        simp only [List.mem_append, List.mem_singleton] at he
        rcases he with h | h
        · exact h
        · exact absurd (by rw [h]) hk
    | some Found =>
      have hG : GetRealtimeViewFamilyData (some k) GFrameCounter ViewFamilyData
          = (some { Found.2 with LastAccessed := GFrameCounter },
              ViewFamilyData.map (fun e =>
                if e.1 = k then (e.1, { e.2 with LastAccessed := GFrameCounter }) else e)) := by
        simp only [GetRealtimeViewFamilyData, hf]
      rw [hG]
      have hmem : Found ∈ ViewFamilyData := List.mem_of_find?_eq_some hf
      have hkey : Found.1 = k := by
        have := List.find?_some hf
        simpa using this
      refine ⟨_, rfl, rfl, ?_, ?_, ?_, ?_⟩
      · simp only [List.mem_map]
        exact ⟨Found, hmem, by simp [hkey]⟩
      · intro F hF
        simp only [Option.mem_def, Option.some.injEq] at hF
        rw [hF]
      · intro e he hk
        simp only [List.mem_map]
        exact ⟨e, he, by simp [hk]⟩
      · intro e he hk
        simp only [List.mem_map] at he
        obtain ⟨a, ha, rfl⟩ := he
        by_cases hak : a.1 = k
        · simp [hak] at hk
        · simpa [hak] using ha

/-! ## Monotonicity of the heat map -/

theorem Clamp_mono (x y lo hi : ℚ) (h : x ≤ y) : Clamp x lo hi ≤ Clamp y lo hi := by
  unfold Clamp
  exact max_le_max (min_le_min h le_rfl) le_rfl

theorem Clamp_unit_of_ge (x : ℚ) (h : 1 ≤ x) : Clamp x 0 1 = 1 := by
  unfold Clamp
  rw [min_eq_right h]
  norm_num

theorem Clamp_unit_of_le (x : ℚ) (h : x ≤ 0) : Clamp x 0 1 = 0 := by
  unfold Clamp
  rw [min_eq_left (by linarith)]
  exact max_eq_right h

theorem Clamp_unit_bounds (x : ℚ) : 0 ≤ Clamp x 0 1 ∧ Clamp x 0 1 ≤ 1 := by
  unfold Clamp
  exact ⟨le_max_right _ _, max_le (min_le_right _ _) (by norm_num)⟩

/-- The cast to `uint8` is the floor on `[0, 256)`. -/
theorem castUInt8_eq_floor (v : ℚ) (h0 : 0 ≤ v) (h1 : v < 256) :
    ((castUInt8 v : Nat) : Int) = ⌊v⌋ := by
  have f0 : 0 ≤ ⌊v⌋ := Int.floor_nonneg.mpr h0
  have f1 : ⌊v⌋ < 256 := Int.floor_lt.mpr (by push_cast; linarith)
  unfold castUInt8 truncToInt
  rw [if_pos h0]
  omega

theorem castUInt8_mono (v w : ℚ) (h0 : 0 ≤ v) (h : v ≤ w) (h1 : w < 256) :
    castUInt8 v ≤ castUInt8 w := by
  have e1 := castUInt8_eq_floor v h0 (by linarith)
  have e2 := castUInt8_eq_floor w (by linarith) h1
  have := Int.floor_mono h
  omega

/-- The quantisation of a colour channel with the dampening 1 is monotone on `[0, 1]`. -/
theorem channel_mono (c d : ℚ) (h0 : 0 ≤ c) (h : c ≤ d) (h1 : d ≤ 1) :
    castUInt8 (f32 (f32 (f32 (c * 1) * 255) + 1 / 2))
      ≤ castUInt8 (f32 (f32 (f32 (d * 1) * 255) + 1 / 2)) := by
  rw [mul_one, mul_one]
  have a0 : 0 ≤ f32 c := f32_nonneg _ h0
  have a1 : f32 c ≤ f32 d := f32_mono _ _ h
  have a2 : f32 d ≤ 1 := by
    have := f32_mono d 1 h1
    have e : f32 1 = 1 := by decide!
    rwa [e] at this
  have b0 : 0 ≤ f32 (f32 c * 255) := f32_nonneg _ (by linarith)
  have b1 : f32 (f32 c * 255) ≤ f32 (f32 d * 255) := f32_mono _ _ (by linarith)
  have b2 : f32 (f32 d * 255) ≤ 255 := by
    have := f32_mono (f32 d * 255) 255 (by linarith)
    have e : f32 255 = 255 := by decide!
    rwa [e] at this
  have c0 : 0 ≤ f32 (f32 (f32 c * 255) + 1 / 2) := f32_nonneg _ (by linarith)
  have c1 : f32 (f32 (f32 c * 255) + 1 / 2) ≤ f32 (f32 (f32 d * 255) + 1 / 2) :=
    f32_mono _ _ (by linarith)
  have c2 : f32 (f32 (f32 d * 255) + 1 / 2) ≤ 511 / 2 := by
    have := f32_mono (f32 (f32 d * 255) + 1 / 2) (511 / 2) (by linarith)
    have e : f32 (511 / 2) = 511 / 2 := by decide!
    rwa [e] at this
  exact castUInt8_mono _ _ c0 c1 (by linarith)

/-- Six times the hue of the heat map, as `Heatmap` computes it for an intensity. -/
theorem Heatmap_hue6_antitone (s t : ℚ) (hst : s ≤ t) :
    f32 (f32 (f32 (1 - t) * f32 (1 / 3)) * 6) ≤ f32 (f32 (f32 (1 - s) * f32 (1 / 3)) * 6) := by
  have h3 : (0 : ℚ) ≤ f32 (1 / 3) := f32_nonneg _ (by norm_num)
  have a : f32 (1 - t) ≤ f32 (1 - s) := f32_mono _ _ (by linarith)
  have b : f32 (f32 (1 - t) * f32 (1 / 3)) ≤ f32 (f32 (1 - s) * f32 (1 / 3)) :=
    f32_mono _ _ (mul_le_mul_of_nonneg_right a h3)
  exact f32_mono _ _ (by linarith)

theorem Heatmap_hue6_values :
    f32 (f32 (f32 (1 - 0) * f32 (1 / 3)) * 6) = 2
    ∧ f32 (f32 (f32 (1 - 1 / 2) * f32 (1 / 3)) * 6) = 1
    ∧ f32 (f32 (f32 (1 - 1) * f32 (1 / 3)) * 6) = 0 := by
  decide!

theorem f32_values :
    f32 1 = 1 ∧ f32 (-1) = -1 ∧ f32 (-2) = -2 ∧ f32 2 = 2 ∧ f32 0 = 0 := by
  decide!

/-- The red channel before clamping falls as six times the hue grows, up to 2. -/
theorem red_antitone (a b : ℚ) (hab : a ≤ b) (hb : b ≤ 2) :
    f32 (|f32 (b - 3)| - 1) ≤ f32 (|f32 (a - 3)| - 1) := by
  obtain ⟨-, e1, -, -, -⟩ := f32_values
  have h1 : f32 (b - 3) ≤ -1 := by
    have := f32_mono (b - 3) (-1) (by linarith)
    rwa [e1] at this
  have h2 : f32 (a - 3) ≤ f32 (b - 3) := f32_mono _ _ (by linarith)
  rw [abs_of_nonpos (by linarith), abs_of_nonpos (by linarith)]
  exact f32_mono _ _ (by linarith)

/-- The green channel before clamping grows with six times the hue, up to 2. -/
theorem green_monotone (a b : ℚ) (hab : a ≤ b) (hb : b ≤ 2) :
    f32 (2 - |f32 (a - 2)|) ≤ f32 (2 - |f32 (b - 2)|) := by
  obtain ⟨-, -, -, -, e0⟩ := f32_values
  have h1 : f32 (b - 2) ≤ 0 := by
    have := f32_mono (b - 2) 0 (by linarith)
    rwa [e0] at this
  have h2 : f32 (a - 2) ≤ f32 (b - 2) := f32_mono _ _ (by linarith)
  rw [abs_of_nonpos (by linarith), abs_of_nonpos (by linarith)]
  exact f32_mono _ _ (by linarith)

/-- The blue channel before clamping is not positive for six times the hue up to 2. -/
theorem blue_nonpos (a : ℚ) (ha : a ≤ 2) : f32 (2 - |f32 (a - 4)|) ≤ 0 := by
  obtain ⟨-, -, e1, -, e0⟩ := f32_values
  have h1 : f32 (a - 4) ≤ -2 := by
    have := f32_mono (a - 4) (-2) (by linarith)
    rwa [e1] at this
  rw [abs_of_nonpos (by linarith)]
  have := f32_mono (2 - -f32 (a - 4)) 0 (by linarith)
  rwa [e0] at this

/-- A `float` operation on a result of magnitude below 2 errs by at most `2 ^ -24`. -/
theorem f32_error_unit (q : ℚ) (h : |q| < 2) : |f32 q - q| ≤ 1 / 16777216 := by
  have := roundBinary_error 24 (-126) q 0 (by norm_num) (by norm_num; exact h)
  have e : (2 : ℚ) ^ ((0 : Int) - ((24 : Nat) : Int)) = 1 / 16777216 := by norm_num
  rw [e] at this
  exact this

/-- The hue of the heat map is `(1 - t) / 3` up to the rounding of its three operations. -/
theorem Heatmap_hue_error (t : ℚ) (h0 : 0 ≤ t) (h1 : t ≤ 1) :
    |f32 (f32 (1 - t) * f32 (1 / 3)) - (1 - t) / 3| ≤ 1 / 4194304 := by
  have a0 : 0 ≤ f32 (1 - t) := f32_nonneg _ (by linarith)
  have a1 : f32 (1 - t) ≤ 1 := by
    have := f32_mono (1 - t) 1 (by linarith)
    have e : f32 1 = 1 := by decide!
    rwa [e] at this
  have ea := abs_le.mp (f32_error_unit (1 - t) (by rw [abs_of_nonneg (by linarith)]; linarith))
  have c0 : (1 : ℚ) / 3 ≤ f32 (1 / 3) := by decide!
  have c1 : f32 (1 / 3) ≤ 1 / 3 + 1 / 16777216 := by decide!
  have p0 : 0 ≤ f32 (1 - t) * f32 (1 / 3) := mul_nonneg a0 (by linarith)
  have p1 : f32 (1 - t) * f32 (1 / 3) ≤ 1 * (1 / 3 + 1 / 16777216) :=
    mul_le_mul a1 c1 (by linarith) (by norm_num)
  have p2 : f32 (1 - t) * (1 / 3) ≤ f32 (1 - t) * f32 (1 / 3) :=
    mul_le_mul_of_nonneg_left c0 a0
  have p3 : f32 (1 - t) * f32 (1 / 3) ≤ f32 (1 - t) * (1 / 3 + 1 / 16777216) :=
    mul_le_mul_of_nonneg_left c1 a0
  have ep := abs_le.mp (f32_error_unit (f32 (1 - t) * f32 (1 / 3))
    (by rw [abs_of_nonneg p0]; linarith))
  rw [abs_le]
  constructor <;> linarith

theorem channel_values :
    castUInt8 (f32 (f32 (f32 ((1 : ℚ) * 1) * 255) + 1 / 2)) = 255
    ∧ castUInt8 (f32 (f32 (f32 ((0 : ℚ) * 1) * 255) + 1 / 2)) = 0 := by
  decide!

/-- C24: for intensities `0 ≤ s ≤ t ≤ 1` and the dampening 1, the red channel of the heat map
does not fall and the green channel does not rise from `s` to `t`, the blue channel is 0 and
the alpha is 255; the red channel is 255 from the intensity 1/2 on and the green channel is 255
up to the intensity 1/2.  The colour is the ramp of the hue `(1 - t) * (1 / 3)` evaluated in
`float`. -/
theorem Heatmap_monotone (s t : ℚ) (hs : 0 ≤ s) (hst : s ≤ t) (ht : t ≤ 1) :
    (Heatmap s 1).R ≤ (Heatmap t 1).R
    ∧ (Heatmap t 1).G ≤ (Heatmap s 1).G
    ∧ (Heatmap s 1).B = 0 ∧ (Heatmap t 1).B = 0
    ∧ (Heatmap s 1).A = 255 ∧ (Heatmap t 1).A = 255
    ∧ (1 / 2 ≤ t → (Heatmap t 1).R = 255)
    ∧ (t ≤ 1 / 2 → (Heatmap t 1).G = 255)
    ∧ Heatmap t 1 = HueToColour (f32 (f32 (1 - t) * f32 (1 / 3))) 1
    ∧ |f32 (f32 (1 - t) * f32 (1 / 3)) - (1 - t) / 3| ≤ 1 / 4194304 := by
  obtain ⟨v0, vh, v1⟩ := Heatmap_hue6_values
  obtain ⟨q1, q0⟩ := channel_values
  obtain ⟨e1, -, -, -, -⟩ := f32_values
  have hts : f32 (f32 (f32 (1 - t) * f32 (1 / 3)) * 6) ≤ f32 (f32 (f32 (1 - s) * f32 (1 / 3)) * 6) :=
    Heatmap_hue6_antitone s t hst
  have hs2 : f32 (f32 (f32 (1 - s) * f32 (1 / 3)) * 6) ≤ 2 := by
    have := Heatmap_hue6_antitone 0 s hs
    rwa [v0] at this
  have ht2 : f32 (f32 (f32 (1 - t) * f32 (1 / 3)) * 6) ≤ 2 := le_trans hts hs2
  have hblue : ∀ a : ℚ, a ≤ 2 →
      castUInt8 (f32 (f32 (f32 (Clamp (f32 (2 - |f32 (a - 4)|)) 0 1 * 1) * 255) + 1 / 2)) = 0 := by
    intro a ha
    rw [Clamp_unit_of_le _ (blue_nonpos a ha)]
    exact q0
  refine ⟨?_, ?_, hblue _ hs2, hblue _ ht2, rfl, rfl, ?_, ?_, rfl,
    Heatmap_hue_error t (le_trans hs hst) ht⟩
  · exact channel_mono _ _ (Clamp_unit_bounds _).1
      (Clamp_mono _ _ 0 1 (red_antitone _ _ hts hs2)) (Clamp_unit_bounds _).2
  · exact channel_mono _ _ (Clamp_unit_bounds _).1
      (Clamp_mono _ _ 0 1 (green_monotone _ _ hts hs2)) (Clamp_unit_bounds _).2
  · intro h
    have h6 : f32 (f32 (f32 (1 - t) * f32 (1 / 3)) * 6) ≤ 1 := by
      have := Heatmap_hue6_antitone (1 / 2) t h
      rwa [vh] at this
    have r1 : (1 : ℚ) ≤ f32 (|f32 (f32 (f32 (f32 (1 - t) * f32 (1 / 3)) * 6) - 3)| - 1) := by
      have a : f32 (f32 (f32 (f32 (1 - t) * f32 (1 / 3)) * 6) - 3) ≤ -2 := by
        have := f32_mono (f32 (f32 (f32 (1 - t) * f32 (1 / 3)) * 6) - 3) (-2) (by linarith)
        have e : f32 (-2) = -2 := by decide!
        rwa [e] at this
      rw [abs_of_nonpos (by linarith)]
      have := f32_mono 1 (-f32 (f32 (f32 (f32 (1 - t) * f32 (1 / 3)) * 6) - 3) - 1) (by linarith)
      rwa [e1] at this
    show castUInt8 (f32 (f32 (f32 (Clamp (f32 (|f32 (f32 (f32 (f32 (1 - t) * f32 (1 / 3)) * 6)
      - 3)| - 1)) 0 1 * 1) * 255) + 1 / 2)) = 255
    rw [Clamp_unit_of_ge _ r1]
    exact q1
  · intro h
    have h6 : 1 ≤ f32 (f32 (f32 (1 - t) * f32 (1 / 3)) * 6) := by
      have := Heatmap_hue6_antitone t (1 / 2) h
      rwa [vh] at this
    have g1 : (1 : ℚ) ≤ f32 (2 - |f32 (f32 (f32 (f32 (1 - t) * f32 (1 / 3)) * 6) - 2)|) := by
      have a : f32 (f32 (f32 (f32 (1 - t) * f32 (1 / 3)) * 6) - 2) ≤ 0 := by
        have := f32_mono (f32 (f32 (f32 (1 - t) * f32 (1 / 3)) * 6) - 2) 0 (by linarith)
        have e : f32 0 = 0 := by decide!
        rwa [e] at this
      have b : -1 ≤ f32 (f32 (f32 (f32 (1 - t) * f32 (1 / 3)) * 6) - 2) := by
        have := f32_mono (-1) (f32 (f32 (f32 (1 - t) * f32 (1 / 3)) * 6) - 2) (by linarith)
        have e : f32 (-1) = -1 := by decide!
        rwa [e] at this
      rw [abs_of_nonpos a]
      have := f32_mono 1 (2 - -f32 (f32 (f32 (f32 (1 - t) * f32 (1 / 3)) * 6) - 2)) (by linarith)
      rwa [e1] at this
    show castUInt8 (f32 (f32 (f32 (Clamp (f32 (2 - |f32 (f32 (f32 (f32 (1 - t) * f32 (1 / 3)) * 6)
      - 2)|)) 0 1 * 1) * 255) + 1 / 2)) = 255
    rw [Clamp_unit_of_ge _ g1]
    exact q1

/-- C24 (instance): the intensities 1/4 and 3/4. -/
theorem Heatmap_monotone_witness :
    (0 : ℚ) ≤ 1 / 4 ∧ (1 / 4 : ℚ) ≤ 3 / 4 ∧ (3 / 4 : ℚ) ≤ 1
    ∧ (Heatmap (1 / 4) 1).R ≤ (Heatmap (3 / 4) 1).R
    ∧ (Heatmap (3 / 4) 1).G ≤ (Heatmap (1 / 4) 1).G :=
  ⟨by norm_num, by norm_num, by norm_num,
    (Heatmap_monotone (1 / 4) (3 / 4) (by norm_num) (by norm_num) (by norm_num)).1,
    (Heatmap_monotone (1 / 4) (3 / 4) (by norm_num) (by norm_num) (by norm_num)).2.1⟩

/-! ## The density mode without a resolved triangle -/

theorem VisitLeafObjects_no_hit (FacingRatio MinArea2 Mul : ℚ) (Result : FColor)
    (leaves : List (Option ℚ)) (h : ∀ l ∈ leaves, l = none) :
    VisitLeafObjects FacingRatio MinArea2 Mul Result leaves = Result := by
  induction leaves with
  | nil => rfl
  | cons l rest ih =>
    have hl : l = none := h l (List.mem_cons_self _ _)
    subst hl
    rw [VisitLeafObjects]
    exact ih (fun x hx => h x (List.mem_cons_of_mem _ hx))

/-- C26 (counterexample): a face-on hit without a physics object (no geometry at all) in the
density mode gives the grey base colour (127, 127, 127, 255), not a blue one; and the blue
fallback of a hit at a grazing angle (facing ratio 0) is (0, 0, 0, 255), the colour of a
miss. -/
theorem TriangleDensity_unresolved_grey :
    CalculateVisualisationColour EVisualisationType.TriangleDensity true
        { FHitResult.Init with Normal := ⟨-1, 0, 0⟩, Geometry := none }
        ⟨1, 0, 0⟩ ⟨1, 0, 0⟩ FTimer.Zero 2 (1 / 2) = ⟨127, 127, 127, 255⟩
    ∧ CalculateVisualisationColour EVisualisationType.TriangleDensity true
        { FHitResult.Init with Normal := ⟨0, 1, 0⟩, Geometry := some [none] }
        ⟨1, 0, 0⟩ ⟨1, 0, 0⟩ FTimer.Zero 2 (1 / 2) = FColor.Black := by
  decide!

/-- C26 (amended): in the density mode, a hit whose geometry cannot be had (no physics object,
no scene, no geometry, or a geometry that is neither a mesh nor a union) gets the grey base
colour with `(uint8)(127.0 * FacingRatio)` in the three channels; a hit whose geometry is a
mesh or a union of which no leaf yields a triangle gets the blue fallback
`(0, 0, (uint8)(FacingRatio * 255.0f + 0.5f), 255)`, whose blue channel is a nearest integer to
`255 * FacingRatio` up to rounding.  The fallback differs from the colour of a miss and from
the grey base whenever its blue channel is not 0, which is so for a facing ratio of `1 / 255`
or more. -/
theorem TriangleDensity_unresolved (HitResult : FHitResult) (TraceNormal RevViewForward : FVector)
    (Timer : FTimer) (MinArea2 Mul : ℚ) :
    (HitResult.Geometry = none →
      CalculateVisualisationColour EVisualisationType.TriangleDensity true HitResult TraceNormal
          RevViewForward Timer MinArea2 Mul
        = ⟨castUInt8 (f64 (127 * Clamp (-(f32 (TraceNormal.Dot HitResult.Normal))) 0 1)),
           castUInt8 (f64 (127 * Clamp (-(f32 (TraceNormal.Dot HitResult.Normal))) 0 1)),
           castUInt8 (f64 (127 * Clamp (-(f32 (TraceNormal.Dot HitResult.Normal))) 0 1)), 255⟩)
    ∧ (∀ leaves : List (Option ℚ), HitResult.Geometry = some leaves →
        (∀ l ∈ leaves, l = none) →
        CalculateVisualisationColour EVisualisationType.TriangleDensity true HitResult TraceNormal
            RevViewForward Timer MinArea2 Mul
          = ⟨0, 0, castUInt8 (f32 (f32 (Clamp (-(f32 (TraceNormal.Dot HitResult.Normal))) 0 1
              * 255) + 1 / 2)), 255⟩)
    ∧ castUInt8 (f32 (f32 (Clamp (-(f32 (TraceNormal.Dot HitResult.Normal))) 0 1 * 255)
        + 1 / 2)) ≤ 255
    ∧ |((castUInt8 (f32 (f32 (Clamp (-(f32 (TraceNormal.Dot HitResult.Normal))) 0 1 * 255)
        + 1 / 2)) : Nat) : ℚ) - 255 * Clamp (-(f32 (TraceNormal.Dot HitResult.Normal))) 0 1|
        ≤ 1 / 2 + 1 / 65536
    ∧ (1 / 255 ≤ Clamp (-(f32 (TraceNormal.Dot HitResult.Normal))) 0 1 →
        castUInt8 (f32 (f32 (Clamp (-(f32 (TraceNormal.Dot HitResult.Normal))) 0 1 * 255)
          + 1 / 2)) ≠ 0)
    ∧ (∀ q g : Nat, q ≠ 0 →
        (⟨0, 0, q, 255⟩ : FColor) ≠ FColor.Black ∧ (⟨0, 0, q, 255⟩ : FColor) ≠ ⟨g, g, g, 255⟩) := by
  obtain ⟨c0, c1⟩ := Clamp_unit_bounds (-(f32 (TraceNormal.Dot HitResult.Normal)))
  obtain ⟨b1, b2⟩ := quantise_bounds _ c0 c1
  refine ⟨?_, ?_, b1, b2, ?_, ?_⟩
  · intro h
    simp [CalculateVisualisationColour, h]
  · intro leaves h hl
    simp only [CalculateVisualisationColour, h, reduceCtorEq, if_false, Bool.not_true,
      Bool.false_eq_true]
    exact VisitLeafObjects_no_hit _ _ _ _ leaves hl
  · intro hF hq
    rw [hq] at b2
    have := abs_le.mp b2
    norm_num at this
    linarith
  · intro q g hq
    constructor
    · intro h
      have := congrArg FColor.B h
      exact hq this
    · intro h
      have h1 := congrArg FColor.R h
      have h2 := congrArg FColor.B h
      simp only at h1 h2
      omega

/-! ## Relative rounding errors and representable values -/

/-- A value whose quotient by the quantum of its binade is an integer is not changed by
rounding. -/
theorem roundBinary_of_grid (p : Nat) (emin : Int) (q : ℚ) (hq : q ≠ 0) (K : Int)
    (h : q / (2 : ℚ) ^ (max (binExp q) emin - ((p : Int) - 1)) = (K : ℚ)) :
    roundBinary p emin q = q := by
  rw [roundBinary_eq p emin q hq, h, roundHalfEven_intCast, ← h]
  have : (2 : ℚ) ^ (max (binExp q) emin - ((p : Int) - 1)) ≠ 0 := (two_zpow_pos _).ne'
  field_simp

/-- In the normal range rounding errs by at most `2 ^ -p` of the value. -/
theorem roundBinary_rel_error (p : Nat) (emin : Int) (q : ℚ) (hq : q ≠ 0)
    (hn : emin ≤ binExp q) : |roundBinary p emin q - q| ≤ |q| / (2 : ℚ) ^ (p : Int) := by
  obtain ⟨h1, h2⟩ := binExp_spec q hq
  have := roundBinary_error p emin q (binExp q) hn h2
  have e : (2 : ℚ) ^ (binExp q - (p : Int)) = (2 : ℚ) ^ binExp q / (2 : ℚ) ^ (p : Int) := by
    rw [zpow_sub₀ (by norm_num)]
  rw [e] at this
  have hp : (0 : ℚ) < (2 : ℚ) ^ (p : Int) := two_zpow_pos _
  exact le_trans this (div_le_div_of_nonneg_right h1 hp.le)

theorem binExp_ge_of_le (q : ℚ) (hq : q ≠ 0) (k : Int) (h : (2 : ℚ) ^ k ≤ |q|) :
    k ≤ binExp q := by
  obtain ⟨-, h2⟩ := binExp_spec q hq
  have : (2 : ℚ) ^ k < (2 : ℚ) ^ (binExp q + 1) := lt_of_le_of_lt h h2
  have := (zpow_lt_zpow_iff_right₀ (by norm_num : (1 : ℚ) < 2)).mp this
  omega

/-- The error of a `float` operation: relative `2 ^ -24`, or absolute `2 ^ -150` in the
subnormal range. -/
theorem f32_error (q : ℚ) :
    |f32 q - q| ≤ |q| / 16777216 + 1 / (2 : ℚ) ^ (150 : Nat) := by
  have hpos : (0 : ℚ) < 1 / (2 : ℚ) ^ (150 : Nat) := by positivity
  by_cases hq : q = 0
  · subst hq
    have : f32 0 = 0 := roundBinary_zero 24 (-126)
    rw [this]
    simp
  by_cases hn : (-126 : Int) ≤ binExp q
  · have := roundBinary_rel_error 24 (-126) q hq hn
    have e : (2 : ℚ) ^ ((24 : Nat) : Int) = 16777216 := by norm_num
    rw [e] at this
    unfold f32
    linarith
  · obtain ⟨-, h2⟩ := binExp_spec q hq
    have h3 : (2 : ℚ) ^ (binExp q + 1) ≤ (2 : ℚ) ^ ((-126 : Int) + 1) :=
      zpow_le_zpow_right₀ (by norm_num) (by omega)
    have := roundBinary_error 24 (-126) q (-126) le_rfl (lt_of_lt_of_le h2 h3)
    have e : (2 : ℚ) ^ ((-126 : Int) - ((24 : Nat) : Int)) = 1 / (2 : ℚ) ^ (150 : Nat) := by
      rw [show ((-126 : Int) - ((24 : Nat) : Int)) = -((150 : Nat) : Int) by norm_num,
        zpow_neg, zpow_natCast, one_div]
    rw [e] at this
    have : 0 ≤ |q| / 16777216 := by positivity
    unfold f32
    linarith

/-- The error of a `double` operation on a value of magnitude at least `2 ^ -1022`. -/
theorem f64_rel_error (q : ℚ) (h : (2 : ℚ) ^ (-1022 : Int) ≤ |q|) :
    |f64 q - q| ≤ |q| / 9007199254740992 := by
  have hq : q ≠ 0 := by
    intro h0
    rw [h0, abs_zero] at h
    exact absurd h (not_le.mpr (two_zpow_pos _))
  have := roundBinary_rel_error 53 (-1022) q hq (binExp_ge_of_le q hq _ h)
  have e : (2 : ℚ) ^ ((53 : Nat) : Int) = 9007199254740992 := by norm_num
  rw [e] at this
  exact this

/-- The error of a `float` operation on a value of magnitude at least `2 ^ -126`. -/
theorem f32_rel_error (q : ℚ) (h : (2 : ℚ) ^ (-126 : Int) ≤ |q|) :
    |f32 q - q| ≤ |q| / 16777216 := by
  have hq : q ≠ 0 := by
    intro h0
    rw [h0, abs_zero] at h
    exact absurd h (not_le.mpr (two_zpow_pos _))
  have := roundBinary_rel_error 24 (-126) q hq (binExp_ge_of_le q hq _ h)
  have e : (2 : ℚ) ^ ((24 : Nat) : Int) = 16777216 := by norm_num
  rw [e] at this
  exact this

theorem binExp_two_mul (q : ℚ) (hq : q ≠ 0) : binExp (q * 2) = binExp q + 1 := by
  obtain ⟨h1, h2⟩ := binExp_spec q hq
  apply binExp_unique
  · rw [abs_mul, zpow_add_one₀ (by norm_num)]
    simp only [abs_two]
    linarith
  · rw [abs_mul, zpow_add_one₀ (by norm_num)]
    simp only [abs_two]
    linarith

/-- Twice a representable value is representable (the model has no overflow). -/
theorem roundBinary_two_mul (p : Nat) (emin : Int) (q : ℚ) (h : roundBinary p emin q = q) :
    roundBinary p emin (q * 2) = q * 2 := by
  by_cases hq : q = 0
  · subst hq
    simp [roundBinary_zero]
  have hq2 : q * 2 ≠ 0 := mul_ne_zero hq (by norm_num)
  have hb := binExp_two_mul q hq
  rw [roundBinary_eq p emin q hq] at h
  by_cases hn : emin ≤ binExp q
  · apply roundBinary_of_grid p emin (q * 2) hq2
      (roundHalfEven (q / (2 : ℚ) ^ (max (binExp q) emin - ((p : Int) - 1))))
    rw [hb, max_eq_left (by omega)]
    rw [max_eq_left hn] at h ⊢
    have e : (2 : ℚ) ^ (binExp q + 1 - ((p : Int) - 1))
        = (2 : ℚ) ^ (binExp q - ((p : Int) - 1)) * 2 := by
      rw [show binExp q + 1 - ((p : Int) - 1) = (binExp q - ((p : Int) - 1)) + 1 by ring,
        zpow_add_one₀ (by norm_num)]
    rw [e]
    have hz : (2 : ℚ) ^ (binExp q - ((p : Int) - 1)) ≠ 0 := (two_zpow_pos _).ne'
    rw [mul_div_mul_right _ _ (by norm_num : (2 : ℚ) ≠ 0)]
    set m := q / (2 : ℚ) ^ (binExp q - ((p : Int) - 1)) with hm
    have hqm : q = m * (2 : ℚ) ^ (binExp q - ((p : Int) - 1)) := by
      rw [hm]
      field_simp
    have := mul_right_cancel₀ hz (h.trans hqm)
    exact this.symm
  · apply roundBinary_of_grid p emin (q * 2) hq2
      (roundHalfEven (q / (2 : ℚ) ^ (max (binExp q) emin - ((p : Int) - 1))) * 2)
    rw [hb, max_eq_right (by omega)]
    rw [max_eq_right (by omega)] at h ⊢
    have hz : (2 : ℚ) ^ (emin - ((p : Int) - 1)) ≠ 0 := (two_zpow_pos _).ne'
    set m := q / (2 : ℚ) ^ (emin - ((p : Int) - 1)) with hm
    have hqm : q = m * (2 : ℚ) ^ (emin - ((p : Int) - 1)) := by
      rw [hm]
      field_simp
    have hK := mul_right_cancel₀ hz (h.trans hqm)
    push_cast
    rw [hK, mul_div_right_comm]

theorem f32_two_mul (q : ℚ) (h : f32 q = q) : f32 (q * 2) = q * 2 :=
  roundBinary_two_mul 24 (-126) q h

/-- A `float` value is a `double` value. -/
theorem f64_of_f32 (q : ℚ) (h : f32 q = q) : f64 q = q := by
  by_cases hq : q = 0
  · subst hq
    exact roundBinary_zero 53 (-1022)
  unfold f32 at h
  rw [roundBinary_eq 24 (-126) q hq] at h
  set K := roundHalfEven (q / (2 : ℚ) ^ (max (binExp q) (-126) - (((24 : Nat) : Int) - 1))) with hK
  have hd : (0 : Int) ≤ (max (binExp q) (-126) - (((24 : Nat) : Int) - 1))
      - (max (binExp q) (-1022) - (((53 : Nat) : Int) - 1)) := by
    rcases le_total (binExp q) (-126) with h1 | h1
    · rw [max_eq_right h1]
      have : max (binExp q) (-1022) ≤ -126 := max_le h1 (by norm_num)
      push_cast
      omega
    · rw [max_eq_left h1, max_eq_left (by omega)]
      push_cast
      omega
  obtain ⟨n, hn⟩ := Int.eq_ofNat_of_zero_le hd
  apply roundBinary_of_grid 53 (-1022) q hq (K * 2 ^ n)
  have hz : (2 : ℚ) ^ (max (binExp q) (-1022) - (((53 : Nat) : Int) - 1)) ≠ 0 :=
    (two_zpow_pos _).ne'
  rw [div_eq_iff hz]
  push_cast
  rw [mul_assoc, ← zpow_natCast, ← zpow_add₀ (by norm_num : (2 : ℚ) ≠ 0), ← hn]
  refine Eq.trans h.symm ?_
  congr 2
  push_cast
  ring

/-! ## The reciprocal of the density range -/

theorem f32_pos (q : ℚ) (h : (2 : ℚ) ^ (-126 : Int) ≤ q) :
    q * (1 - 1 / 16777216) ≤ f32 q ∧ f32 q ≤ q * (1 + 1 / 16777216) := by
  have hq : 0 < q := lt_of_lt_of_le (two_zpow_pos _) h
  have h' : (2 : ℚ) ^ (-126 : Int) ≤ |q| := by
    rw [abs_of_pos hq]
    exact h
  have := abs_le.mp (f32_rel_error q h')
  rw [abs_of_pos hq] at this
  constructor <;> linarith

theorem f64_pos (q : ℚ) (h : (2 : ℚ) ^ (-1022 : Int) ≤ q) :
    q * (1 - 1 / 9007199254740992) ≤ f64 q ∧ f64 q ≤ q * (1 + 1 / 9007199254740992) := by
  have hq : 0 < q := lt_of_lt_of_le (two_zpow_pos _) h
  have h' : (2 : ℚ) ^ (-1022 : Int) ≤ |q| := by
    rw [abs_of_pos hq]
    exact h
  have := abs_le.mp (f64_rel_error q h')
  rw [abs_of_pos hq] at this
  constructor <;> linarith

theorem two_zpow_le (a b : Int) (h : a ≤ b) : (2 : ℚ) ^ a ≤ (2 : ℚ) ^ b :=
  zpow_le_zpow_right₀ (by norm_num) h

/-- The `float` reciprocal of a positive range, as `UpdateSettings` computes it, times the
range is one up to `2 ^ -22`. -/
theorem recip_error_pos (D : ℚ) (h1 : (2 : ℚ) ^ (-100 : Int) ≤ D)
    (h2 : D ≤ (2 : ℚ) ^ (100 : Int)) :
    1 - 1 / 4194304 ≤ f32 (f64 (1 / f32 D)) * D
    ∧ f32 (f64 (1 / f32 D)) * D ≤ 1 + 1 / 4194304 := by
  have hD : 0 < D := lt_of_lt_of_le (two_zpow_pos _) h1
  obtain ⟨d1, d2⟩ := f32_pos D (le_trans (two_zpow_le _ _ (by norm_num)) h1)
  have hd : 0 < f32 D := lt_of_lt_of_le (by positivity) d1
  have hquot : 1 / f32 D * D = D / f32 D := by field_simp
  -- the quotient `D / d`
  have u1 : 1 - 1 / 16777216 ≤ 1 / f32 D * D := by
    rw [hquot, le_div_iff₀ hd]
    nlinarith
  have u2 : 1 / f32 D * D ≤ 1 + 2 / 16777216 := by
    rw [hquot, div_le_iff₀ hd]
    nlinarith
  have hu : 0 < 1 / f32 D := by positivity
  have hd101 : f32 D ≤ (2 : ℚ) ^ (101 : Int) := by
    have e : (2 : ℚ) ^ (101 : Int) = (2 : ℚ) ^ (100 : Int) * 2 := by
      rw [show (101 : Int) = 100 + 1 by norm_num, zpow_add_one₀ (by norm_num)]
    rw [e]
    nlinarith
  have hulo : (2 : ℚ) ^ (-101 : Int) ≤ 1 / f32 D := by
    rw [zpow_neg, ← one_div]
    exact one_div_le_one_div_of_le hd hd101
  obtain ⟨v1, v2⟩ := f64_pos (1 / f32 D) (le_trans (two_zpow_le _ _ (by norm_num)) hulo)
  have hv : (2 : ℚ) ^ (-102 : Int) ≤ f64 (1 / f32 D) := by
    have e : (2 : ℚ) ^ (-102 : Int) = (2 : ℚ) ^ (-101 : Int) * (1 / 2) := by
      rw [show (-102 : Int) = -101 - 1 by norm_num, zpow_sub_one₀ (by norm_num)]
      ring
    rw [e]
    calc (2 : ℚ) ^ (-101 : Int) * (1 / 2)
        ≤ 1 / f32 D * (1 - 1 / 9007199254740992) :=
          mul_le_mul hulo (by norm_num) (by norm_num) hu.le
      _ ≤ f64 (1 / f32 D) := v1
  obtain ⟨m1, m2⟩ := f32_pos (f64 (1 / f32 D)) (le_trans (two_zpow_le _ _ (by norm_num)) hv)
  constructor
  · calc 1 - 1 / 4194304
        ≤ (1 - 1 / 16777216) * ((1 - 1 / 9007199254740992) * (1 - 1 / 16777216)) := by norm_num
      _ ≤ (1 / f32 D * D) * ((1 - 1 / 9007199254740992) * (1 - 1 / 16777216)) :=
        mul_le_mul_of_nonneg_right u1 (by norm_num)
      _ = (1 / f32 D * (1 - 1 / 9007199254740992)) * (1 - 1 / 16777216) * D := by ring
      _ ≤ f64 (1 / f32 D) * (1 - 1 / 16777216) * D :=
        mul_le_mul_of_nonneg_right (mul_le_mul_of_nonneg_right v1 (by norm_num)) hD.le
      _ ≤ f32 (f64 (1 / f32 D)) * D := mul_le_mul_of_nonneg_right m1 hD.le
  · calc f32 (f64 (1 / f32 D)) * D
        ≤ f64 (1 / f32 D) * (1 + 1 / 16777216) * D := mul_le_mul_of_nonneg_right m2 hD.le
      _ ≤ (1 / f32 D * (1 + 1 / 9007199254740992)) * (1 + 1 / 16777216) * D :=
        mul_le_mul_of_nonneg_right (mul_le_mul_of_nonneg_right v2 (by norm_num)) hD.le
      _ = (1 / f32 D * D) * ((1 + 1 / 9007199254740992) * (1 + 1 / 16777216)) := by ring
      _ ≤ (1 + 2 / 16777216) * ((1 + 1 / 9007199254740992) * (1 + 1 / 16777216)) :=
        mul_le_mul_of_nonneg_right u2 (by norm_num)
      _ ≤ 1 + 1 / 4194304 := by norm_num

theorem recip_neg (D : ℚ) : f32 (f64 (1 / f32 (-D))) = -f32 (f64 (1 / f32 D)) := by
  rw [f32_neg, one_div, inv_neg, ← one_div, f64_neg, f32_neg]

/-- The same for a range of either sign. -/
theorem recip_error (D : ℚ) (h1 : (2 : ℚ) ^ (-100 : Int) ≤ |D|)
    (h2 : |D| ≤ (2 : ℚ) ^ (100 : Int)) :
    |f32 (f64 (1 / f32 D)) * D - 1| ≤ 1 / 4194304 := by
  rcases le_total 0 D with h | h
  · rw [abs_of_nonneg h] at h1 h2
    obtain ⟨a, b⟩ := recip_error_pos D h1 h2
    rw [abs_le]
    constructor <;> linarith
  · rw [abs_of_nonpos h] at h1 h2
    obtain ⟨a, b⟩ := recip_error_pos (-D) h1 h2
    have e : f32 (f64 (1 / f32 D)) = -f32 (f64 (1 / f32 (-D))) := by
      rw [recip_neg, neg_neg]
    rw [e, abs_le]
    constructor <;> linarith

theorem UpdateSettings_density (s : FSDCollisionSettings) (g : Nat) :
    (s.UpdateSettings g).TriangleDensityMinArea2 = s.TriangleDensityMinArea2
    ∧ (s.UpdateSettings g).TriangleDensityMaxArea2 = s.TriangleDensityMaxArea2
    ∧ (s.UpdateSettings g).TriangleDensityMul
        = f32 (f64 (1 / f32 (s.TriangleDensityMaxArea2 - s.TriangleDensityMinArea2))) :=
  ⟨rfl, rfl, rfl⟩

/-- C22: for console variables that hold `float` values, the constructor stores exactly twice
the configured minimum and maximum areas; `UpdateSettings` keeps the two bounds and sets
`TriangleDensityMul` to `1.0 / (TriangleDensityMaxArea2 - TriangleDensityMinArea2)` evaluated in
floating point on the bounds it finds, so also on a bound that was changed after the
construction; and for bounds whose difference has a magnitude in `[2 ^ -100, 2 ^ 100]` the
product of `TriangleDensityMul` and the difference is one up to `2 ^ -22`. -/
theorem Construct_density (cv : FConsoleVariables) (g g2 : Nat)
    (hmin : f32 cv.TriangleDensityMinArea = cv.TriangleDensityMinArea)
    (hmax : f32 cv.TriangleDensityMaxArea = cv.TriangleDensityMaxArea) :
    (FSDCollisionSettings.Construct cv g).TriangleDensityMinArea2 = 2 * cv.TriangleDensityMinArea
    ∧ (FSDCollisionSettings.Construct cv g).TriangleDensityMaxArea2
        = 2 * cv.TriangleDensityMaxArea
    ∧ (FSDCollisionSettings.Construct cv g).TriangleDensityMul
        = f32 (f64 (1 / f32 (2 * cv.TriangleDensityMaxArea - 2 * cv.TriangleDensityMinArea)))
    ∧ (∀ s : FSDCollisionSettings,
        (s.UpdateSettings g2).TriangleDensityMinArea2 = s.TriangleDensityMinArea2
        ∧ (s.UpdateSettings g2).TriangleDensityMaxArea2 = s.TriangleDensityMaxArea2
        ∧ (s.UpdateSettings g2).TriangleDensityMul
            = f32 (f64 (1 / f32 ((s.UpdateSettings g2).TriangleDensityMaxArea2
                - (s.UpdateSettings g2).TriangleDensityMinArea2)))
        ∧ ((2 : ℚ) ^ (-100 : Int)
              ≤ |(s.UpdateSettings g2).TriangleDensityMaxArea2
                  - (s.UpdateSettings g2).TriangleDensityMinArea2| →
            |(s.UpdateSettings g2).TriangleDensityMaxArea2
                  - (s.UpdateSettings g2).TriangleDensityMinArea2| ≤ (2 : ℚ) ^ (100 : Int) →
            |(s.UpdateSettings g2).TriangleDensityMul
                * ((s.UpdateSettings g2).TriangleDensityMaxArea2
                  - (s.UpdateSettings g2).TriangleDensityMinArea2) - 1| ≤ 1 / 4194304))
    ∧ (∀ Max2 : ℚ,
        (FSDCollisionSettings.UpdateSettings
          { FSDCollisionSettings.Construct cv g with TriangleDensityMaxArea2 := Max2 }
          g2).TriangleDensityMul
          = f32 (f64 (1 / f32 (Max2 - 2 * cv.TriangleDensityMinArea)))) := by
  have e1 : f32 (f64 (cv.TriangleDensityMinArea * 2)) = 2 * cv.TriangleDensityMinArea := by
    have a := f32_two_mul _ hmin
    rw [f64_of_f32 _ a, a, mul_comm]
  have e2 : f32 (f64 (cv.TriangleDensityMaxArea * 2)) = 2 * cv.TriangleDensityMaxArea := by
    have a := f32_two_mul _ hmax
    rw [f64_of_f32 _ a, a, mul_comm]
  have c1 : (FSDCollisionSettings.Construct cv g).TriangleDensityMinArea2
      = 2 * cv.TriangleDensityMinArea := e1
  have c2 : (FSDCollisionSettings.Construct cv g).TriangleDensityMaxArea2
      = 2 * cv.TriangleDensityMaxArea := e2
  refine ⟨c1, c2, ?_, ?_, ?_⟩
  · show f32 (f64 (1 / f32 (f32 (f64 (cv.TriangleDensityMaxArea * 2))
      - f32 (f64 (cv.TriangleDensityMinArea * 2))))) = _
    rw [e1, e2]
  · intro s
    refine ⟨rfl, rfl, rfl, ?_⟩
    intro h1 h2
    exact recip_error _ h1 h2
  · intro Max2
    show f32 (f64 (1 / f32 (Max2 - (FSDCollisionSettings.Construct cv g).TriangleDensityMinArea2)))
      = _
    rw [c1]

/-- C22 (instance): the registered defaults, the areas 1 and 10000. -/
theorem Construct_density_witness :
    f32 FConsoleVariables.Defaults.TriangleDensityMinArea
        = FConsoleVariables.Defaults.TriangleDensityMinArea
    ∧ f32 FConsoleVariables.Defaults.TriangleDensityMaxArea
        = FConsoleVariables.Defaults.TriangleDensityMaxArea
    ∧ (FSDCollisionSettings.Construct FConsoleVariables.Defaults 0).TriangleDensityMinArea2
        = 2 * FConsoleVariables.Defaults.TriangleDensityMinArea
    ∧ (FSDCollisionSettings.Construct FConsoleVariables.Defaults 0).TriangleDensityMaxArea2
        = 2 * FConsoleVariables.Defaults.TriangleDensityMaxArea :=
  ⟨by decide!, by decide!,
    (Construct_density FConsoleVariables.Defaults 0 0 (by decide!) (by decide!)).1,
    (Construct_density FConsoleVariables.Defaults 0 0 (by decide!) (by decide!)).2.1⟩

/-! ## The heat of the density mode -/

theorem Clamp_lipschitz (a b : ℚ) : |Clamp a 0 1 - Clamp b 0 1| ≤ |a - b| := by
  unfold Clamp
  refine le_trans (abs_max_sub_max_le_abs _ _ _) ?_
  have := abs_min_sub_min_le_max a 1 b 1
  simpa using this

theorem VisitLeafObjects_last (FacingRatio MinArea2 Mul : ℚ) (a : ℚ)
    (post : List (Option ℚ)) (hpost : ∀ l ∈ post, l = none) (pre : List (Option ℚ)) :
    ∀ Result : FColor,
      VisitLeafObjects FacingRatio MinArea2 Mul Result (pre ++ some a :: post)
        = Heatmap (DensityHeat (f32 a) MinArea2 Mul) FacingRatio := by
  induction pre with
  | nil =>
    intro Result
    rw [List.nil_append, VisitLeafObjects]
    exact VisitLeafObjects_no_hit _ _ _ _ post hpost
  | cons l rest ih =>
    intro Result
    cases l with
    | none =>
      rw [List.cons_append, VisitLeafObjects]
      exact ih Result
    | some b =>
      rw [List.cons_append, VisitLeafObjects]
      exact ih _

theorem DensityHeat_bounds (A Min M : ℚ) :
    0 ≤ DensityHeat A Min M ∧ DensityHeat A Min M ≤ 1 := by
  obtain ⟨c0, c1⟩ := Clamp_unit_bounds (f64 (1 - f32 (f32 (A - Min) * M)))
  obtain ⟨e1, -, -, -, -⟩ := f32_values
  constructor
  · exact f32_nonneg _ c0
  · have := f32_mono _ _ c1
    rwa [e1] at this

/-- The heat does not rise with the area, for a multiplier that is not negative. -/
theorem DensityHeat_antitone (A B Min M : ℚ) (hM : 0 ≤ M) (h : A ≤ B) :
    DensityHeat B Min M ≤ DensityHeat A Min M := by
  unfold DensityHeat
  have h1 : f32 (A - Min) ≤ f32 (B - Min) := f32_mono _ _ (by linarith)
  have h2 : f32 (f32 (A - Min) * M) ≤ f32 (f32 (B - Min) * M) :=
    f32_mono _ _ (mul_le_mul_of_nonneg_right h1 hM)
  exact f32_mono _ _ (Clamp_mono _ _ 0 1 (f64_mono _ _ (by linarith)))

/-- The heat is 1 up to the lower bound, for a multiplier that is not negative. -/
theorem DensityHeat_low (A Min M : ℚ) (hM : 0 ≤ M) (h : A ≤ Min) : DensityHeat A Min M = 1 := by
  obtain ⟨e1, -, -, -, e0⟩ := f32_values
  have h1 : f32 (A - Min) ≤ 0 := by
    have := f32_mono (A - Min) 0 (by linarith)
    rwa [e0] at this
  have h2 : f32 (f32 (A - Min) * M) ≤ 0 := by
    have := f32_mono (f32 (A - Min) * M) 0 (mul_nonpos_of_nonpos_of_nonneg h1 hM)
    rwa [e0] at this
  have h3 : 1 ≤ f64 (1 - f32 (f32 (A - Min) * M)) := by
    have := f64_mono 1 (1 - f32 (f32 (A - Min) * M)) (by linarith)
    have e : f64 1 = 1 := by decide!
    rwa [e] at this
  unfold DensityHeat
  rw [Clamp_unit_of_ge _ h3, e1]

/-- The `float` product of the area above the lower bound with the multiplier against the exact
quotient by the range `D`, for an area up to `2 * D` above the bound. -/
theorem density_product_error (t M D : ℚ) (hD1 : (2 : ℚ) ^ (-100 : Int) ≤ D)
    (m1 : 1 - 1 / 4194304 ≤ M * D) (m2 : M * D ≤ 1 + 1 / 4194304)
    (t0 : 0 ≤ t) (t2 : t ≤ 2 * D) :
    |f32 t * M - t / D| ≤ 11 / 16777216 := by
  have e100 : (2 : ℚ) ^ (-100 : Int) = 1 / 1267650600228229401496703205376 := by norm_num
  have hD : 0 < D := lt_of_lt_of_le (two_zpow_pos _) hD1
  rw [e100] at hD1
  have hM : 0 < M := by
    by_contra hc
    have : M * D ≤ 0 := mul_nonpos_of_nonpos_of_nonneg (not_lt.mp hc) hD.le
    linarith
  have hx := abs_le.mp (f32_error t)
  rw [abs_of_nonneg t0] at hx
  have hMle : M ≤ 2 * 1267650600228229401496703205376 := by
    have h1 : M * (1 / 1267650600228229401496703205376) ≤ M * D :=
      mul_le_mul_of_nonneg_left hD1 hM.le
    linarith
  have e150 : (1 : ℚ) / (2 : ℚ) ^ (150 : Nat) * (2 * 1267650600228229401496703205376)
      = 1 / 562949953421312 := by norm_num
  have hdM : 1 / (2 : ℚ) ^ (150 : Nat) * M ≤ 1 / 562949953421312 := by
    rw [← e150]
    exact mul_le_mul_of_nonneg_left hMle (by positivity)
  have htM : t * M ≤ 2 * (1 + 1 / 4194304) := by
    calc t * M ≤ 2 * D * M := mul_le_mul_of_nonneg_right t2 hM.le
      _ = 2 * (M * D) := by ring
      _ ≤ 2 * (1 + 1 / 4194304) := by linarith
  have hr0 : 0 ≤ t / D := div_nonneg t0 hD.le
  have hr2 : t / D ≤ 2 := by
    rw [div_le_iff₀ hD]
    exact t2
  have hrel : f32 t * M - t / D = (f32 t - t) * M + t / D * (M * D - 1) := by
    field_simp
    ring
  have p1 : (f32 t - t) * M ≤ (t / 16777216 + 1 / (2 : ℚ) ^ (150 : Nat)) * M :=
    mul_le_mul_of_nonneg_right hx.2 hM.le
  have p2 : -(t / 16777216 + 1 / (2 : ℚ) ^ (150 : Nat)) * M ≤ (f32 t - t) * M :=
    mul_le_mul_of_nonneg_right hx.1 hM.le
  have p3 : (t / 16777216 + 1 / (2 : ℚ) ^ (150 : Nat)) * M
      = t * M / 16777216 + 1 / (2 : ℚ) ^ (150 : Nat) * M := by ring
  have q1 : t / D * (M * D - 1) ≤ 2 * (1 / 4194304) :=
    le_trans (mul_le_mul_of_nonneg_left (by linarith) hr0)
      (mul_le_mul_of_nonneg_right hr2 (by norm_num))
  have q2 : -(2 * (1 / 4194304)) ≤ t / D * (M * D - 1) := by
    have a : t / D * (-(1 / 4194304)) ≤ t / D * (M * D - 1) :=
      mul_le_mul_of_nonneg_left (by linarith) hr0
    have b : t / D * (1 / 4194304) ≤ 2 * (1 / 4194304) :=
      mul_le_mul_of_nonneg_right hr2 (by norm_num)
    linarith
  rw [hrel, abs_le]
  constructor <;> linarith

/-- From the product to the heat: the `float` rounding of the product, the `double`
subtraction, the clamp and the final rounding add at most `5 * 2 ^ -24`. -/
theorem density_heat_of_product (y r : ℚ) (y0 : 0 ≤ y) (y3 : y ≤ 3)
    (h : |y - r| ≤ 11 / 16777216) :
    |f32 (Clamp (f64 (1 - f32 y)) 0 1) - Clamp (1 - r) 0 1| ≤ 1 / 1048576 := by
  obtain ⟨h1, h2⟩ := abs_le.mp h
  have hz := abs_le.mp (f32_error y)
  rw [abs_of_nonneg y0] at hz
  have e150 : (1 : ℚ) / (2 : ℚ) ^ (150 : Nat) ≤ 1 / 16777216 / 16777216 := by norm_num
  have z0 : 0 ≤ f32 y := f32_nonneg _ y0
  have hw := abs_le.mp (f64_error_small (1 - f32 y)
    (by rw [abs_lt]; constructor <;> linarith))
  have hab : |f64 (1 - f32 y) - (1 - r)| ≤ 15 / 16777216 := by
    rw [abs_le]
    constructor <;> linarith
  have hc := abs_le.mp (le_trans (Clamp_lipschitz (f64 (1 - f32 y)) (1 - r)) hab)
  obtain ⟨c0, c1⟩ := Clamp_unit_bounds (f64 (1 - f32 y))
  have hf := abs_le.mp (f32_error_unit (Clamp (f64 (1 - f32 y)) 0 1)
    (by rw [abs_of_nonneg c0]; linarith))
  rw [abs_le]
  constructor <;> linarith

/-- The heat is 0 from twice the range above the lower bound on. -/
theorem DensityHeat_high (A Min M D : ℚ) (hD1 : (2 : ℚ) ^ (-100 : Int) ≤ D)
    (m1 : 1 - 1 / 4194304 ≤ M * D) (h : Min + 2 * D ≤ A) :
    DensityHeat A Min M = 0 ∧ Clamp (1 - (A - Min) / D) 0 1 = 0 := by
  have e126 : (2 : ℚ) ^ (-126 : Int) ≤ (2 : ℚ) ^ (-100 : Int) := two_zpow_le _ _ (by norm_num)
  have hD : 0 < D := lt_of_lt_of_le (two_zpow_pos _) hD1
  have hM : 0 < M := by
    by_contra hc
    have : M * D ≤ 0 := mul_nonpos_of_nonpos_of_nonneg (not_lt.mp hc) hD.le
    linarith
  obtain ⟨e1, -, -, -, e0⟩ := f32_values
  have ht : 2 * D ≤ A - Min := by linarith
  obtain ⟨x1, -⟩ := f32_pos (A - Min) (by linarith)
  have hy : 1 ≤ f32 (A - Min) * M := by
    calc (1 : ℚ) ≤ 2 * (1 - 1 / 4194304) * (1 - 1 / 16777216) := by norm_num
      _ ≤ 2 * (M * D) * (1 - 1 / 16777216) := by linarith
      _ = (2 * D) * (1 - 1 / 16777216) * M := by ring
      _ ≤ (A - Min) * (1 - 1 / 16777216) * M :=
        mul_le_mul_of_nonneg_right (mul_le_mul_of_nonneg_right ht (by norm_num)) hM.le
      _ ≤ f32 (A - Min) * M := mul_le_mul_of_nonneg_right x1 hM.le
  have hz : 1 ≤ f32 (f32 (A - Min) * M) := by
    have := f32_mono _ _ hy
    rwa [e1] at this
  have hw : f64 (1 - f32 (f32 (A - Min) * M)) ≤ 0 := by
    have := f64_mono (1 - f32 (f32 (A - Min) * M)) 0 (by linarith)
    have e : f64 0 = 0 := by decide!
    rwa [e] at this
  constructor
  · unfold DensityHeat
    rw [Clamp_unit_of_le _ hw, e0]
  · apply Clamp_unit_of_le
    have : 2 ≤ (A - Min) / D := by
      rw [le_div_iff₀ hD]
      exact ht
    linarith

/-- The heat against the exact quotient, for a multiplier within `2 ^ -22` of the reciprocal of
the range `D`. -/
theorem DensityHeat_error (A Min M D : ℚ) (hD1 : (2 : ℚ) ^ (-100 : Int) ≤ D)
    (m1 : 1 - 1 / 4194304 ≤ M * D) (m2 : M * D ≤ 1 + 1 / 4194304) :
    |DensityHeat A Min M - Clamp (1 - (A - Min) / D) 0 1| ≤ 1 / 1048576 := by
  have hD : 0 < D := lt_of_lt_of_le (two_zpow_pos _) hD1
  have hM : 0 < M := by
    by_contra hc
    have : M * D ≤ 0 := mul_nonpos_of_nonpos_of_nonneg (not_lt.mp hc) hD.le
    linarith
  rcases le_total A Min with hlow | hlow
  · rw [DensityHeat_low A Min M hM.le hlow]
    have : Clamp (1 - (A - Min) / D) 0 1 = 1 := by
      apply Clamp_unit_of_ge
      have : (A - Min) / D ≤ 0 := div_nonpos_of_nonpos_of_nonneg (by linarith) hD.le
      linarith
    rw [this]
    norm_num
  rcases le_total (Min + 2 * D) A with hhigh | hhigh
  · obtain ⟨a, b⟩ := DensityHeat_high A Min M D hD1 m1 hhigh
    rw [a, b]
    norm_num
  have t0 : 0 ≤ A - Min := by linarith
  have t2 : A - Min ≤ 2 * D := by linarith
  have hp := density_product_error (A - Min) M D hD1 m1 m2 t0 t2
  have y0 : 0 ≤ f32 (A - Min) * M := mul_nonneg (f32_nonneg _ t0) hM.le
  have hr2 : (A - Min) / D ≤ 2 := by
    rw [div_le_iff₀ hD]
    exact t2
  have y3 : f32 (A - Min) * M ≤ 3 := by
    have := abs_le.mp hp
    linarith
  exact density_heat_of_product _ _ y0 y3 hp

/-- C25 (counterexample): with the doubled bounds 2 and 43 the multiplier that `UpdateSettings`
stores is the `float` nearest to `1 / 41`, which is below `1 / 41`; for a triangle of the
doubled area 43, the upper bound, the product rounds to `1 - 2 ^ -24` and the heat is
`2 ^ -24`, not 0, while `clamp(1 - (A2 - Min2) / (Max2 - Min2), 0, 1)` is 0. -/
theorem DensityHeat_at_upper_bound :
    (FSDCollisionSettings.UpdateSettings
        { FSDCollisionSettings.Init with
          TriangleDensityMinArea2 := 2, TriangleDensityMaxArea2 := 43 } 0).TriangleDensityMul
      = 3273603 / 134217728
    ∧ DensityHeat (f32 43) 2 (3273603 / 134217728) = 1 / 16777216
    ∧ Clamp (1 - ((f32 43 : ℚ) - 2) / (43 - 2)) 0 1 = 0
    ∧ CalculateVisualisationColour EVisualisationType.TriangleDensity true
        { FHitResult.Init with Normal := ⟨-1, 0, 0⟩, Geometry := some [some 43] }
        ⟨1, 0, 0⟩ ⟨1, 0, 0⟩ FTimer.Zero 2 (3273603 / 134217728)
      = Heatmap (1 / 16777216) 1 := by
  decide!

/-- C25 (amended): in the density mode, for a hit whose last leaf with a triangle under the ray
has the doubled area `a`, and settings whose doubled bounds differ by a range in
`[2 ^ -100, 2 ^ 100]`, the result is `Heatmap(heat, FacingRatio)` with the heat
`clamp(1 - (A2 - Min2) * Mul, 0, 1)` evaluated in floating point, `A2` being `a` as a `float`.
The heat lies in `[0, 1]`, is within `2 ^ -20` of `clamp(1 - (A2 - Min2) / (Max2 - Min2), 0, 1)`,
is exactly 1 for `A2 ≤ Min2`, is at most `2 ^ -20` for `A2 ≥ Max2`, is exactly 0 from twice the
range above `Min2` on, and does not rise when the area grows. -/
theorem TriangleDensity_heat (s : FSDCollisionSettings) (g : Nat) (HitResult : FHitResult)
    (TraceNormal RevViewForward : FVector) (Timer : FTimer) (pre post : List (Option ℚ)) (a : ℚ)
    (hD1 : (2 : ℚ) ^ (-100 : Int) ≤ s.TriangleDensityMaxArea2 - s.TriangleDensityMinArea2)
    (hD2 : s.TriangleDensityMaxArea2 - s.TriangleDensityMinArea2 ≤ (2 : ℚ) ^ (100 : Int))
    (hG : HitResult.Geometry = some (pre ++ some a :: post))
    (hpost : ∀ l ∈ post, l = none) :
    CalculateVisualisationColour EVisualisationType.TriangleDensity true HitResult TraceNormal
        RevViewForward Timer (s.UpdateSettings g).TriangleDensityMinArea2
        (s.UpdateSettings g).TriangleDensityMul
      = Heatmap
          (DensityHeat (f32 a) (s.UpdateSettings g).TriangleDensityMinArea2
            (s.UpdateSettings g).TriangleDensityMul)
          (Clamp (-(f32 (TraceNormal.Dot HitResult.Normal))) 0 1)
    ∧ 0 ≤ DensityHeat (f32 a) (s.UpdateSettings g).TriangleDensityMinArea2
            (s.UpdateSettings g).TriangleDensityMul
    ∧ DensityHeat (f32 a) (s.UpdateSettings g).TriangleDensityMinArea2
            (s.UpdateSettings g).TriangleDensityMul ≤ 1
    ∧ |DensityHeat (f32 a) (s.UpdateSettings g).TriangleDensityMinArea2
            (s.UpdateSettings g).TriangleDensityMul
        - Clamp (1 - (f32 a - (s.UpdateSettings g).TriangleDensityMinArea2)
            / ((s.UpdateSettings g).TriangleDensityMaxArea2
                - (s.UpdateSettings g).TriangleDensityMinArea2)) 0 1| ≤ 1 / 1048576
    ∧ (f32 a ≤ (s.UpdateSettings g).TriangleDensityMinArea2 →
        DensityHeat (f32 a) (s.UpdateSettings g).TriangleDensityMinArea2
            (s.UpdateSettings g).TriangleDensityMul = 1)
    ∧ ((s.UpdateSettings g).TriangleDensityMaxArea2 ≤ f32 a →
        DensityHeat (f32 a) (s.UpdateSettings g).TriangleDensityMinArea2
            (s.UpdateSettings g).TriangleDensityMul ≤ 1 / 1048576)
    ∧ ((s.UpdateSettings g).TriangleDensityMinArea2
          + 2 * ((s.UpdateSettings g).TriangleDensityMaxArea2
            - (s.UpdateSettings g).TriangleDensityMinArea2) ≤ f32 a →
        DensityHeat (f32 a) (s.UpdateSettings g).TriangleDensityMinArea2
            (s.UpdateSettings g).TriangleDensityMul = 0)
    ∧ (∀ b : ℚ, f32 a ≤ f32 b →
        DensityHeat (f32 b) (s.UpdateSettings g).TriangleDensityMinArea2
            (s.UpdateSettings g).TriangleDensityMul
          ≤ DensityHeat (f32 a) (s.UpdateSettings g).TriangleDensityMinArea2
            (s.UpdateSettings g).TriangleDensityMul) := by
  obtain ⟨hMin, hMax, hMul⟩ := UpdateSettings_density s g
  rw [hMin, hMax, hMul]
  set Min2 := s.TriangleDensityMinArea2
  set Max2 := s.TriangleDensityMaxArea2
  obtain ⟨m1, m2⟩ := recip_error_pos (Max2 - Min2) hD1 hD2
  have hD : 0 < Max2 - Min2 := lt_of_lt_of_le (two_zpow_pos _) hD1
  have hM : 0 ≤ f32 (f64 (1 / f32 (Max2 - Min2))) :=
    f32_nonneg _ (f64_nonneg _ (div_nonneg zero_le_one (f32_nonneg _ hD.le)))
  have herr := DensityHeat_error (f32 a) Min2 _ (Max2 - Min2) hD1 m1 m2
  refine ⟨?_, (DensityHeat_bounds _ _ _).1, (DensityHeat_bounds _ _ _).2, herr,
    DensityHeat_low _ _ _ hM, ?_,
    fun h => (DensityHeat_high _ _ _ _ hD1 m1 h).1,
    fun b hb => DensityHeat_antitone _ _ _ _ hM hb⟩
  · simp only [CalculateVisualisationColour, hG, reduceCtorEq, if_false, Bool.not_true,
      Bool.false_eq_true]
    exact VisitLeafObjects_last _ _ _ a post hpost pre _
  · intro h
    have hc : Clamp (1 - (f32 a - Min2) / (Max2 - Min2)) 0 1 = 0 := by
      apply Clamp_unit_of_le
      have : 1 ≤ (f32 a - Min2) / (Max2 - Min2) := by
        rw [le_div_iff₀ hD]
        linarith
      linarith
    rw [hc] at herr
    have := abs_le.mp herr
    linarith

/-- C25 (instance): the doubled bounds 2 and 20000 of the default areas and a triangle of the
doubled area 10001. -/
theorem TriangleDensity_heat_witness :
    (2 : ℚ) ^ (-100 : Int) ≤ (20000 : ℚ) - 2 ∧ (20000 : ℚ) - 2 ≤ (2 : ℚ) ^ (100 : Int)
    ∧ |DensityHeat (f32 10001)
          (FSDCollisionSettings.UpdateSettings
            { FSDCollisionSettings.Init with
              TriangleDensityMinArea2 := 2, TriangleDensityMaxArea2 := 20000 }
            0).TriangleDensityMinArea2
          (FSDCollisionSettings.UpdateSettings
            { FSDCollisionSettings.Init with
              TriangleDensityMinArea2 := 2, TriangleDensityMaxArea2 := 20000 }
            0).TriangleDensityMul
        - Clamp (1 - (f32 10001
            - (FSDCollisionSettings.UpdateSettings
                { FSDCollisionSettings.Init with
                  TriangleDensityMinArea2 := 2, TriangleDensityMaxArea2 := 20000 }
                0).TriangleDensityMinArea2)
            / ((FSDCollisionSettings.UpdateSettings
                { FSDCollisionSettings.Init with
                  TriangleDensityMinArea2 := 2, TriangleDensityMaxArea2 := 20000 }
                0).TriangleDensityMaxArea2
              - (FSDCollisionSettings.UpdateSettings
                { FSDCollisionSettings.Init with
                  TriangleDensityMinArea2 := 2, TriangleDensityMaxArea2 := 20000 }
                0).TriangleDensityMinArea2)) 0 1| ≤ 1 / 1048576 :=
  ⟨by norm_num, by norm_num,
    (TriangleDensity_heat
      { FSDCollisionSettings.Init with
        TriangleDensityMinArea2 := 2, TriangleDensityMaxArea2 := 20000 } 0
      { FHitResult.Init with Geometry := some [some 10001] } ⟨1, 0, 0⟩ ⟨1, 0, 0⟩ FTimer.Zero
      [] [] 10001 (by norm_num) (by norm_num) rfl (by simp)).2.2.2.1⟩

/-! ## Normalised device coordinates of a pixel -/

/-- The texture coordinate of a pixel centre along one axis, `PointToUV * (x + 0.5)` in
`double`, against `(x + 1 / 2) / W`. -/
theorem uv_axis_error (W x : Int) (hW1 : 1 ≤ W) (hW2 : W < 2147483648) (hx0 : 0 ≤ x)
    (hx1 : x < W) :
    |f64 (f64 (1 / (W : ℚ)) * f64 ((x : ℚ) + 1 / 2)) - ((x : ℚ) + 1 / 2) / (W : ℚ)|
      ≤ 1 / 1125899906842624 := by
  have hWq1 : (1 : ℚ) ≤ (W : ℚ) := by exact_mod_cast hW1
  have hWq2 : (W : ℚ) ≤ 2147483648 := by exact_mod_cast hW2.le
  have hW0 : (0 : ℚ) < (W : ℚ) := by linarith
  have hxq0 : (0 : ℚ) ≤ (x : ℚ) := by exact_mod_cast hx0
  have hxq1 : (x : ℚ) + 1 ≤ (W : ℚ) := by exact_mod_cast hx1
  have e31 : (2 : ℚ) ^ (-31 : Int) = 1 / 2147483648 := by norm_num
  have e1 : (2 : ℚ) ^ (-1 : Int) = 1 / 2 := by norm_num
  have hinv : (2 : ℚ) ^ (-31 : Int) ≤ 1 / (W : ℚ) := by
    rw [e31]
    exact one_div_le_one_div_of_le hW0 hWq2
  obtain ⟨p1, p2⟩ := f64_pos (1 / (W : ℚ)) (le_trans (two_zpow_le _ _ (by norm_num)) hinv)
  obtain ⟨c1, c2⟩ := f64_pos ((x : ℚ) + 1 / 2)
    (le_trans (two_zpow_le (-1022) (-1) (by norm_num)) (by rw [e1]; linarith))
  have hp0 : 0 ≤ f64 (1 / (W : ℚ)) := f64_nonneg _ (by positivity)
  have hc0 : 0 ≤ f64 ((x : ℚ) + 1 / 2) := f64_nonneg _ (by linarith)
  have u0 : 0 ≤ ((x : ℚ) + 1 / 2) / (W : ℚ) := by positivity
  have u1 : ((x : ℚ) + 1 / 2) / (W : ℚ) ≤ 1 := by
    rw [div_le_one hW0]
    linarith
  have hu : 1 / (W : ℚ) * ((x : ℚ) + 1 / 2) = ((x : ℚ) + 1 / 2) / (W : ℚ) := by
    rw [one_div, inv_mul_eq_div]
  -- the exact product of the two rounded factors
  have q1 : f64 (1 / (W : ℚ)) * f64 ((x : ℚ) + 1 / 2)
      ≤ ((x : ℚ) + 1 / 2) / (W : ℚ) * ((1 + 1 / 9007199254740992) * (1 + 1 / 9007199254740992)) := by
    calc f64 (1 / (W : ℚ)) * f64 ((x : ℚ) + 1 / 2)
        ≤ (1 / (W : ℚ) * (1 + 1 / 9007199254740992))
            * (((x : ℚ) + 1 / 2) * (1 + 1 / 9007199254740992)) :=
          mul_le_mul p2 c2 hc0 (by positivity)
      _ = 1 / (W : ℚ) * ((x : ℚ) + 1 / 2)
            * ((1 + 1 / 9007199254740992) * (1 + 1 / 9007199254740992)) := by ring
      _ = _ := by rw [hu]
  have q2 : ((x : ℚ) + 1 / 2) / (W : ℚ) * ((1 - 1 / 9007199254740992) * (1 - 1 / 9007199254740992))
      ≤ f64 (1 / (W : ℚ)) * f64 ((x : ℚ) + 1 / 2) := by
    calc ((x : ℚ) + 1 / 2) / (W : ℚ) * ((1 - 1 / 9007199254740992) * (1 - 1 / 9007199254740992))
        = (1 / (W : ℚ) * (1 - 1 / 9007199254740992))
            * (((x : ℚ) + 1 / 2) * (1 - 1 / 9007199254740992)) := by rw [← hu]; ring
      _ ≤ f64 (1 / (W : ℚ)) * f64 ((x : ℚ) + 1 / 2) :=
          mul_le_mul p1 c1 (by nlinarith) hp0
  have r1 : ((x : ℚ) + 1 / 2) / (W : ℚ) * ((1 + 1 / 9007199254740992) * (1 + 1 / 9007199254740992))
      ≤ ((x : ℚ) + 1 / 2) / (W : ℚ) + 3 / 9007199254740992 := by nlinarith
  have r2 : ((x : ℚ) + 1 / 2) / (W : ℚ) - 3 / 9007199254740992
      ≤ ((x : ℚ) + 1 / 2) / (W : ℚ) * ((1 - 1 / 9007199254740992) * (1 - 1 / 9007199254740992)) := by
    nlinarith
  have hpc0 : 0 ≤ f64 (1 / (W : ℚ)) * f64 ((x : ℚ) + 1 / 2) := mul_nonneg hp0 hc0
  have he := abs_le.mp (f64_error_small (f64 (1 / (W : ℚ)) * f64 ((x : ℚ) + 1 / 2))
    (by rw [abs_of_nonneg hpc0]; linarith))
  rw [abs_le]
  constructor <;> linarith

/-- The coordinate `uv * 2 + -1` along the X axis against `(2 * x + 1) / W - 1`. -/
theorem ndc_x_error (W x : Int) (hW1 : 1 ≤ W) (hW2 : W < 2147483648) (hx0 : 0 ≤ x)
    (hx1 : x < W) :
    |f64 (f64 (f64 (f64 (1 / (W : ℚ)) * f64 ((x : ℚ) + 1 / 2)) * 2) + -1)
        - ((2 * (x : ℚ) + 1) / (W : ℚ) - 1)| ≤ 1 / 281474976710656 := by
  have hWq1 : (1 : ℚ) ≤ (W : ℚ) := by exact_mod_cast hW1
  have hW0 : (0 : ℚ) < (W : ℚ) := by linarith
  have hxq0 : (0 : ℚ) ≤ (x : ℚ) := by exact_mod_cast hx0
  have hxq1 : (x : ℚ) + 1 ≤ (W : ℚ) := by exact_mod_cast hx1
  have u0 : 0 ≤ ((x : ℚ) + 1 / 2) / (W : ℚ) := by positivity
  have u1 : ((x : ℚ) + 1 / 2) / (W : ℚ) ≤ 1 := by
    rw [div_le_one hW0]
    linarith
  have hu := abs_le.mp (uv_axis_error W x hW1 hW2 hx0 hx1)
  have h1 := abs_le.mp (f64_error_small (f64 (f64 (1 / (W : ℚ)) * f64 ((x : ℚ) + 1 / 2)) * 2)
    (by rw [abs_lt]; constructor <;> linarith))
  have h2 := abs_le.mp (f64_error_small
    (f64 (f64 (f64 (1 / (W : ℚ)) * f64 ((x : ℚ) + 1 / 2)) * 2) + -1)
    (by rw [abs_lt]; constructor <;> linarith))
  have e : (2 * (x : ℚ) + 1) / (W : ℚ) - 1 = ((x : ℚ) + 1 / 2) / (W : ℚ) * 2 - 1 := by
    field_simp
    ring
  rw [e, abs_le]
  constructor <;> linarith

/-- The coordinate `uv * -2 + 1` along the Y axis against `1 - (2 * y + 1) / H`. -/
theorem ndc_y_error (H y : Int) (hH1 : 1 ≤ H) (hH2 : H < 2147483648) (hy0 : 0 ≤ y)
    (hy1 : y < H) :
    |f64 (f64 (f64 (f64 (1 / (H : ℚ)) * f64 ((y : ℚ) + 1 / 2)) * -2) + 1)
        - (1 - (2 * (y : ℚ) + 1) / (H : ℚ))| ≤ 1 / 281474976710656 := by
  have hWq1 : (1 : ℚ) ≤ (H : ℚ) := by exact_mod_cast hH1
  have hW0 : (0 : ℚ) < (H : ℚ) := by linarith
  have hxq0 : (0 : ℚ) ≤ (y : ℚ) := by exact_mod_cast hy0
  have hxq1 : (y : ℚ) + 1 ≤ (H : ℚ) := by exact_mod_cast hy1
  have u0 : 0 ≤ ((y : ℚ) + 1 / 2) / (H : ℚ) := by positivity
  have u1 : ((y : ℚ) + 1 / 2) / (H : ℚ) ≤ 1 := by
    rw [div_le_one hW0]
    linarith
  have hu := abs_le.mp (uv_axis_error H y hH1 hH2 hy0 hy1)
  have h1 := abs_le.mp (f64_error_small (f64 (f64 (1 / (H : ℚ)) * f64 ((y : ℚ) + 1 / 2)) * -2)
    (by rw [abs_lt]; constructor <;> linarith))
  have h2 := abs_le.mp (f64_error_small
    (f64 (f64 (f64 (1 / (H : ℚ)) * f64 ((y : ℚ) + 1 / 2)) * -2) + 1)
    (by rw [abs_lt]; constructor <;> linarith))
  have e : 1 - (2 * (y : ℚ) + 1) / (H : ℚ) = ((y : ℚ) + 1 / 2) / (H : ℚ) * -2 + 1 := by
    field_simp
    ring
  rw [e, abs_le]
  constructor <;> linarith

/-- C27: for a renderer constructed over a buffer of `W x H` pixels (`1 ≤ W, H < 2 ^ 31`) and a
pixel `(x, y)` inside it, the normalised device coordinates that `RenderPerspectivePixel`
computes are `((2 * x + 1) / W - 1, 1 - (2 * y + 1) / H)` up to `2 ^ -48`, both lie strictly
between -1 and 1, the first grows strictly with `x` and the second falls strictly as `y`
grows. -/
theorem PixelNDC_of_pixel (World : FTraceEnvironment) (PixelData : List FColor)
    (Settings : FSDCollisionSettings) (Origin RevViewForward : FVector) (W H x y : Int)
    (hW1 : 1 ≤ W) (hW2 : W < 2147483648) (hH1 : 1 ≤ H) (hH2 : H < 2147483648)
    (hx0 : 0 ≤ x) (hx1 : x < W) (hy0 : 0 ≤ y) (hy1 : y < H) :
    |((FPerspectiveRenderer.Construct World ⟨⟨W, H⟩, PixelData⟩ Settings Origin
          RevViewForward).PixelNDC ⟨x, y⟩).1 - ((2 * (x : ℚ) + 1) / (W : ℚ) - 1)|
        ≤ 1 / 281474976710656
    ∧ |((FPerspectiveRenderer.Construct World ⟨⟨W, H⟩, PixelData⟩ Settings Origin
          RevViewForward).PixelNDC ⟨x, y⟩).2 - (1 - (2 * (y : ℚ) + 1) / (H : ℚ))|
        ≤ 1 / 281474976710656
    ∧ -1 < ((FPerspectiveRenderer.Construct World ⟨⟨W, H⟩, PixelData⟩ Settings Origin
          RevViewForward).PixelNDC ⟨x, y⟩).1
    ∧ ((FPerspectiveRenderer.Construct World ⟨⟨W, H⟩, PixelData⟩ Settings Origin
          RevViewForward).PixelNDC ⟨x, y⟩).1 < 1
    ∧ -1 < ((FPerspectiveRenderer.Construct World ⟨⟨W, H⟩, PixelData⟩ Settings Origin
          RevViewForward).PixelNDC ⟨x, y⟩).2
    ∧ ((FPerspectiveRenderer.Construct World ⟨⟨W, H⟩, PixelData⟩ Settings Origin
          RevViewForward).PixelNDC ⟨x, y⟩).2 < 1
    ∧ (∀ x2 y2 : Int, x < x2 → x2 < W →
        ((FPerspectiveRenderer.Construct World ⟨⟨W, H⟩, PixelData⟩ Settings Origin
            RevViewForward).PixelNDC ⟨x, y⟩).1
          < ((FPerspectiveRenderer.Construct World ⟨⟨W, H⟩, PixelData⟩ Settings Origin
            RevViewForward).PixelNDC ⟨x2, y2⟩).1)
    ∧ (∀ x2 y2 : Int, y < y2 → y2 < H →
        ((FPerspectiveRenderer.Construct World ⟨⟨W, H⟩, PixelData⟩ Settings Origin
            RevViewForward).PixelNDC ⟨x2, y2⟩).2
          < ((FPerspectiveRenderer.Construct World ⟨⟨W, H⟩, PixelData⟩ Settings Origin
            RevViewForward).PixelNDC ⟨x, y⟩).2) := by
  have hWq1 : (1 : ℚ) ≤ (W : ℚ) := by exact_mod_cast hW1
  have hWq2 : (W : ℚ) ≤ 2147483648 := by exact_mod_cast hW2.le
  have hHq1 : (1 : ℚ) ≤ (H : ℚ) := by exact_mod_cast hH1
  have hHq2 : (H : ℚ) ≤ 2147483648 := by exact_mod_cast hH2.le
  have hW0 : (0 : ℚ) < (W : ℚ) := by linarith
  have hH0 : (0 : ℚ) < (H : ℚ) := by linarith
  have hxq0 : (0 : ℚ) ≤ (x : ℚ) := by exact_mod_cast hx0
  have hxq1 : (x : ℚ) + 1 ≤ (W : ℚ) := by exact_mod_cast hx1
  have hyq0 : (0 : ℚ) ≤ (y : ℚ) := by exact_mod_cast hy0
  have hyq1 : (y : ℚ) + 1 ≤ (H : ℚ) := by exact_mod_cast hy1
  have iW : 1 / 2147483648 ≤ 1 / (W : ℚ) := one_div_le_one_div_of_le hW0 hWq2
  have iH : 1 / 2147483648 ≤ 1 / (H : ℚ) := one_div_le_one_div_of_le hH0 hHq2
  have ex := ndc_x_error W x hW1 hW2 hx0 hx1
  have ey := ndc_y_error H y hH1 hH2 hy0 hy1
  have ax := abs_le.mp ex
  have ay := abs_le.mp ey
  -- the exact values
  have vx1 : -1 + 1 / (W : ℚ) ≤ (2 * (x : ℚ) + 1) / (W : ℚ) - 1 := by
    have : 1 / (W : ℚ) ≤ (2 * (x : ℚ) + 1) / (W : ℚ) :=
      div_le_div_of_nonneg_right (by linarith) hW0.le
    linarith
  have vx2 : (2 * (x : ℚ) + 1) / (W : ℚ) - 1 ≤ 1 - 1 / (W : ℚ) := by
    have : (2 * (x : ℚ) + 1) / (W : ℚ) ≤ (2 * (W : ℚ) - 1) / (W : ℚ) :=
      div_le_div_of_nonneg_right (by linarith) hW0.le
    have e : (2 * (W : ℚ) - 1) / (W : ℚ) = 2 - 1 / (W : ℚ) := by
      field_simp
    linarith
  have vy1 : -1 + 1 / (H : ℚ) ≤ 1 - (2 * (y : ℚ) + 1) / (H : ℚ) := by
    have : (2 * (y : ℚ) + 1) / (H : ℚ) ≤ (2 * (H : ℚ) - 1) / (H : ℚ) :=
      div_le_div_of_nonneg_right (by linarith) hH0.le
    have e : (2 * (H : ℚ) - 1) / (H : ℚ) = 2 - 1 / (H : ℚ) := by
      field_simp
    linarith
  have vy2 : 1 - (2 * (y : ℚ) + 1) / (H : ℚ) ≤ 1 - 1 / (H : ℚ) := by
    have : 1 / (H : ℚ) ≤ (2 * (y : ℚ) + 1) / (H : ℚ) :=
      div_le_div_of_nonneg_right (by linarith) hH0.le
    linarith
  refine ⟨ex, ey, ?_, ?_, ?_, ?_, ?_, ?_⟩
  · show -1 < f64 (f64 (f64 (f64 (1 / (W : ℚ)) * f64 ((x : ℚ) + 1 / 2)) * 2) + -1)
    linarith
  · show f64 (f64 (f64 (f64 (1 / (W : ℚ)) * f64 ((x : ℚ) + 1 / 2)) * 2) + -1) < 1
    linarith
  · show -1 < f64 (f64 (f64 (f64 (1 / (H : ℚ)) * f64 ((y : ℚ) + 1 / 2)) * -2) + 1)
    linarith
  · show f64 (f64 (f64 (f64 (1 / (H : ℚ)) * f64 ((y : ℚ) + 1 / 2)) * -2) + 1) < 1
    linarith
  · intro x2 y2 h1 h2
    have ax2 := abs_le.mp (ndc_x_error W x2 hW1 hW2 (by omega) h2)
    have hq : (x : ℚ) + 1 ≤ (x2 : ℚ) := by exact_mod_cast h1
    have step : (2 * (x : ℚ) + 1) / (W : ℚ) + 2 * (1 / (W : ℚ)) ≤ (2 * (x2 : ℚ) + 1) / (W : ℚ) := by
      rw [← mul_div_assoc, ← add_div]
      exact div_le_div_of_nonneg_right (by linarith) hW0.le
    show f64 (f64 (f64 (f64 (1 / (W : ℚ)) * f64 ((x : ℚ) + 1 / 2)) * 2) + -1)
      < f64 (f64 (f64 (f64 (1 / (W : ℚ)) * f64 ((x2 : ℚ) + 1 / 2)) * 2) + -1)
    linarith
  · intro x2 y2 h1 h2
    have ay2 := abs_le.mp (ndc_y_error H y2 hH1 hH2 (by omega) h2)
    have hq : (y : ℚ) + 1 ≤ (y2 : ℚ) := by exact_mod_cast h1
    have step : (2 * (y : ℚ) + 1) / (H : ℚ) + 2 * (1 / (H : ℚ)) ≤ (2 * (y2 : ℚ) + 1) / (H : ℚ) := by
      rw [← mul_div_assoc, ← add_div]
      exact div_le_div_of_nonneg_right (by linarith) hH0.le
    show f64 (f64 (f64 (f64 (1 / (H : ℚ)) * f64 ((y2 : ℚ) + 1 / 2)) * -2) + 1)
      < f64 (f64 (f64 (f64 (1 / (H : ℚ)) * f64 ((y : ℚ) + 1 / 2)) * -2) + 1)
    linarith

/-- C27 (instance): the pixel (1, 2) of a 4 x 4 target. -/
theorem PixelNDC_of_pixel_witness :
    (1 : Int) ≤ 4 ∧ (1 : Int) < 4 ∧ (2 : Int) < 4
    ∧ -1 < ((FPerspectiveRenderer.Construct MissWorld ⟨⟨4, 4⟩, []⟩ FSDCollisionSettings.Init
          ⟨0, 0, 0⟩ ⟨1, 0, 0⟩).PixelNDC ⟨1, 2⟩).1
    ∧ ((FPerspectiveRenderer.Construct MissWorld ⟨⟨4, 4⟩, []⟩ FSDCollisionSettings.Init
          ⟨0, 0, 0⟩ ⟨1, 0, 0⟩).PixelNDC ⟨1, 2⟩).1 < 1 :=
  ⟨by decide, by decide, by decide,
    (PixelNDC_of_pixel MissWorld [] FSDCollisionSettings.Init ⟨0, 0, 0⟩ ⟨1, 0, 0⟩ 4 4 1 2
      (by decide) (by decide) (by decide) (by decide) (by decide) (by decide) (by decide)
      (by decide)).2.2.1,
    (PixelNDC_of_pixel MissWorld [] FSDCollisionSettings.Init ⟨0, 0, 0⟩ ⟨1, 0, 0⟩ 4 4 1 2
      (by decide) (by decide) (by decide) (by decide) (by decide) (by decide) (by decide)
      (by decide)).2.2.2.1⟩

/-! ## The size of the realtime render target -/

/-- Half-integers below `2 ^ 23` are `float` values. -/
theorem f32_half_int (n : Nat) (h1 : 1 ≤ n) (h2 : n < 16777216) :
    f32 ((n : ℚ) / 2) = (n : ℚ) / 2 := by
  have hn1 : (1 : ℚ) ≤ (n : ℚ) := by exact_mod_cast h1
  have hn2 : (n : ℚ) < 16777216 := by exact_mod_cast h2
  have hq : (n : ℚ) / 2 ≠ 0 := by positivity
  have habs : |(n : ℚ) / 2| = (n : ℚ) / 2 := abs_of_pos (by positivity)
  obtain ⟨b1, b2⟩ := binExp_spec _ hq
  rw [habs] at b1 b2
  have elo : (-1 : Int) ≤ binExp ((n : ℚ) / 2) := by
    apply binExp_ge_of_le _ hq
    rw [habs]
    have : (2 : ℚ) ^ (-1 : Int) = 1 / 2 := by norm_num
    rw [this]
    linarith
  have ehi : binExp ((n : ℚ) / 2) < 23 := by
    have h : (2 : ℚ) ^ binExp ((n : ℚ) / 2) < (2 : ℚ) ^ (23 : Int) := by
      have : (2 : ℚ) ^ (23 : Int) = 8388608 := by norm_num
      rw [this]
      linarith
    exact (zpow_lt_zpow_iff_right₀ (by norm_num : (1 : ℚ) < 2)).mp h
  obtain ⟨k, hk⟩ := Int.eq_ofNat_of_zero_le (by omega : (0 : Int) ≤ 22 - binExp ((n : ℚ) / 2))
  unfold f32
  apply roundBinary_of_grid 24 (-126) _ hq ((n : Int) * 2 ^ k)
  rw [max_eq_left (by omega)]
  have hz : (2 : ℚ) ^ (binExp ((n : ℚ) / 2) - (((24 : Nat) : Int) - 1)) ≠ 0 :=
    (two_zpow_pos _).ne'
  rw [div_eq_iff hz]
  push_cast
  rw [mul_assoc, ← zpow_natCast, ← zpow_add₀ (by norm_num : (2 : ℚ) ≠ 0), ← hk]
  have : (22 - binExp ((n : ℚ) / 2) + (binExp ((n : ℚ) / 2) - 23)) = -1 := by ring
  rw [this]
  norm_num
  ring

theorem f32_int_small (w : Int) (h1 : 1 ≤ w) (h2 : w < 8388608) :
    f32 (w : ℚ) = (w : ℚ) ∧ f32 ((w : ℚ) + 1 / 2) = (w : ℚ) + 1 / 2 := by
  obtain ⟨n, rfl⟩ := Int.eq_ofNat_of_zero_le (by omega : (0 : Int) ≤ w)
  have hn1 : 1 ≤ n := by omega
  have hn2 : n < 8388608 := by omega
  constructor
  · have := f32_half_int (2 * n) (by omega) (by omega)
    have e : (((2 * n : Nat) : ℚ)) / 2 = ((n : Int) : ℚ) := by
      push_cast
      ring
    rw [e] at this
    exact this
  · have := f32_half_int (2 * n + 1) (by omega) (by omega)
    have e : (((2 * n + 1 : Nat) : ℚ)) / 2 = ((n : Int) : ℚ) + 1 / 2 := by
      push_cast
      ring
    rw [e] at this
    exact this

/-- The scale that `BeginRenderViewFamily` uses lies between the rounded reciprocal of the
smaller view dimension and 1. -/
theorem realtime_scale_bounds (Scale : ℚ) (m : Int) (hS1 : Scale ≤ 1) (hm1 : 1 ≤ m)
    (hm2 : m < 2147483648) :
    1 ≤ f32 (m : ℚ)
    ∧ 1 - 1 / 16777216 ≤ f32 (m : ℚ) * max Scale (f32 (1 / f32 (m : ℚ)))
    ∧ max Scale (f32 (1 / f32 (m : ℚ))) ≤ 1
    ∧ 0 ≤ max Scale (f32 (1 / f32 (m : ℚ))) := by
  have hmq1 : (1 : ℚ) ≤ (m : ℚ) := by exact_mod_cast hm1
  have hmq2 : (m : ℚ) ≤ 2147483648 := by exact_mod_cast hm2.le
  obtain ⟨e1, -, -, -, -⟩ := f32_values
  have f1 : 1 ≤ f32 (m : ℚ) := by
    have := f32_mono 1 (m : ℚ) hmq1
    rwa [e1] at this
  have f2 : f32 (m : ℚ) ≤ 2147483648 := by
    have := f32_mono (m : ℚ) 2147483648 hmq2
    have e : f32 2147483648 = 2147483648 := by decide!
    rwa [e] at this
  have f0 : (0 : ℚ) < f32 (m : ℚ) := by linarith
  have e31 : (2 : ℚ) ^ (-31 : Int) = 1 / 2147483648 := by norm_num
  have hinv : (2 : ℚ) ^ (-31 : Int) ≤ 1 / f32 (m : ℚ) := by
    rw [e31]
    exact one_div_le_one_div_of_le f0 f2
  obtain ⟨i1, -⟩ := f32_pos (1 / f32 (m : ℚ)) (le_trans (two_zpow_le _ _ (by norm_num)) hinv)
  have i2 : f32 (1 / f32 (m : ℚ)) ≤ 1 := by
    have : 1 / f32 (m : ℚ) ≤ 1 := by
      rw [div_le_one f0]
      exact f1
    have := f32_mono _ _ this
    rwa [e1] at this
  have i0 : 0 ≤ f32 (1 / f32 (m : ℚ)) := f32_nonneg _ (by positivity)
  refine ⟨f1, ?_, max_le hS1 i2, le_trans i0 (le_max_right _ _)⟩
  calc 1 - 1 / 16777216 = f32 (m : ℚ) * (1 / f32 (m : ℚ) * (1 - 1 / 16777216)) := by
        field_simp
        ring
    _ ≤ f32 (m : ℚ) * f32 (1 / f32 (m : ℚ)) := mul_le_mul_of_nonneg_left i1 f0.le
    _ ≤ f32 (m : ℚ) * max Scale (f32 (1 / f32 (m : ℚ))) :=
        mul_le_mul_of_nonneg_left (le_max_right _ _) f0.le

/-- One dimension of the render target is at least 1, for a view dimension `w` that is at least
the smaller view dimension `m`. -/
theorem realtime_dimension_ge (Scale : ℚ) (w m : Int) (hS1 : Scale ≤ 1) (hm1 : 1 ≤ m)
    (hm2 : m < 2147483648) (hmw : m ≤ w) :
    1 ≤ truncToInt (f32 (f32 (f32 (w : ℚ) * max Scale (f32 (1 / f32 (m : ℚ)))) + 1 / 2)) := by
  obtain ⟨f1, p1, s1, s0⟩ := realtime_scale_bounds Scale m hS1 hm1 hm2
  obtain ⟨e1, -, -, -, -⟩ := f32_values
  have hw : f32 (m : ℚ) ≤ f32 (w : ℚ) := f32_mono _ _ (by exact_mod_cast hmw)
  have a1 : 1 - 1 / 16777216 ≤ f32 (w : ℚ) * max Scale (f32 (1 / f32 (m : ℚ))) :=
    le_trans p1 (mul_le_mul_of_nonneg_right hw s0)
  have a2 : 1 - 1 / 16777216 ≤ f32 (f32 (w : ℚ) * max Scale (f32 (1 / f32 (m : ℚ)))) := by
    have := f32_mono _ _ a1
    have e : f32 (1 - 1 / 16777216) = 1 - 1 / 16777216 := by decide!
    rwa [e] at this
  have a3 : 1 ≤ f32 (f32 (f32 (w : ℚ) * max Scale (f32 (1 / f32 (m : ℚ)))) + 1 / 2) := by
    have := f32_mono 1 (f32 (f32 (w : ℚ) * max Scale (f32 (1 / f32 (m : ℚ)))) + 1 / 2)
      (by linarith)
    rwa [e1] at this
  unfold truncToInt
  rw [if_pos (by linarith)]
  exact Int.le_floor.mpr (by exact_mod_cast a3)

/-- One dimension of the render target is at most the view dimension `w`, for `w < 2 ^ 23`. -/
theorem realtime_dimension_le (Scale : ℚ) (w m : Int) (hS1 : Scale ≤ 1)
    (hm1 : 1 ≤ m) (hm2 : m < 2147483648) (hw1 : 1 ≤ w) (hw2 : w < 8388608) :
    truncToInt (f32 (f32 (f32 (w : ℚ) * max Scale (f32 (1 / f32 (m : ℚ)))) + 1 / 2)) ≤ w := by
  obtain ⟨f1, p1, s1, s0⟩ := realtime_scale_bounds Scale m hS1 hm1 hm2
  obtain ⟨r1, r2⟩ := f32_int_small w hw1 hw2
  have hwq : (1 : ℚ) ≤ (w : ℚ) := by exact_mod_cast hw1
  rw [r1]
  have a0 : 0 ≤ (w : ℚ) * max Scale (f32 (1 / f32 (m : ℚ))) := mul_nonneg (by linarith) s0
  have a1 : (w : ℚ) * max Scale (f32 (1 / f32 (m : ℚ))) ≤ (w : ℚ) := by
    have := mul_le_mul_of_nonneg_left s1 (by linarith : (0 : ℚ) ≤ (w : ℚ))
    linarith
  have a2 : f32 ((w : ℚ) * max Scale (f32 (1 / f32 (m : ℚ)))) ≤ (w : ℚ) := by
    have := f32_mono _ _ a1
    rwa [r1] at this
  have a3 : f32 (f32 ((w : ℚ) * max Scale (f32 (1 / f32 (m : ℚ)))) + 1 / 2) ≤ (w : ℚ) + 1 / 2 := by
    have := f32_mono (f32 ((w : ℚ) * max Scale (f32 (1 / f32 (m : ℚ)))) + 1 / 2)
      ((w : ℚ) + 1 / 2) (by linarith)
    rwa [r2] at this
  have a4 : 0 ≤ f32 (f32 ((w : ℚ) * max Scale (f32 (1 / f32 (m : ℚ)))) + 1 / 2) :=
    f32_nonneg _ (by linarith [f32_nonneg _ a0])
  unfold truncToInt
  rw [if_pos a4]
  have : ⌊f32 (f32 ((w : ℚ) * max Scale (f32 (1 / f32 (m : ℚ)))) + 1 / 2)⌋ < w + 1 := by
    rw [Int.floor_lt]
    push_cast
    linarith
  omega

theorem truncToInt32_eq (q : ℚ) (h1 : -2147483648 ≤ truncToInt q)
    (h2 : truncToInt q ≤ 2147483647) : truncToInt32 q = some (truncToInt q) := by
  unfold truncToInt32
  rw [if_pos ⟨h1, h2⟩]

/-- One dimension of the render target is an `int32` value, for a view dimension `w` whose
`float` value is below `2 ^ 31`, that is, for `w ≤ 2 ^ 31 - 65`. -/
theorem realtime_dimension_lt (Scale : ℚ) (w m : Int) (hS1 : Scale ≤ 1) (hm1 : 1 ≤ m)
    (hm2 : m < 2147483648) (hw1 : 1 ≤ w) (hw2 : w ≤ 2147483583) :
    truncToInt (f32 (f32 (f32 (w : ℚ) * max Scale (f32 (1 / f32 (m : ℚ)))) + 1 / 2))
      ≤ 2147483520 := by
  obtain ⟨-, -, s1, s0⟩ := realtime_scale_bounds Scale m hS1 hm1 hm2
  have hwq : (0 : ℚ) ≤ (w : ℚ) := by exact_mod_cast (by omega : (0 : Int) ≤ w)
  have b0 : 0 ≤ f32 (w : ℚ) := f32_nonneg _ hwq
  have b1 : f32 (w : ℚ) ≤ 2147483520 := by
    have := f32_mono (w : ℚ) 2147483583 (by exact_mod_cast hw2)
    have e : f32 2147483583 = 2147483520 := by decide!
    rwa [e] at this
  have a0 : 0 ≤ f32 (w : ℚ) * max Scale (f32 (1 / f32 (m : ℚ))) := mul_nonneg b0 s0
  have a1 : f32 (w : ℚ) * max Scale (f32 (1 / f32 (m : ℚ))) ≤ 2147483520 := by
    have := mul_le_mul_of_nonneg_left s1 b0
    linarith
  have a2 : f32 (f32 (w : ℚ) * max Scale (f32 (1 / f32 (m : ℚ)))) ≤ 2147483520 := by
    have := f32_mono _ _ a1
    have e : f32 2147483520 = 2147483520 := by decide!
    rwa [e] at this
  have a3 : f32 (f32 (f32 (w : ℚ) * max Scale (f32 (1 / f32 (m : ℚ)))) + 1 / 2)
      ≤ 2147483520 := by
    have := f32_mono (f32 (f32 (w : ℚ) * max Scale (f32 (1 / f32 (m : ℚ)))) + 1 / 2)
      (2147483520 + 1 / 2) (by linarith)
    have e : f32 (2147483520 + 1 / 2) = 2147483520 := by decide!
    rwa [e] at this
  have a4 : 0 ≤ f32 (f32 (f32 (w : ℚ) * max Scale (f32 (1 / f32 (m : ℚ)))) + 1 / 2) :=
    f32_nonneg _ (by linarith [f32_nonneg _ a0])
  unfold truncToInt
  rw [if_pos a4]
  have := Int.floor_le (f32 (f32 (f32 (w : ℚ) * max Scale (f32 (1 / f32 (m : ℚ)))) + 1 / 2))
  exact_mod_cast le_trans this a3

/-- C30 (counterexample): at the scale 1, for a view rectangle of 8388609 x 1 pixels the sum
`8388609.0f + 0.5f` rounds to 8388610, so the width of the render target exceeds the width of
the view by one; for a view rectangle of 65536 x 65536 pixels the render target has
65536 x 65536 pixels, and the `int32` product of its dimensions, the number of elements that
`FRenderBuffer::Init` sets, is 0; and for a view rectangle of 2147483584 x 2147483584 pixels
the products are the `float` value `2 ^ 31`, outside the range of the conversion to `int32`. -/
theorem RealtimeRenderTargetSize_exceeds_view :
    RealtimeRenderTargetSize 1 ⟨8388609, 1⟩ = some ⟨8388610, 1⟩
    ∧ RealtimeRenderTargetSize 1 ⟨65536, 65536⟩ = some ⟨65536, 65536⟩
    ∧ castInt32 (65536 * 65536) = 0
    ∧ RealtimeRenderTargetSize 1 ⟨2147483584, 2147483584⟩ = none := by
  decide!

/-- C30 (amended): for a view rectangle of `w x h` pixels with `1 ≤ w, h ≤ 2 ^ 31 - 65` and a
scale of at most 1 (so for every effective scale, which lies in `[0, 1]`), the two conversions
to `int32` are in range and both dimensions of the render target are at least 1, so the
reciprocals of the dimensions that the renderer takes are those of non-zero numbers.  A
dimension of the render target is at most the view dimension when that is below `2 ^ 23`.
When both view dimensions are below `2 ^ 23` and the number of pixels of the view is an `int32`
value, so is the number of pixels of the render target; and whenever that number is an `int32`
value, the buffer that `FRenderBuffer::Init` sets up has that many pixels and is not empty. -/
theorem RealtimeRenderTargetSize_bounds (Scale : ℚ) (w h : Int)
    (hS1 : Scale ≤ 1) (hw1 : 1 ≤ w) (hw2 : w ≤ 2147483583) (hh1 : 1 ≤ h)
    (hh2 : h ≤ 2147483583) :
    ∃ s : FIntPoint, RealtimeRenderTargetSize Scale ⟨w, h⟩ = some s
      ∧ 1 ≤ s.X ∧ s.X ≤ 2147483647 ∧ 1 ≤ s.Y ∧ s.Y ≤ 2147483647
      ∧ (s.X : ℚ) ≠ 0 ∧ (s.Y : ℚ) ≠ 0
      ∧ (w < 8388608 → s.X ≤ w)
      ∧ (h < 8388608 → s.Y ≤ h)
      ∧ (w < 8388608 → h < 8388608 → w * h ≤ 2147483647 → s.X * s.Y ≤ 2147483647)
      ∧ (s.X * s.Y ≤ 2147483647 →
          ((FRenderBuffer.Init s).PixelData.length : Int) = s.X * s.Y
          ∧ castInt32 (s.X * s.Y) = s.X * s.Y
          ∧ (FRenderBuffer.Init s).PixelData ≠ []) := by
  have hm1 : 1 ≤ min w h := le_min hw1 hh1
  have hm2 : min w h < 2147483648 := lt_of_le_of_lt (min_le_left _ _) (by omega)
  have hX := realtime_dimension_ge Scale w (min w h) hS1 hm1 hm2 (min_le_left _ _)
  have hY := realtime_dimension_ge Scale h (min w h) hS1 hm1 hm2 (min_le_right _ _)
  have hX2 := realtime_dimension_lt Scale w (min w h) hS1 hm1 hm2 hw1 hw2
  have hY2 := realtime_dimension_lt Scale h (min w h) hS1 hm1 hm2 hh1 hh2
  have hsome : RealtimeRenderTargetSize Scale ⟨w, h⟩
      = some ⟨truncToInt (f32 (f32 (f32 (w : ℚ)
            * max Scale (f32 (1 / f32 ((min w h : Int) : ℚ)))) + 1 / 2)),
          truncToInt (f32 (f32 (f32 (h : ℚ)
            * max Scale (f32 (1 / f32 ((min w h : Int) : ℚ)))) + 1 / 2))⟩ := by
    have tX := truncToInt32_eq _ (le_trans (by norm_num) hX) (le_trans hX2 (by norm_num))
    have tY := truncToInt32_eq _ (le_trans (by norm_num) hY) (le_trans hY2 (by norm_num))
    unfold RealtimeRenderTargetSize
    dsimp only
    rw [tX, tY]
  have key : ∀ X Y : Int, RealtimeRenderTargetSize Scale ⟨w, h⟩ = some ⟨X, Y⟩ →
      1 ≤ X → X ≤ 2147483520 → 1 ≤ Y → Y ≤ 2147483520 →
      (w < 8388608 → X ≤ w) → (h < 8388608 → Y ≤ h) →
      ∃ s : FIntPoint, RealtimeRenderTargetSize Scale ⟨w, h⟩ = some s
        ∧ 1 ≤ s.X ∧ s.X ≤ 2147483647 ∧ 1 ≤ s.Y ∧ s.Y ≤ 2147483647
        ∧ (s.X : ℚ) ≠ 0 ∧ (s.Y : ℚ) ≠ 0
        ∧ (w < 8388608 → s.X ≤ w)
        ∧ (h < 8388608 → s.Y ≤ h)
        ∧ (w < 8388608 → h < 8388608 → w * h ≤ 2147483647 → s.X * s.Y ≤ 2147483647)
        ∧ (s.X * s.Y ≤ 2147483647 →
            ((FRenderBuffer.Init s).PixelData.length : Int) = s.X * s.Y
            ∧ castInt32 (s.X * s.Y) = s.X * s.Y
            ∧ (FRenderBuffer.Init s).PixelData ≠ []) := by
    intro X Y hs x1 x2 y1 y2 xw yh
    have hpos : 1 ≤ X * Y := by nlinarith
    refine ⟨⟨X, Y⟩, hs, x1, le_trans x2 (by norm_num), y1, le_trans y2 (by norm_num), ?_, ?_,
      xw, yh, ?_, ?_⟩
    · exact_mod_cast (by omega : X ≠ 0)
    · exact_mod_cast (by omega : Y ≠ 0)
    · intro hw3 hh3 hwh
      calc X * Y ≤ w * h := mul_le_mul (xw hw3) (yh hh3) (by omega) (by omega)
        _ ≤ 2147483647 := hwh
    · intro hfit
      simp only [] at hfit
      refine ⟨?_, ?_, ?_⟩
      · simp only [FRenderBuffer.Init, List.length_replicate]
        omega
      · exact castInt32_of_small (X * Y) (by omega) (by omega)
      · intro hnil
        have hlen := congrArg List.length hnil
        simp only [FRenderBuffer.Init, List.length_replicate, List.length_nil] at hlen
        omega
  exact key _ _ hsome hX hX2 hY hY2
    (fun hw3 => realtime_dimension_le Scale w (min w h) hS1 hm1 hm2 hw1 hw3)
    (fun hh3 => realtime_dimension_le Scale h (min w h) hS1 hm1 hm2 hh1 hh3)

/-- C30 (instance): a view of 1920 x 1080 pixels at the scale 1/2. -/
theorem RealtimeRenderTargetSize_bounds_witness :
    (1 / 2 : ℚ) ≤ 1
    ∧ RealtimeRenderTargetSize (1 / 2) ⟨1920, 1080⟩ = some ⟨960, 540⟩
    ∧ ∃ s : FIntPoint, RealtimeRenderTargetSize (1 / 2) ⟨1920, 1080⟩ = some s
        ∧ 1 ≤ s.X ∧ s.X ≤ 2147483647 ∧ 1 ≤ s.Y ∧ s.Y ≤ 2147483647 := by
  obtain ⟨s, h1, h2, h3, h4, h5, -⟩ := RealtimeRenderTargetSize_bounds (1 / 2) 1920 1080
    (by norm_num) (by decide) (by decide) (by decide) (by decide)
  exact ⟨by norm_num, by decide!, s, h1, h2, h3, h4, h5⟩

/-! ## The tile loop of a realtime frame -/

theorem PaintedBy_length (VisType : EVisualisationType) (W : Nat) (P : Nat → Bool)
    (r : FPerspectiveRenderer) : (PaintedBy VisType W P r).length = r.PixelData.length := by
  simp [PaintedBy]

/-- Two selections that agree on the indices of the buffer give the same pixel data. -/
theorem PaintedBy_congr (VisType : EVisualisationType) (W : Nat) (P Q : Nat → Bool)
    (r : FPerspectiveRenderer) (h : ∀ k, k < r.PixelData.length → P k = Q k) :
    PaintedBy VisType W P r = PaintedBy VisType W Q r := by
  apply List.ext_getElem?
  intro k
  simp only [PaintedBy, List.getElem?_mapIdx]
  by_cases hk : k < r.PixelData.length
  · rw [List.getElem?_eq_getElem hk]
    simp only [Option.map_some', h k hk]
  · rw [List.getElem?_eq_none (by omega)]
    rfl

theorem PaintedBy_none (VisType : EVisualisationType) (W : Nat) (r : FPerspectiveRenderer) :
    PaintedBy VisType W (fun _ => false) r = r.PixelData := by
  apply List.ext_getElem?
  intro k
  simp only [PaintedBy, List.getElem?_mapIdx]
  cases r.PixelData[k]? <;> simp

theorem PaintedBy_getElem (VisType : EVisualisationType) (W : Nat) (P : Nat → Bool)
    (r : FPerspectiveRenderer) (k : Nat) (hk : k < r.PixelData.length) :
    (PaintedBy VisType W P r)[k]?
      = if P k then
          some (r.WritebackColour VisType ⟨((k % W : Nat) : Int), ((k / W : Nat) : Int)⟩)
        else r.PixelData[k]? := by
  simp only [PaintedBy, List.getElem?_mapIdx]
  rw [List.getElem?_eq_getElem hk]
  by_cases hP : P k <;> simp [hP]

/-- Rendering the pixel `(x, y)` on a buffer in the state selected by `P` adds that pixel to
the selection when it lies inside the target and changes nothing otherwise. -/
theorem PaintedBy_write (VisType : EVisualisationType) (W H : Nat) (P : Nat → Bool)
    (base ρ : FPerspectiveRenderer) (x y : Nat) (hW : 1 ≤ W)
    (hsize : ρ.RenderTargetSize = ⟨(W : Int), (H : Int)⟩)
    (hdata : ρ.PixelData = PaintedBy VisType W P base)
    (hlen : base.PixelData.length = W * H)
    (hcol : ∀ pos : FIntPoint, ρ.WritebackColour VisType pos = base.WritebackColour VisType pos) :
    ρ.RenderPerspectivePixel VisType ⟨(x : Int), (y : Int)⟩
      = some (PaintedBy VisType W
          (fun k => P k || (decide (x < W) && decide (y < H) && decide (k = y * W + x))) base) := by
  by_cases hin : x < W ∧ y < H
  · obtain ⟨hx, hy⟩ := hin
    have hidx : y * W + x < W * H := by
      have : (y + 1) * W ≤ H * W := Nat.mul_le_mul_right W hy
      nlinarith
    unfold FPerspectiveRenderer.RenderPerspectivePixel
    rw [hsize]
    simp only []
    have hlen2 : ρ.PixelData.length = W * H := by rw [hdata, PaintedBy_length, hlen]
    rw [if_pos ⟨by exact_mod_cast hx, by exact_mod_cast hy⟩, hlen2]
    have hcast : ((y : Int) * (W : Int) + (x : Int)) = ((y * W + x : Nat) : Int) := by
      push_cast
      ring
    rw [hcast, if_pos ⟨Int.ofNat_nonneg _, by exact_mod_cast hidx⟩, Int.toNat_ofNat, hcol, hdata]
    congr 1
    have hmod : (y * W + x) % W = x := by
      rw [Nat.add_comm, Nat.add_mul_mod_self_right, Nat.mod_eq_of_lt hx]
    have hdiv : (y * W + x) / W = y := by
      rw [Nat.add_comm, Nat.add_mul_div_right _ _ (by omega), Nat.div_eq_of_lt hx, Nat.zero_add]
    apply List.ext_getElem?
    intro k
    by_cases hk : k = y * W + x
    · subst hk
      rw [List.getElem?_set_self (by rw [PaintedBy_length, hlen]; exact hidx),
        PaintedBy_getElem _ _ _ _ _ (by rw [hlen]; exact hidx)]
      simp only [hx, hy, decide_True, Bool.and_self, Bool.or_true, if_true, hmod, hdiv]
    · rw [List.getElem?_set_ne (Ne.symm hk)]
      simp only [PaintedBy, List.getElem?_mapIdx, hk, decide_False, Bool.and_false,
        Bool.or_false]
  · rw [RenderPerspectivePixel_overhang]
    · rw [hdata]
      congr 1
      apply PaintedBy_congr
      intro k _
      have : (decide (x < W) && decide (y < H)) = false := by
        rcases not_and_or.mp hin with h | h <;> simp [h]
      simp [this]
    · rw [hsize]
      rcases not_and_or.mp hin with h | h
      · exact Or.inl (Int.ofNat_le.mpr (Nat.le_of_not_lt h))
      · exact Or.inr (Int.ofNat_le.mpr (Nat.le_of_not_lt h))

theorem divmod_unique (n T c a : Nat) (ha : a < T) :
    (n / T = c ∧ n % T = a) ↔ n = c * T + a := by
  constructor
  · rintro ⟨h1, h2⟩
    have := Nat.div_add_mod n T
    rw [h1, h2, Nat.mul_comm] at this
    exact this.symm
  · intro h
    subst h
    constructor
    · rw [Nat.add_comm, Nat.add_mul_div_right _ _ (by omega), Nat.div_eq_of_lt ha, Nat.zero_add]
    · rw [Nat.add_comm, Nat.add_mul_mod_self_right, Nat.mod_eq_of_lt ha]

/-- The sample position of a tile with the Linear pattern as natural numbers. -/
theorem Linear_position_nat (T f x0 y0 : Nat) (hT : T ≤ 128) (hT0 : 1 ≤ T) :
    NextTileSamplePosition ESamplingPattern.Linear ⟨(x0 : Int), (y0 : Int)⟩ T f
      = ⟨((x0 + f % T : Nat) : Int), ((y0 + f / T % T : Nat) : Int)⟩ := by
  have h1 : f % T < T := Nat.mod_lt _ (by omega)
  have h2 : f / T % T < T := Nat.mod_lt _ (by omega)
  simp only [NextTileSamplePosition]
  rw [castInt32_of_small _ (Int.ofNat_nonneg _) (by omega),
    castInt32_of_small _ (Int.ofNat_nonneg _) (by omega)]
  push_cast
  rfl

/-- The row of tiles at the height `y0`, from the column `c` on, on a buffer in the state
selected by `P` together with the columns before `c` of this row: afterwards the selection
holds the samples of the whole row.  `a` and `b` are the offsets of the sample inside a
tile. -/
theorem TileRow_painted (VisType : EVisualisationType) (W H T a b y0 : Nat) (P : Nat → Bool)
    (base ρ : FPerspectiveRenderer) (hW : 1 ≤ W) (hW2 : W ≤ 1073741824) (hT0 : 1 ≤ T)
    (hT : T ≤ 128) (ha : a = ρ.Settings.FrameId % T) (hb : b = ρ.Settings.FrameId / T % T)
    (hTile : ρ.Settings.TileSize = T)
    (hsize : ρ.RenderTargetSize = ⟨(W : Int), (H : Int)⟩)
    (hlen : base.PixelData.length = W * H)
    (hcol : ∀ pos : FIntPoint, ρ.WritebackColour VisType pos = base.WritebackColour VisType pos)
    (fuel : Nat) :
    ∀ c : Nat, c * T ≤ W + T → W ≤ (c + fuel) * T →
      TileRow ρ ESamplingPattern.Linear VisType (y0 : Int) fuel ((c * T : Nat) : Int)
          (PaintedBy VisType W
            (fun k => P k || (decide (k / W = y0 + b) && decide (k % W % T = a)
              && decide (k % W / T < c))) base)
        = some (PaintedBy VisType W
            (fun k => P k || (decide (k / W = y0 + b) && decide (k % W % T = a))) base) := by
  have haT : a < T := by rw [ha]; exact Nat.mod_lt _ (by omega)
  have hdone : ∀ c : Nat, W ≤ c * T →
      PaintedBy VisType W
          (fun k => P k || (decide (k / W = y0 + b) && decide (k % W % T = a)
            && decide (k % W / T < c))) base
        = PaintedBy VisType W
            (fun k => P k || (decide (k / W = y0 + b) && decide (k % W % T = a))) base := by
    intro c hc
    apply PaintedBy_congr
    intro k _
    have h1 : k % W < W := Nat.mod_lt _ (by omega)
    have h2 : k % W / T < c := Nat.div_lt_of_lt_mul (by rw [Nat.mul_comm]; omega)
    simp [h2]
  induction fuel with
  | zero =>
    intro c _ hc
    rw [TileRow, hdone c (by simpa using hc)]
  | succ fuel ih =>
    intro c hc1 hc2
    rw [TileRow]
    by_cases hlt : c * T < W
    · have hguard : ((c * T : Nat) : Int) < ρ.RenderTargetSize.X := by
        rw [hsize]
        exact Int.ofNat_lt.mpr hlt
      rw [if_pos hguard]
      have hpos : NextTileSamplePosition ESamplingPattern.Linear
          ⟨((c * T : Nat) : Int), (y0 : Int)⟩ T ρ.Settings.FrameId
          = ⟨((c * T + a : Nat) : Int), ((y0 + b : Nat) : Int)⟩ := by
        rw [Linear_position_nat T _ (c * T) y0 hT hT0, ha, hb]
      have hwrite := PaintedBy_write VisType W H
        (fun k => P k || (decide (k / W = y0 + b) && decide (k % W % T = a)
          && decide (k % W / T < c))) base
        { ρ with PixelData := (PaintedBy VisType W
            (fun k => P k || (decide (k / W = y0 + b) && decide (k % W % T = a)
              && decide (k % W / T < c))) base) }
        (c * T + a) (y0 + b) hW hsize rfl hlen hcol
      beta_reduce at hwrite
      simp only [FPerspectiveRenderer.RenderPerspectiveTilePixel, hTile, hpos, hwrite]
      have hnext : castInt32 ((wrapU32 (((c * T : Nat) : Int) + (T : Int)) : Nat) : Int)
          = (((c + 1) * T : Nat) : Int) := by
        have e : ((c * T : Nat) : Int) + (T : Int) = (((c + 1) * T : Nat) : Int) := by
          push_cast
          ring
        have hbound : (c + 1) * T < 2147483648 := by
          have : (c + 1) * T = c * T + T := by ring
          omega
        rw [e, wrapU32_of_lt _ (by omega), castInt32_of_small _ (Int.ofNat_nonneg _)
          (by exact_mod_cast hbound)]
      rw [hnext]
      have hstep : PaintedBy VisType W
          (fun k => (P k || (decide (k / W = y0 + b) && decide (k % W % T = a)
              && decide (k % W / T < c)))
            || (decide (c * T + a < W) && decide (y0 + b < H)
              && decide (k = (y0 + b) * W + (c * T + a)))) base
          = PaintedBy VisType W
            (fun k => P k || (decide (k / W = y0 + b) && decide (k % W % T = a)
              && decide (k % W / T < c + 1))) base := by
        apply PaintedBy_congr
        intro k hk
        rw [hlen] at hk
        have hkW : k % W < W := Nat.mod_lt _ (by omega)
        have hkH : k / W < H := Nat.div_lt_of_lt_mul hk
        rw [Bool.eq_iff_iff]
        simp only [Bool.or_eq_true, Bool.and_eq_true, decide_eq_true_eq]
        constructor
        · rintro ((h | ⟨⟨h1, h2⟩, h3⟩) | ⟨⟨h1, h2⟩, h3⟩)
          · exact Or.inl h
          · exact Or.inr ⟨⟨h1, h2⟩, by omega⟩
          · obtain ⟨e1, e2⟩ := (divmod_unique k W (y0 + b) (c * T + a) h1).mpr h3
            obtain ⟨e3, e4⟩ := (divmod_unique (k % W) T c a haT).mpr e2
            exact Or.inr ⟨⟨e1, e4⟩, by omega⟩
        · rintro (h | ⟨⟨h1, h2⟩, h3⟩)
          · exact Or.inl (Or.inl h)
          · by_cases hc : k % W / T < c
            · exact Or.inl (Or.inr ⟨⟨h1, h2⟩, hc⟩)
            · have e2 : k % W = c * T + a :=
                (divmod_unique (k % W) T c a haT).mp ⟨by omega, h2⟩
              have e3 : k = (y0 + b) * W + (c * T + a) :=
                (divmod_unique k W (y0 + b) (c * T + a) (by omega)).mp ⟨h1, e2⟩
              exact Or.inr ⟨⟨by omega, by omega⟩, e3⟩
      rw [hstep]
      exact ih (c + 1) (by nlinarith) (by nlinarith)
    · have hguard : ¬ ((c * T : Nat) : Int) < ρ.RenderTargetSize.X := by
        rw [hsize]
        exact fun h => hlt (Int.ofNat_lt.mp h)
      rw [if_neg hguard, hdone c (by omega)]

/-- The rows of tiles before row `n`, on a buffer in the state selected by `P`: afterwards the
selection holds the samples of the tiles of these rows. -/
theorem TileRows_painted (VisType : EVisualisationType) (W H T a b : Nat) (P : Nat → Bool)
    (base ρ : FPerspectiveRenderer) (hW : 1 ≤ W) (hW2 : W ≤ 1073741824)
    (hH2 : H ≤ 1073741824) (hT0 : 1 ≤ T)
    (hT : T ≤ 128) (ha : a = ρ.Settings.FrameId % T) (hb : b = ρ.Settings.FrameId / T % T)
    (hTile : ρ.Settings.TileSize = T)
    (hsize : ρ.RenderTargetSize = ⟨(W : Int), (H : Int)⟩)
    (hlen : base.PixelData.length = W * H)
    (hcol : ∀ pos : FIntPoint, ρ.WritebackColour VisType pos = base.WritebackColour VisType pos)
    (n : Nat) (hn : n * T ≤ H + T) :
    TileRows ρ ESamplingPattern.Linear VisType n (PaintedBy VisType W P base)
      = some (PaintedBy VisType W
          (fun k => P k || (decide (k % W % T = a) && decide (k / W % T = b)
            && decide (k / W / T < n))) base) := by
  have hbT : b < T := by rw [hb]; exact Nat.mod_lt _ (by omega)
  induction n with
  | zero =>
    rw [TileRows]
    refine congrArg some ?_
    apply PaintedBy_congr
    intro k _
    simp
  | succ n ih =>
    have hn2 : n * T ≤ H + T := by nlinarith
    rw [TileRows, ih hn2]
    simp only []
    have hTileY : castInt32 ((wrapU32 ((ρ.Settings.TileSize * n : Nat) : Int) : Nat) : Int)
        = ((T * n : Nat) : Int) := by
      have hbound : T * n < 2147483648 := by nlinarith
      rw [hTile, wrapU32_of_lt _ (by omega), castInt32_of_small _ (Int.ofNat_nonneg _)
        (by exact_mod_cast hbound)]
    have hfuel : ρ.RenderTargetSize.X.toNat = W := by
      rw [hsize]
      exact Int.toNat_ofNat W
    rw [hTileY, hfuel]
    have hstart : PaintedBy VisType W
        (fun k => P k || (decide (k % W % T = a) && decide (k / W % T = b)
          && decide (k / W / T < n))) base
        = PaintedBy VisType W
          (fun k => (P k || (decide (k % W % T = a) && decide (k / W % T = b)
              && decide (k / W / T < n)))
            || (decide (k / W = T * n + b) && decide (k % W % T = a)
              && decide (k % W / T < 0))) base := by
      apply PaintedBy_congr
      intro k _
      simp
    have hrow := TileRow_painted VisType W H T a b (T * n)
      (fun k => P k || (decide (k % W % T = a) && decide (k / W % T = b)
        && decide (k / W / T < n))) base ρ hW hW2 hT0 hT ha hb hTile hsize hlen hcol W 0
      (by omega) (by nlinarith)
    rw [hstart]
    have h0 : ((0 : Nat) : Int) = 0 := rfl
    rw [Nat.zero_mul, h0] at hrow
    rw [hrow]
    refine congrArg some ?_
    apply PaintedBy_congr
    intro k _
    rw [Bool.eq_iff_iff]
    simp only [Bool.or_eq_true, Bool.and_eq_true, decide_eq_true_eq]
    constructor
    · rintro ((h | ⟨⟨h1, h2⟩, h3⟩) | ⟨h1, h2⟩)
      · exact Or.inl h
      · exact Or.inr ⟨⟨h1, h2⟩, by omega⟩
      · obtain ⟨e1, e2⟩ := (divmod_unique (k / W) T n b hbT).mpr (by rw [h1]; ring)
        exact Or.inr ⟨⟨h2, e2⟩, by omega⟩
    · rintro (h | ⟨⟨h1, h2⟩, h3⟩)
      · exact Or.inl (Or.inl h)
      · by_cases hc : k / W / T < n
        · exact Or.inl (Or.inr ⟨⟨h1, h2⟩, hc⟩)
        · have e : k / W = n * T + b := (divmod_unique (k / W) T n b hbT).mp ⟨by omega, h2⟩
          exact Or.inr ⟨by rw [e]; ring, h1⟩

theorem Dispatch_both (v : EVisualisationType) (s : ESamplingPattern) :
    FKernelExecutor.Dispatch ⟨v.toRaw, s.toRaw⟩ TKernelDispatchParameters.Base
        (EKD_VisType ||| EKD_SamplingPattern) = FDispatchResult.Returned [⟨v, s⟩] := by
  cases v <;> cases s <;> rfl

/-- The trace task of a frame with the Linear pattern, on a buffer in the state selected by
`P`: afterwards the selection holds the sample of every tile as well. -/
theorem RealtimeTraceTask_painted (W H T a b : Nat) (P : Nat → Bool)
    (base ρ : FPerspectiveRenderer) (hW : 1 ≤ W) (hW2 : W ≤ 1073741824)
    (hH2 : H ≤ 1073741824) (hT0 : 1 ≤ T)
    (hT : T ≤ 128) (ha : a = ρ.Settings.FrameId % T) (hb : b = ρ.Settings.FrameId / T % T)
    (hTile : ρ.Settings.TileSize = T)
    (hpat : ρ.Settings.SamplingPattern = ESamplingPattern.Linear)
    (hsize : ρ.RenderTargetSize = ⟨(W : Int), (H : Int)⟩)
    (hlen : base.PixelData.length = W * H)
    (hcol : ∀ pos : FIntPoint,
      ρ.WritebackColour ρ.Settings.VisType pos = base.WritebackColour ρ.Settings.VisType pos)
    (hdata : ρ.PixelData = PaintedBy ρ.Settings.VisType W P base) :
    RealtimeTraceTask ρ
      = some (PaintedBy ρ.Settings.VisType W
          (fun k => P k || (decide (k % W % T = a) && decide (k / W % T = b))) base) := by
  have hNum : (castInt32 ((wrapU32 (ρ.RenderTargetSize.Y + (ρ.Settings.TileSize : Int) - 1)
      / ρ.Settings.TileSize : Nat) : Int)).toNat = (H + T - 1) / T := by
    rw [hsize, hTile]
    have e : ((H : Int) + (T : Int) - 1) = ((H + T - 1 : Nat) : Int) := by omega
    have hq : (H + T - 1) / T ≤ H + T - 1 := Nat.div_le_self _ _
    simp only []
    rw [e, wrapU32_of_lt _ (by omega), castInt32_of_small _ (Int.ofNat_nonneg _)
      (by omega), Int.toNat_ofNat]
  unfold RealtimeTraceTask
  simp only []
  rw [hNum, hpat, Dispatch_both]
  simp only [List.foldl_cons, List.foldl_nil]
  have hrows : ((H + T - 1) / T) * T ≤ H + T := by
    have := Nat.div_mul_le_self (H + T - 1) T
    omega
  rw [hdata, TileRows_painted ρ.Settings.VisType W H T a b P base ρ hW hW2 hH2 hT0 hT ha hb hTile
    hsize hlen hcol _ hrows]
  refine congrArg some ?_
  apply PaintedBy_congr
  intro k hk
  rw [hlen] at hk
  have hkH : k / W < H := Nat.div_lt_of_lt_mul hk
  have hq : k / W / T < (H + T - 1) / T := by
    rw [Nat.div_lt_iff_lt_mul (by omega)]
    have h1 := Nat.div_add_mod (H + T - 1) T
    have h2 : (H + T - 1) % T < T := Nat.mod_lt _ (by omega)
    have h3 : T * ((H + T - 1) / T) = (H + T - 1) / T * T := Nat.mul_comm _ _
    omega
  simp [hq]

/-! ## Coverage of the target by the Linear pattern -/

/-- The settings of a frame with the Linear pattern configured. -/
theorem Construct_Linear (cv : FConsoleVariables) (g : Nat) (h : cv.SamplingPattern = 0) :
    (FSDCollisionSettings.Construct cv g).SamplingPattern = ESamplingPattern.Linear
    ∧ (FSDCollisionSettings.Construct cv g).FrameId = g % 4294967296
    ∧ (FSDCollisionSettings.Construct cv g).TileSize
        = (FSDCollisionSettings.Construct cv 0).TileSize
    ∧ 2 ≤ (FSDCollisionSettings.Construct cv 0).TileSize
    ∧ (FSDCollisionSettings.Construct cv 0).TileSize ≤ 128 := by
  have hp : (FSDCollisionSettings.Construct cv g).SamplingPattern = ESamplingPattern.Linear := by
    simp only [FSDCollisionSettings.Construct, UpdateSettings_SamplingPattern, h, if_true]
  refine ⟨hp, ?_, rfl, ?_, ?_⟩
  · unfold FSDCollisionSettings.Construct
    apply UpdateSettings_FrameId_Linear
    simp only [h, if_true]
  · exact (Clamp_tile_bounds _).1
  · exact (Clamp_tile_bounds _).2

theorem TileOffset_eq_iff (W T k n : Nat) (hT : 1 ≤ T) :
    TileOffset W T k = n ↔ k % W % T = n % T ∧ k / W % T = n / T := by
  have h1 : k % W % T < T := Nat.mod_lt _ (by omega)
  unfold TileOffset
  constructor
  · intro h
    obtain ⟨e1, e2⟩ := (divmod_unique n T (k / W % T) (k % W % T) h1).mpr h.symm
    exact ⟨e2.symm, e1.symm⟩
  · rintro ⟨e1, e2⟩
    exact ((divmod_unique n T (k / W % T) (k % W % T) h1).mp ⟨e2.symm, e1.symm⟩).symm

theorem TileOffset_lt (W T k : Nat) (hT : 1 ≤ T) : TileOffset W T k < T * T := by
  have h1 : k % W % T < T := Nat.mod_lt _ (by omega)
  have h2 : k / W % T < T := Nat.mod_lt _ (by omega)
  unfold TileOffset
  have : (k / W % T + 1) * T ≤ T * T := Nat.mul_le_mul_right T h2
  nlinarith

/-- The offsets of the sample inside a tile at frame `n` of a period whose first frame id is a
multiple of `T * T`. -/
theorem frame_offsets (T kk g0 n : Nat) (hT : 1 ≤ T) (hn : n < T * T)
    (hf0 : g0 % 4294967296 = kk * (T * T)) (hg : kk * (T * T) + n < 4294967296) :
    (g0 + n) % 4294967296 % T = n % T
    ∧ (g0 + n) % 4294967296 / T % T = n / T := by
  have hid : (g0 + n) % 4294967296 = kk * (T * T) + n := by
    rw [Nat.add_mod, hf0, Nat.mod_eq_of_lt (by omega : n < 4294967296), Nat.mod_eq_of_lt hg]
  rw [hid]
  have e : kk * (T * T) + n = n + kk * T * T := by ring
  rw [e]
  constructor
  · exact Nat.add_mul_mod_self_right _ _ _
  · rw [Nat.add_mul_div_right _ _ (by omega), Nat.add_mul_mod_self_right]
    exact Nat.mod_eq_of_lt (Nat.div_lt_of_lt_mul hn)

/-- A period whose first frame id is a multiple of `T * T` ends before the frame id wraps when
`T * T` divides `2 ^ 32`. -/
theorem period_without_wrap (T kk g0 : Nat)
    (hf0 : g0 % 4294967296 = kk * (T * T))
    (hnw : (kk + 1) * (T * T) ≤ 4294967296 ∨ T * T ∣ 4294967296) :
    (kk + 1) * (T * T) ≤ 4294967296 := by
  rcases hnw with h | ⟨q, hq⟩
  · exact h
  · have hlt : g0 % 4294967296 < 4294967296 := Nat.mod_lt _ (by norm_num)
    rw [hf0] at hlt
    have hkq : kk < q := by
      by_contra hc
      have : q * (T * T) ≤ kk * (T * T) := Nat.mul_le_mul_right _ (by omega)
      have e : q * (T * T) = 4294967296 := by rw [hq]; ring
      omega
    have : (kk + 1) * (T * T) ≤ q * (T * T) := Nat.mul_le_mul_right _ (by omega)
    have e : q * (T * T) = 4294967296 := by rw [hq]; ring
    omega

/-- The frames of a period of the Linear pattern: after `n` frames exactly the pixels with a
raster offset below `n` inside their tile are rendered. -/
theorem RealtimeFrames_painted (cv : FConsoleVariables) (r : FPerspectiveRenderer)
    (W H T kk g0 : Nat) (hpat : cv.SamplingPattern = 0)
    (hT : (FSDCollisionSettings.Construct cv 0).TileSize = T)
    (hW : 1 ≤ W) (hW2 : W ≤ 1073741824) (hH2 : H ≤ 1073741824)
    (hsize : r.RenderTargetSize = ⟨(W : Int), (H : Int)⟩)
    (hlen : r.PixelData.length = W * H)
    (hf0 : g0 % 4294967296 = kk * (T * T))
    (hg : (kk + 1) * (T * T) ≤ 4294967296) (n : Nat) (hn : n ≤ T * T) :
    RealtimeFrames cv r g0 n
      = some (PaintedBy (FSDCollisionSettings.Construct cv 0).VisType W
          (fun k => decide (TileOffset W T k < n))
          { r with Settings := FSDCollisionSettings.Construct cv g0 }) := by
  obtain ⟨-, -, -, hT2, hT128⟩ := Construct_Linear cv 0 hpat
  rw [hT] at hT2 hT128
  induction n with
  | zero =>
    rw [RealtimeFrames]
    refine congrArg some ?_
    have := PaintedBy_none (FSDCollisionSettings.Construct cv 0).VisType W
      { r with Settings := FSDCollisionSettings.Construct cv g0 }
    rw [← PaintedBy_congr _ _ (fun _ => false) _ _ (by intro k _; simp)]
    exact this.symm
  | succ n ih =>
    rw [RealtimeFrames, ih (by omega)]
    simp only []
    obtain ⟨hp, hf, hts, -, -⟩ := Construct_Linear cv (g0 + n) hpat
    have hgn : kk * (T * T) + n < 4294967296 := by
      have : (kk + 1) * (T * T) = kk * (T * T) + T * T := by ring
      omega
    obtain ⟨o1, o2⟩ := frame_offsets T kk g0 n (by omega) (by omega) hf0 hgn
    have htask := RealtimeTraceTask_painted W H T (n % T) (n / T)
      (fun k => decide (TileOffset W T k < n))
      { r with Settings := FSDCollisionSettings.Construct cv g0 }
      { r with
        Settings := FSDCollisionSettings.Construct cv (g0 + n)
        PixelData := (PaintedBy (FSDCollisionSettings.Construct cv 0).VisType W
          (fun k => decide (TileOffset W T k < n))
          { r with Settings := FSDCollisionSettings.Construct cv g0 }) }
      hW hW2 hH2 (by omega) hT128 (by rw [hf]; exact o1.symm) (by rw [hf]; exact o2.symm)
      (by rw [hts, hT]) hp hsize hlen (fun pos => rfl) rfl
    rw [htask]
    refine congrArg some ?_
    apply PaintedBy_congr
    intro k _
    rw [Bool.eq_iff_iff]
    simp only [Bool.or_eq_true, Bool.and_eq_true, decide_eq_true_eq]
    have hiff := TileOffset_eq_iff W T k n (by omega)
    constructor
    · rintro (h | h)
      · omega
      · have := hiff.mpr h
        omega
    · intro h
      by_cases hlt : TileOffset W T k < n
      · exact Or.inl hlt
      · exact Or.inr (hiff.mp (by omega))

/-- The sample position of the tile `(i, j)` at frame `n` of a period. -/
theorem period_position (cv : FConsoleVariables) (T kk g0 n i j : Nat)
    (hpat : cv.SamplingPattern = 0)
    (hT : (FSDCollisionSettings.Construct cv 0).TileSize = T)
    (hf0 : g0 % 4294967296 = kk * (T * T))
    (hg : (kk + 1) * (T * T) ≤ 4294967296) (hn : n < T * T) :
    NextTileSamplePosition ESamplingPattern.Linear ⟨((i * T : Nat) : Int), ((j * T : Nat) : Int)⟩
        (FSDCollisionSettings.Construct cv (g0 + n)).TileSize
        (FSDCollisionSettings.Construct cv (g0 + n)).FrameId
      = ⟨((i * T + n % T : Nat) : Int), ((j * T + n / T : Nat) : Int)⟩ := by
  obtain ⟨-, hf, hts, hT2, hT128⟩ := Construct_Linear cv (g0 + n) hpat
  rw [hT] at hT2 hT128 hts
  have hgn : kk * (T * T) + n < 4294967296 := by
    have : (kk + 1) * (T * T) = kk * (T * T) + T * T := by ring
    omega
  obtain ⟨o1, o2⟩ := frame_offsets T kk g0 n (by omega) hn hf0 hgn
  rw [hts, hf, Linear_position_nat T _ (i * T) (j * T) hT128 (by omega), o1, o2]

/-- C29 (counterexample): the tile size 3 on the 4 x 4 target, over the 9 frames that start at
the frame counter 4294967292, a multiple of 9.  The frame ids are 4294967292 to 4294967295 and
then 0 to 4, so the offsets inside a tile are 0, 1, 2, 3 and again 0, 1, 2, 3, 4: the pixel
(0, 0) is the sample of the tile (0, 0) in the frames 0 and 4 of the period, and after the 9
frames the pixel (2, 1), index 6, and the pixels of the row 2 still hold the zeroed value of
the fresh buffer, while a rendered pixel holds the opaque black of a miss. -/
theorem Linear_frames_wrap_uncovered :
    4294967292 = 477218588 * (3 * 3)
    ∧ (FSDCollisionSettings.Construct
        { FConsoleVariables.Defaults with SamplingPattern := 0, TileSize := 3 } 0).TileSize = 3
    ∧ ((List.range 9).map (fun n => (FSDCollisionSettings.Construct
        { FConsoleVariables.Defaults with SamplingPattern := 0, TileSize := 3 }
        (4294967292 + n)).FrameId))
        = [4294967292, 4294967293, 4294967294, 4294967295, 0, 1, 2, 3, 4]
    ∧ ((List.range 9).map (fun n => NextTileSamplePosition ESamplingPattern.Linear ⟨0, 0⟩ 3
        (FSDCollisionSettings.Construct
          { FConsoleVariables.Defaults with SamplingPattern := 0, TileSize := 3 }
          (4294967292 + n)).FrameId))
        = [⟨0, 0⟩, ⟨1, 0⟩, ⟨2, 0⟩, ⟨0, 1⟩, ⟨0, 0⟩, ⟨1, 0⟩, ⟨2, 0⟩, ⟨0, 1⟩, ⟨1, 1⟩]
    ∧ RealtimeFrames { FConsoleVariables.Defaults with SamplingPattern := 0, TileSize := 3 }
        SmallRenderer 4294967292 9
        = some [FColor.Black, FColor.Black, FColor.Black, FColor.Black,
                FColor.Black, FColor.Black, FColor.Zeroed, FColor.Black,
                FColor.Zeroed, FColor.Zeroed, FColor.Zeroed, FColor.Zeroed,
                FColor.Black, FColor.Black, FColor.Black, FColor.Black]
    ∧ FColor.Zeroed ≠ FColor.Black := by
  decide!

/-- C29 (amended): with the Linear pattern configured, a target of `W x H` pixels and the
effective tile size `T`, take `T * T` consecutive frames whose first frame id (the low 32 bits
of the frame counter `g0`) is the multiple `kk * T * T` of `T * T`, and let the period end
before the 32-bit frame id wraps, which is always so when `T * T` divides `2 ^ 32`.  The frames
cover the target progressively: after `n` frames exactly the pixels with a raster offset below
`n` inside their tile hold the colour computed for their position, and after `T * T` frames
every pixel does.  Every pixel of the target is the sample of exactly one tile of the grid in
exactly one frame of the period, and a sample outside the target leaves the pixel data as it
is. -/
theorem Linear_frames_cover (cv : FConsoleVariables) (r : FPerspectiveRenderer)
    (W H T kk g0 : Nat) (hpat : cv.SamplingPattern = 0)
    (hT : (FSDCollisionSettings.Construct cv 0).TileSize = T)
    (hW : 1 ≤ W) (hW2 : W ≤ 1073741824) (hH2 : H ≤ 1073741824)
    (hsize : r.RenderTargetSize = ⟨(W : Int), (H : Int)⟩)
    (hlen : r.PixelData.length = W * H)
    (hf0 : g0 % 4294967296 = kk * (T * T))
    (hnw : (kk + 1) * (T * T) ≤ 4294967296 ∨ T * T ∣ 4294967296) :
    (∀ n : Nat, n ≤ T * T →
      ∃ d : List FColor, RealtimeFrames cv r g0 n = some d
        ∧ d.length = W * H
        ∧ ∀ idx : Nat, idx < W * H →
            d[idx]? = if TileOffset W T idx < n then
                some (FPerspectiveRenderer.WritebackColour
                  { r with Settings := FSDCollisionSettings.Construct cv g0 }
                  (FSDCollisionSettings.Construct cv 0).VisType
                  ⟨((idx % W : Nat) : Int), ((idx / W : Nat) : Int)⟩)
              else r.PixelData[idx]?)
    ∧ (∃ Final : List FColor, RealtimeFrames cv r g0 (T * T) = some Final
        ∧ ∀ idx : Nat, idx < W * H →
            Final[idx]? = some (FPerspectiveRenderer.WritebackColour
              { r with Settings := FSDCollisionSettings.Construct cv g0 }
              (FSDCollisionSettings.Construct cv 0).VisType
              ⟨((idx % W : Nat) : Int), ((idx / W : Nat) : Int)⟩))
    ∧ (∀ x y : Nat, x < W → y < H →
        ∃ n i j : Nat, n < T * T ∧ i * T < W ∧ j < (H + T - 1) / T
          ∧ NextTileSamplePosition ESamplingPattern.Linear
              ⟨((i * T : Nat) : Int), ((j * T : Nat) : Int)⟩
              (FSDCollisionSettings.Construct cv (g0 + n)).TileSize
              (FSDCollisionSettings.Construct cv (g0 + n)).FrameId
            = ⟨(x : Int), (y : Int)⟩
          ∧ ∀ n2 i2 j2 : Nat, n2 < T * T →
              NextTileSamplePosition ESamplingPattern.Linear
                  ⟨((i2 * T : Nat) : Int), ((j2 * T : Nat) : Int)⟩
                  (FSDCollisionSettings.Construct cv (g0 + n2)).TileSize
                  (FSDCollisionSettings.Construct cv (g0 + n2)).FrameId
                = ⟨(x : Int), (y : Int)⟩ →
              n2 = n ∧ i2 = i ∧ j2 = j)
    ∧ (∀ (n i j : Nat) (d : List FColor),
        ((W : Int) ≤ (NextTileSamplePosition ESamplingPattern.Linear
              ⟨((i * T : Nat) : Int), ((j * T : Nat) : Int)⟩
              (FSDCollisionSettings.Construct cv (g0 + n)).TileSize
              (FSDCollisionSettings.Construct cv (g0 + n)).FrameId).X
          ∨ (H : Int) ≤ (NextTileSamplePosition ESamplingPattern.Linear
              ⟨((i * T : Nat) : Int), ((j * T : Nat) : Int)⟩
              (FSDCollisionSettings.Construct cv (g0 + n)).TileSize
              (FSDCollisionSettings.Construct cv (g0 + n)).FrameId).Y) →
        FPerspectiveRenderer.RenderPerspectiveTilePixel
            { r with Settings := FSDCollisionSettings.Construct cv (g0 + n)
                     PixelData := d }
            ESamplingPattern.Linear (FSDCollisionSettings.Construct cv 0).VisType
            ⟨((i * T : Nat) : Int), ((j * T : Nat) : Int)⟩ = some d) := by
  obtain ⟨-, -, -, hT2, hT128⟩ := Construct_Linear cv 0 hpat
  rw [hT] at hT2 hT128
  have hg := period_without_wrap T kk g0 hf0 hnw
  have hframes := RealtimeFrames_painted cv r W H T kk g0 hpat hT hW hW2 hH2 hsize hlen hf0 hg
  have hB : (FPerspectiveRenderer.PixelData
      { r with Settings := FSDCollisionSettings.Construct cv g0 }).length
      = W * H := hlen
  refine ⟨?_, ?_, ?_, ?_⟩
  · intro n hn
    refine ⟨_, hframes n hn, by rw [PaintedBy_length]; exact hlen, ?_⟩
    intro idx hidx
    rw [PaintedBy_getElem _ _ _ _ idx (by rw [hB]; exact hidx)]
    simp only [decide_eq_true_eq]
  · refine ⟨_, hframes (T * T) le_rfl, ?_⟩
    intro idx hidx
    rw [PaintedBy_getElem _ _ _ _ idx (by rw [hB]; exact hidx)]
    simp only [decide_eq_true_eq, TileOffset_lt W T idx (by omega), if_true]
  · intro x y hx hy
    have hxa : x % T < T := Nat.mod_lt _ (by omega)
    have hyb : y % T < T := Nat.mod_lt _ (by omega)
    have hn : y % T * T + x % T < T * T := by
      have : (y % T + 1) * T ≤ T * T := Nat.mul_le_mul_right T hyb
      nlinarith
    obtain ⟨n1, n2⟩ := (divmod_unique (y % T * T + x % T) T (y % T) (x % T) hxa).mpr rfl
    refine ⟨y % T * T + x % T, x / T, y / T, hn, ?_, ?_, ?_, ?_⟩
    · have := Nat.div_mul_le_self x T
      omega
    · rw [Nat.div_lt_iff_lt_mul (by omega)]
      have h1 := Nat.div_add_mod (H + T - 1) T
      have h2 : (H + T - 1) % T < T := Nat.mod_lt _ (by omega)
      have h3 : T * ((H + T - 1) / T) = (H + T - 1) / T * T := Nat.mul_comm _ _
      omega
    · rw [period_position cv T kk g0 _ (x / T) (y / T) hpat hT hf0 hg hn, n1, n2]
      have e1 : x / T * T + x % T = x := by
        rw [Nat.mul_comm]
        exact Nat.div_add_mod x T
      have e2 : y / T * T + y % T = y := by
        rw [Nat.mul_comm]
        exact Nat.div_add_mod y T
      rw [e1, e2]
    · intro m i2 j2 hm hp
      rw [period_position cv T kk g0 m i2 j2 hpat hT hf0 hg hm] at hp
      have hX : i2 * T + m % T = x := by
        have := congrArg FIntPoint.X hp
        simp only at this
        exact_mod_cast this
      have hY : j2 * T + m / T = y := by
        have := congrArg FIntPoint.Y hp
        simp only at this
        exact_mod_cast this
      have hma : m % T < T := Nat.mod_lt _ (by omega)
      have hmb : m / T < T := Nat.div_lt_of_lt_mul hm
      obtain ⟨a1, a2⟩ := (divmod_unique x T i2 (m % T) hma).mpr hX.symm
      obtain ⟨b1, b2⟩ := (divmod_unique y T j2 (m / T) hmb).mpr hY.symm
      refine ⟨?_, a1.symm, b1.symm⟩
      have := (divmod_unique m T (y % T) (x % T) hxa).mp ⟨b2.symm, a2.symm⟩
      exact this
  · intro n i j d hout
    unfold FPerspectiveRenderer.RenderPerspectiveTilePixel
    apply RenderPerspectivePixel_overhang
    rw [show (FPerspectiveRenderer.RenderTargetSize
      { r with Settings := FSDCollisionSettings.Construct cv (g0 + n)
               PixelData := d }) = ⟨(W : Int), (H : Int)⟩ from hsize]
    exact hout

/-- C29 (instance): the 4 x 4 target with the configured tile size 2 and the Linear pattern,
over the four frames that start at the frame counter `2 ^ 32 + 8`, whose frame id is 8. -/
theorem Linear_frames_cover_witness :
    (FSDCollisionSettings.Construct
        { FConsoleVariables.Defaults with SamplingPattern := 0, TileSize := 2 } 0).TileSize = 2
    ∧ SmallRenderer.PixelData.length = 4 * 4
    ∧ 4294967304 % 4294967296 = 2 * (2 * 2)
    ∧ ∃ Final : List FColor,
        RealtimeFrames { FConsoleVariables.Defaults with SamplingPattern := 0, TileSize := 2 }
          SmallRenderer 4294967304 (2 * 2) = some Final
        ∧ ∀ idx : Nat, idx < 4 * 4 →
            Final[idx]? = some (FPerspectiveRenderer.WritebackColour
              { SmallRenderer with Settings := (FSDCollisionSettings.Construct
                  { FConsoleVariables.Defaults with SamplingPattern := 0, TileSize := 2 }
                  4294967304) }
              (FSDCollisionSettings.Construct
                { FConsoleVariables.Defaults with SamplingPattern := 0, TileSize := 2 } 0).VisType
              ⟨((idx % 4 : Nat) : Int), ((idx / 4 : Nat) : Int)⟩) :=
  ⟨by decide, by decide, by decide,
    (Linear_frames_cover { FConsoleVariables.Defaults with SamplingPattern := 0, TileSize := 2 }
      SmallRenderer 4 4 2 2 4294967304 rfl (by decide) (by decide) (by decide) (by decide) rfl
      (by decide) (by decide) (Or.inl (by decide))).2.1⟩

/-! ## Positions outside the target -/

/-- C1 (amended): a position beyond the right or the bottom edge (`X ≥ Width` or
`Y ≥ Height`) is skipped in every mode, and the pixel data stays as it is.  The guard has no
lower bound: a position with `X < Width` and `Y < Height` reaches the store at the index
`Y * Width + X` also when a coordinate is negative, and the call then writes that pixel when
the index is inside the pixel data and fails the range check otherwise.  The callers produce no
negative coordinate: the sample of a tile with a non-negative origin lies at or after the
origin for either pattern and every tile size that `UpdateSettings` leaves, and the pixel of a
ray of the offline trace task is the pair of a remainder and a quotient. -/
theorem RenderPerspectivePixel_outside (r : FPerspectiveRenderer) (VisType : EVisualisationType)
    (PixelPos : FIntPoint) :
    ((r.RenderTargetSize.X ≤ PixelPos.X ∨ r.RenderTargetSize.Y ≤ PixelPos.Y) →
        r.RenderPerspectivePixel VisType PixelPos = some r.PixelData)
    ∧ (PixelPos.X < r.RenderTargetSize.X → PixelPos.Y < r.RenderTargetSize.Y →
        r.RenderPerspectivePixel VisType PixelPos
          = if 0 ≤ PixelPos.Y * r.RenderTargetSize.X + PixelPos.X
                ∧ PixelPos.Y * r.RenderTargetSize.X + PixelPos.X < (r.PixelData.length : Int) then
              some (r.PixelData.set (PixelPos.Y * r.RenderTargetSize.X + PixelPos.X).toNat
                (r.WritebackColour VisType PixelPos))
            else none)
    ∧ (∀ (s : FSDCollisionSettings) (g : Nat) (p : ESamplingPattern) (Tile : FIntPoint)
        (FrameId : Nat), 0 ≤ Tile.X → 0 ≤ Tile.Y →
        0 ≤ (NextTileSamplePosition p Tile (s.UpdateSettings g).TileSize FrameId).X
        ∧ 0 ≤ (NextTileSamplePosition p Tile (s.UpdateSettings g).TileSize FrameId).Y)
    ∧ (∀ R B i off : Nat, 1 ≤ R → R * R < 2147483648 → B < 2147483648 → B * i < R * R →
        off < B →
        0 ≤ (OfflinePixelPos (B : Int) (R : Int) i off).X
        ∧ 0 ≤ (OfflinePixelPos (B : Int) (R : Int) i off).Y) := by
  refine ⟨RenderPerspectivePixel_overhang r VisType PixelPos, ?_, ?_, ?_⟩
  · intro hx hy
    unfold FPerspectiveRenderer.RenderPerspectivePixel
    rw [if_pos ⟨hx, hy⟩]
  · intro s g p Tile FrameId hX hY
    obtain ⟨t1, t2⟩ := Clamp_tile_bounds s.TileSize
    rw [UpdateSettings_TileSize]
    obtain ⟨a, -, b, -⟩ := NextTileSamplePosition_in_tile p Tile (Clamp s.TileSize 2 128)
      FrameId t1 t2
    exact ⟨le_trans hX a, le_trans hY b⟩
  · intro R B i off hR hRR hB hi hoff
    rw [OfflinePixelPos_eq R B i off hR hRR hB hi hoff]
    exact ⟨Int.ofNat_nonneg _, Int.ofNat_nonneg _⟩

end SDCollisionVis
